import Mathlib

/-!
# weight_in_bytes: a shallow embedding of the traversal engine

The development embeds `include/weight_in_bytes.h` (namespace `wib`):
the capability detector (`wib::detail::type_traits`), the utilities
(`wib::detail::wibutil`), the traversal state `data_t`, the recursive
engine `get_heap_allocated_bytes` and the two public entry points.

Modelling decisions.

* A C++ value is an `Obj`: the facts the engine can observe about it.  A
  capability of the type (a trait of `type_traits`) is present exactly when the
  matching field is `some _`; the field then holds what the operation returns
  on this value.  What a hook or an enumeration hands out is a finite value.
* Memory reached through a pointer is a `Heap`, a finite table from addresses
  to the object stored there; address `0` is `nullptr`.  Pointers may form
  cycles.
* `size_t` arithmetic wraps modulo `2 ^ size_t_bits`.
* The two operands of `+` in the `std::pair` branch are evaluated left to right.
* The C++ recursion is not structural (a pointer may lead back to an object
  under traversal), so the engine takes a recursion budget `fuel`; running out
  of it is the fault `out_of_fuel`, and `get_heap_allocated_bytes_total` shows
  that a large enough budget always exists and that more budget never changes
  an outcome.
* Two further faults stand for inputs C++ gives no meaning to: dereferencing a
  pointer to no object, and a type for which the selected branch does not
  compile.  `get_heap_allocated_bytes_returns` shows that they do not occur on
  a valid object graph.
-/

namespace wib

/-! ## Configuration -/

/-- Target and build configuration: the size of `const void*`, the width of
`size_t`, and the three configuration switches of the header. -/
structure Config where
  sizeof_pointer : Nat
  size_t_bits : Nat
  WIB_PFR_ENABLED : Bool
  WIB_CISTA_ENABLED : Bool
  WIB_CEREAL_ENABLED : Bool
deriving DecidableEq, Repr

/-- One more than the largest `size_t`. -/
def Config.SIZE_MOD (cfg : Config) : Nat := 2 ^ cfg.size_t_bits

/-- Addition of two `size_t`. -/
def size_add (cfg : Config) (a b : Nat) : Nat := (a + b) % cfg.SIZE_MOD

/-- Multiplication of two `size_t`. -/
def size_mul (cfg : Config) (a b : Nat) : Nat := (a * b) % cfg.SIZE_MOD

/-- Pre-increment of a `size_t` (`++d`). -/
def size_inc (cfg : Config) (d : Nat) : Nat := (d + 1) % cfg.SIZE_MOD

/-- Pre-decrement of a `size_t` (`--d`). -/
def size_dec (cfg : Config) (d : Nat) : Nat := (d + cfg.SIZE_MOD - 1) % cfg.SIZE_MOD

/-- The policy enumeration `wib::efollow_raw_pointers`. -/
inductive efollow_raw_pointers where
  | False
  | True
deriving DecidableEq, Repr

/-! ## Values under inspection -/

/-- Where a data member is and how large it is: what `std::addressof(m)` and
`sizeof(m)` give for it. -/
structure member_info where
  address : Nat
  sizeof : Nat
deriving DecidableEq, Repr

/-- The part of a value that does not refer to other values: identity of the
type, footprint, location, and every capability whose result is a number. -/
structure value_info where
  /-- The identity `typeid(T)`. -/
  type_index : Nat
  /-- The footprint `sizeof(T)`. -/
  sizeof : Nat
  /-- The location `std::addressof(value)`. -/
  address : Nat
  /-- The trait `std::is_arithmetic_v<T>`. -/
  is_arithmetic : Bool := false
  /-- The trait `std::is_enum_v<T>`. -/
  is_enum : Bool := false
  /-- The trait `is_string_view_v<T>`. -/
  is_string_view : Bool := false
  /-- The trait `is_weak_ptr_v<T>`. -/
  is_weak_ptr : Bool := false
  /-- Present when `has_weight_in_bytes_v<T>`: what `value.weight_in_bytes()`
  returns, converted to `size_t`. -/
  weight_in_bytes : Option Nat := none
  /-- Present when `is_smart_ptr_v<T>`: the address `value.get()`. -/
  smart_ptr : Option Nat := none
  /-- Present when `std::is_pointer_v<T>`: the address held. -/
  pointer : Option Nat := none
  /-- The test `std::is_same_v<std::vector<bool>, T>`. -/
  is_vector_bool : Bool := false
  /-- Present when `has_data_v<T>`: the address `value.data()`. -/
  data : Option Nat := none
  /-- Present when `has_capacity_v<T>`: the count `value.capacity()`. -/
  capacity : Option Nat := none
  /-- The footprint `sizeof(typename T::value_type)`. -/
  sizeof_value_type : Nat := 0
  /-- The trait `is_map_v<T>`: both `key_type` and `mapped_type` exist. -/
  is_map : Bool := false
  /-- Present when the type is not a `std::pair` and the expressions
  `value.first` and `value.second` compile: those two members. -/
  first_second : Option (member_info × member_info) := none
  /-- Present when the type has `begin()` and `end()` and its iterators yield
  values of the type itself that iterate in the same way, as those of a
  `std::filesystem::path` of one component do (it iterates to that component,
  again a path): the addresses of the values yielded.  Such a value has no
  `range`. -/
  iterates_to_itself : Option (List Nat) := none
deriving DecidableEq, Repr

/-- A value as the engine sees it.  Every field after `info` is a capability
that yields further values. -/
structure Obj where
  info : value_info
  /-- Present when `as_tuple_v<T>`: the object `value.as_tuple()` returns. -/
  as_tuple : Option Obj
  /-- Present when `is_optional_v<T>`: `none` inside when `!has_value()`. -/
  optional : Option (Option Obj)
  /-- Present when `is_variant_v<T>`: `none` inside when
  `valueless_by_exception()`, else the active alternative. -/
  variant : Option (Option Obj)
  /-- Present when `is_pair_v<T>`: `first` and `second`. -/
  pair : Option (Obj × Obj)
  /-- Present when `is_tuple_v<T>`: the elements in index order. -/
  tuple : Option (List Obj)
  /-- Present when `has_begin_v<T> && has_end_v<T>` and the iterators yield
  values that are not the value again: the elements in iteration order. -/
  range : Option (List Obj)
  /-- Present when `is_any_v<T>`: `none` inside when `!has_value()`, else the
  payload, whose `type_index` is `value.type()`. -/
  any : Option (Option Obj)
  /-- Present when `has_cereal_serialize_v<T>`: the argument lists of the
  archive invocations `serialize` makes, in order. -/
  serialize : Option (List (List Obj))
  /-- Present when `has_cereal_save_v<T>`: the argument lists of the archive
  invocations `save` makes, in order. -/
  save : Option (List (List Obj))
  /-- Present when `std::is_aggregate_v<T>`: the fields in declaration order,
  as the field enumerator passes them. -/
  aggregate : Option (List Obj)

/-- The value with the given numeric facts and no capability that yields
further values. -/
def Obj.leaf (info : value_info) : Obj :=
  { info := info, as_tuple := none, optional := none, variant := none, pair := none,
    tuple := none, range := none, any := none, serialize := none, save := none,
    aggregate := none }

/-- What `for (auto&& element : value)` iterates over; present when
`has_begin_v<T> && has_end_v<T>`: the elements listed in `range`, or, for a
value that iterates to itself, at each of the addresses it lists a value with
its own type, content and iteration. -/
def Obj.elements (value : Obj) : Option (List Obj) :=
  match value.range with
  | some range => some range
  | none =>
    match value.info.iterates_to_itself with
    | some addresses =>
      some (addresses.map (fun a => { value with info := { value.info with address := a } }))
    | none => none

/-- The members `kvp.first` and `kvp.second` as the first loop of the `is_map`
branch reads them, which takes their address and their size: those of a
`std::pair`, or those of another type that has members of these names; `none`
when the expressions do not compile. -/
def Obj.first_second (kvp : Obj) : Option (member_info × member_info) :=
  match kvp.pair with
  | some (first, second) =>
    some ({ address := first.info.address, sizeof := first.info.sizeof },
          { address := second.info.address, sizeof := second.info.sizeof })
  | none => kvp.info.first_second

/-- Finite memory: the object stored at each allocated address. -/
abbrev Heap := List (Nat × Obj)

/-! ## Traversal state -/

/-- The traversal state `wib::detail::data_t`. -/
structure data_t where
  follow_raw_pointers : efollow_raw_pointers
  /-- The set `handled_addresses`, newest insertion first. -/
  handled_addresses : List Nat
  /-- The collector `unknown_types`; `none` is `nullptr`. -/
  unknown_types : Option (List Nat)
  current_depth : Nat
deriving DecidableEq, Repr

/-- Why a run of the model gives no byte count. -/
inductive Fault where
  /-- The recursion budget was too small. -/
  | out_of_fuel
  /-- A non-null pointer was dereferenced that points to no object. -/
  | dangling_pointer
  /-- The template instantiation is ill-formed for this type (an expression of
  the selected branch does not compile). -/
  | not_instantiable
deriving DecidableEq, Repr

/-- A byte count together with the state left behind, or a fault. -/
abbrev Result := Except Fault (Nat × data_t)

deriving instance DecidableEq for Except

/-! ## Utilities (`wib::detail::wibutil`) -/

/-- The destructor of `wibutil::scope_exit_t` as the engine uses it: when the
scope is left with a result, `--io_data.current_depth` runs. -/
def scope_exit_t (cfg : Config) (r : Result) : Result := do
  let (bytes, io_data) ← r
  pure (bytes, { io_data with current_depth := size_dec cfg io_data.current_depth })

/-- The loop `wibutil::tuple_for_each`: call `f` on every element, in index
order; `σ` is what `f` captured by reference. -/
def tuple_for_each {σ : Type} (f : Obj → σ → Except Fault σ) :
    List Obj → σ → Except Fault σ
  | [], st => pure st
  | element :: rest, st => do
    let st1 ← f element st
    tuple_for_each f rest st1

/-- The search `wibutil::try_visit_any`: the first entry of the type list that
`std::any_cast` accepts (the one equal to the held type) gets `f` called on the
payload and the answer is `true`; with no such entry the answer is `false`. -/
def try_visit_any {σ : Type} (f : Obj → σ → Except Fault σ) (a : Obj) :
    List Nat → σ → Except Fault (Bool × σ)
  | [], st => pure (false, st)
  | value_t :: rest, st =>
    if a.info.type_index = value_t then do
      let st1 ← f a st
      pure (true, st1)
    else try_visit_any f a rest st

/-- The call operator of `wibutil::cereal_archive_inspector`: one archive
invocation hands its arguments to `tuple_for_each`. -/
def cereal_archive_inspector {σ : Type} (f_ : Obj → σ → Except Fault σ)
    (members : List Obj) (st : σ) : Except Fault σ :=
  tuple_for_each f_ members st

/-- A member-enumeration operation (`serialize` or `save`) run against the
inspector: its archive invocations, one after the other. -/
def run_archive {σ : Type} (f_ : Obj → σ → Except Fault σ) :
    List (List Obj) → σ → Except Fault σ
  | [], st => pure st
  | members :: rest, st => do
    let st1 ← cereal_archive_inspector f_ members st
    run_archive f_ rest st1

/-! ## The engine (`wib::detail::get_heap_allocated_bytes`) -/

/-- The statement `bytes += get_heap_allocated_bytes<AnyTypeList>(x, io_data)`
that every visitor lambda of the engine consists of; `recurse` is the engine
itself. -/
def add_bytes (cfg : Config) (recurse : Obj → data_t → Result)
    (x : Obj) (st : Nat × data_t) : Result := do
  let (b, io_data) ← recurse x st.2
  pure (size_add cfg st.1 b, io_data)

/-- The lambda `accumulate_pointer_f`. -/
def accumulate_pointer_f (cfg : Config) (heap : Heap)
    (recurse : Obj → data_t → Result) (ptr : Nat) (io_data : data_t) : Result :=
  if ptr = 0 then pure (0, io_data)
  else if ptr ∈ io_data.handled_addresses then pure (0, io_data)
  else
    match heap.lookup ptr with
    | none => throw Fault.dangling_pointer
    | some pointee => do
      let (b, io_data2) ← recurse pointee
        { io_data with handled_addresses := ptr :: io_data.handled_addresses }
      pure (size_add cfg b pointee.info.sizeof, io_data2)

/-- The lambda `is_inside_self_f`: does `address` lie in the footprint
`[addressof(value), addressof(value) + sizeof(value))`. -/
def is_inside_self_f (value : Obj) (address : Nat) : Bool :=
  decide (address ≥ value.info.address) &&
  decide (address < value.info.address + value.info.sizeof)

/-- The lambda `accumulate_range_f`. -/
def accumulate_range_f (cfg : Config) (recurse : Obj → data_t → Result)
    (range : List Obj) (io_data : data_t) : Result :=
  tuple_for_each (add_bytes cfg recurse) range (0, io_data)

/-- The first loop of the `is_map` branch: for every entry, `sizeof(kvp.first)`
and `sizeof(kvp.second)`, each unless that member lies inside `value`.  The
branch does not compile for an entry type without these members. -/
def map_allocation_bytes (cfg : Config) (value : Obj) :
    List Obj → Nat → Except Fault Nat
  | [], allocation_bytes => pure allocation_bytes
  | kvp :: rest, allocation_bytes =>
    match kvp.first_second with
    | none => throw Fault.not_instantiable
    | some (first, second) =>
      let b1 :=
        if !is_inside_self_f value first.address
        then size_add cfg allocation_bytes first.sizeof else allocation_bytes
      let b2 :=
        if !is_inside_self_f value second.address
        then size_add cfg b1 second.sizeof else b1
      map_allocation_bytes cfg value rest b2

/-- The first loop of the generic container branch: `sizeof(element)` for
every element that does not lie inside `value`. -/
def container_allocation_bytes (cfg : Config) (value : Obj) :
    List Obj → Nat → Nat
  | [], allocation_bytes => allocation_bytes
  | element :: rest, allocation_bytes =>
    container_allocation_bytes cfg value rest
      (if !is_inside_self_f value element.info.address
       then size_add cfg allocation_bytes element.info.sizeof else allocation_bytes)

/-- The visitor lambda of the `std::any` branch. -/
def any_visitor (cfg : Config) (recurse : Obj → data_t → Result) (value : Obj)
    (casted_value : Obj) (st : Nat × data_t) : Result := do
  let (bytes, io_data) ← add_bytes cfg recurse casted_value st
  -- Element might be allocated in small storage
  if !is_inside_self_f value casted_value.info.address
  then pure (size_add cfg bytes casted_value.info.sizeof, io_data)
  else pure (bytes, io_data)

/-- The call `io_data.unknown_types->emplace(t)`. -/
def emplace_unknown (t : Nat) (io_data : data_t) : data_t :=
  match io_data.unknown_types with
  | none => io_data
  | some types =>
    { io_data with unknown_types := some (if t ∈ types then types else t :: types) }

/-- The tail of the engine, after the `if constexpr` chain: store the unknown
type when a collector is attached, and return 0. -/
def store_unknown_type (value : Obj) (io_data : data_t) : Result :=
  if io_data.unknown_types.isSome
  then pure (0, emplace_unknown value.info.type_index io_data)
  else pure (0, io_data)

/-- The `if constexpr` chain of `get_heap_allocated_bytes`, from the
`is_string_view_v` test down to the final `return 0`; `recurse` stands for the
recursive instantiations `get_heap_allocated_bytes<AnyTypeList>`, and `io_data`
already has the depth counter incremented. -/
def get_heap_allocated_bytes_chain (cfg : Config) (AnyTypeList : List Nat) (heap : Heap)
    (recurse : Obj → data_t → Result) (value : Obj) (io_data : data_t) : Result :=
  let record_unknown_types := io_data.unknown_types.isSome
  -- non-allocating std types
  if value.info.is_string_view || value.info.is_weak_ptr then pure (0, io_data)
  -- has custom weight_in_bytes
  else if let some w := value.info.weight_in_bytes then pure (w, io_data)
  -- has custom as_tuple
  else if let some t := value.as_tuple then recurse t io_data
  -- objects smaller than a pointer
  else if value.info.sizeof < cfg.sizeof_pointer then pure (0, io_data)
  -- std::optional
  else if let some o := value.optional then
    match o with
    | some contained => recurse contained io_data
    | none => pure (0, io_data)
  -- smart_ptr
  else if let some ptr := value.info.smart_ptr then
    accumulate_pointer_f cfg heap recurse ptr io_data
  -- raw pointer
  else if let some ptr := value.info.pointer then
    if io_data.follow_raw_pointers = efollow_raw_pointers.True
    then accumulate_pointer_f cfg heap recurse ptr io_data
    else pure (0, io_data)
  -- std::variant
  else if let some v := value.variant then
    match v with
    | none => pure (0, io_data)
    | some variant_value => recurse variant_value io_data
  -- std::pair
  else if let some (first, second) := value.pair then do
    let (b1, io_data1) ← recurse first io_data
    let (b2, io_data2) ← recurse second io_data1
    pure (size_add cfg b1 b2, io_data2)
  -- std::tuple
  else if let some elements := value.tuple then
    tuple_for_each (add_bytes cfg recurse) elements (0, io_data)
  -- container
  else if let some range := value.elements then
    if value.info.is_vector_bool then
      match value.info.capacity with
      | some capacity => pure (capacity / 8, io_data)
      | none => throw Fault.not_instantiable
    else if let (some data, some capacity) := (value.info.data, value.info.capacity) then do
      let is_stack_allocated := is_inside_self_f value data
      let allocation_bytes :=
        if data = 0 then 0
        else if is_stack_allocated then 0
        else size_mul cfg value.info.sizeof_value_type capacity
      let (b, io_data1) ← accumulate_range_f cfg recurse range io_data
      pure (size_add cfg allocation_bytes b, io_data1)
    else if value.info.is_map then do
      let allocation_bytes ← map_allocation_bytes cfg value range 0
      let (b, io_data1) ← accumulate_range_f cfg recurse range io_data
      pure (size_add cfg allocation_bytes b, io_data1)
    else do
      let allocation_bytes := container_allocation_bytes cfg value range 0
      let (b, io_data1) ← accumulate_range_f cfg recurse range io_data
      pure (size_add cfg allocation_bytes b, io_data1)
  -- std::any
  else if let some a := value.any then
    match a with
    | none => pure (0, io_data)
    | some held => do
      let (handled, bytes, io_data1) ←
        try_visit_any (any_visitor cfg recurse value) held AnyTypeList (0, io_data)
      if !handled && record_unknown_types
      then pure (bytes, emplace_unknown held.info.type_index io_data1)
      else pure (bytes, io_data1)
  -- access members via cereal
  else if let (true, some calls) := (cfg.WIB_CEREAL_ENABLED, value.serialize) then
    run_archive (add_bytes cfg recurse) calls (0, io_data)
  else if let (true, some calls) := (cfg.WIB_CEREAL_ENABLED, value.save) then
    run_archive (add_bytes cfg recurse) calls (0, io_data)
  -- access members via struct-to-tuple decomposition
  else if let some fields := value.aggregate then
    if cfg.WIB_PFR_ENABLED then
      if fields.length = 0 then pure (0, io_data)
      else tuple_for_each (add_bytes cfg recurse) fields (0, io_data)
    else if cfg.WIB_CISTA_ENABLED then
      tuple_for_each (add_bytes cfg recurse) fields (0, io_data)
    else store_unknown_type value io_data
  else store_unknown_type value io_data

/-- The engine `wib::detail::get_heap_allocated_bytes<AnyTypeList>(value,
io_data)`, run with a recursion budget. -/
def get_heap_allocated_bytes (cfg : Config) (AnyTypeList : List Nat) (heap : Heap) :
    Nat → Obj → data_t → Result
  | 0, _, _ => throw Fault.out_of_fuel
  | fuel + 1, value, io_data =>
    -- Skip plain simple types (int, float, char, bool, enum etc)
    if value.info.is_arithmetic || value.info.is_enum then pure (0, io_data)
    else
      scope_exit_t cfg
        (get_heap_allocated_bytes_chain cfg AnyTypeList heap
          (get_heap_allocated_bytes cfg AnyTypeList heap fuel) value
          { io_data with current_depth := size_inc cfg io_data.current_depth })

/-! ## Public interface (`namespace wib`) -/

/-- The state both entry points start from. -/
def initial_data (follow_raw_pointers : efollow_raw_pointers)
    (unknown_types : Option (List Nat)) : data_t :=
  { follow_raw_pointers := follow_raw_pointers
    handled_addresses := []
    unknown_types := unknown_types
    current_depth := 0 }

/-- The entry point `wib::weight_in_bytes<AnyTypeList>(value, follow_raw_pointers)`. -/
def weight_in_bytes (cfg : Config) (AnyTypeList : List Nat) (heap : Heap) (fuel : Nat)
    (value : Obj)
    (follow_raw_pointers : efollow_raw_pointers := efollow_raw_pointers.False) :
    Except Fault Nat := do
  let (bytes, _) ← get_heap_allocated_bytes cfg AnyTypeList heap fuel value
    (initial_data follow_raw_pointers none)
  pure bytes

/-- The entry point `wib::unknown_typeindexes<AnyTypeList>(value,
follow_raw_pointers)`. -/
def unknown_typeindexes (cfg : Config) (AnyTypeList : List Nat) (heap : Heap) (fuel : Nat)
    (value : Obj)
    (follow_raw_pointers : efollow_raw_pointers := efollow_raw_pointers.False) :
    Except Fault (List Nat) := do
  let (_, io_data) ← get_heap_allocated_bytes cfg AnyTypeList heap fuel value
    (initial_data follow_raw_pointers (some []))
  pure (io_data.unknown_types.getD [])

/-! ## Notions used in the proofs -/

/-- A visitor or engine instance keeps a relation on states. -/
def Keeps (R : data_t → data_t → Prop) (f : Obj → data_t → Result) : Prop :=
  ∀ x s b s', f x s = .ok (b, s') → R s s'

/-- A visitor lambda keeps a relation on the state it captured. -/
def KeepsV (R : data_t → data_t → Prop) (F : Obj → Nat × data_t → Result) : Prop :=
  ∀ x st st', F x st = .ok st' → R st.2 st'.2

/-- The outcome `r'` is `r`, unless `r` ran out of fuel. -/
def FuelLe {α : Type} (r r' : Except Fault α) : Prop :=
  r = .error Fault.out_of_fuel ∨ r' = r

/-- More fuel: `g` agrees with `f` wherever `f` did not run out of fuel. -/
def FuelLeF (f g : Obj → data_t → Result) : Prop := ∀ x s, FuelLe (f x s) (g x s)

/-- The values one capability of `v` leads to. -/
def Obj.children (v : Obj) : List Obj :=
  v.as_tuple.toList ++ (v.optional.getD none).toList ++ (v.variant.getD none).toList ++
  (match v.pair with
   | some (a, b) => [a, b]
   | none => []) ++
  v.tuple.getD [] ++ v.elements.getD [] ++ (v.any.getD none).toList ++
  (v.serialize.getD []).flatten ++ (v.save.getD []).flatten ++ v.aggregate.getD []

/-- The state `s'` continues `s`: same policy, the visited addresses of `s` with
further insertions in front, no address twice if none was, collector still
attached or still absent. -/
def grows (s s' : data_t) : Prop :=
  s'.follow_raw_pointers = s.follow_raw_pointers ∧
  (∃ new, s'.handled_addresses = new ++ s.handled_addresses) ∧
  (s.handled_addresses.Nodup → s'.handled_addresses.Nodup) ∧
  s'.unknown_types.isSome = s.unknown_types.isSome

/-- How many addresses of the heap are not marked as handled. -/
def unvisited (heap : Heap) (s : data_t) : Nat :=
  ((heap.map Prod.fst).toFinset \ s.handled_addresses.toFinset).card

/-- Every fault of the outcome `r` satisfies `P`. -/
def Avoids {α : Type} (P : Fault → Prop) (r : Except Fault α) : Prop :=
  ∀ e, r = .error e → P e

/-- The objects a traversal that starts at a value can get to: the value itself,
what its capabilities yield, and what its pointers lead to on the heap. -/
inductive Reaches (heap : Heap) : Obj → Obj → Prop where
  | here (v : Obj) : Reaches heap v v
  | child {v c x : Obj} (hc : c ∈ v.children) (h : Reaches heap c x) : Reaches heap v x
  | smart_ptr {v p x : Obj} {ptr : Nat} (hv : v.info.smart_ptr = some ptr)
      (hl : heap.lookup ptr = some p) (h : Reaches heap p x) : Reaches heap v x
  | pointer {v p x : Obj} {ptr : Nat} (hv : v.info.pointer = some ptr)
      (hl : heap.lookup ptr = some p) (h : Reaches heap p x) : Reaches heap v x

/-- The object is one the header compiles for, C++ gives a meaning to, and
whose iteration does not lead back to it: its non-null pointers point to
objects, a `std::vector<bool>` has `capacity()`, the entries of a map have
members `first` and `second`, and it does not iterate to itself. -/
def Obj.valid (heap : Heap) (x : Obj) : Prop :=
  (∀ ptr, (x.info.smart_ptr = some ptr ∨ x.info.pointer = some ptr) → ptr ≠ 0 →
    heap.lookup ptr ≠ none) ∧
  (x.info.is_vector_bool = true → x.info.capacity ≠ none) ∧
  (x.info.is_map = true → ∀ r, x.elements = some r → ∀ e ∈ r, e.first_second ≠ none) ∧
  x.info.iterates_to_itself = none

/-- No object a traversal from `v` can get to iterates to itself: the values
that iteration, hooks and members yield form finite trees, linked by the
pointers of the finite heap. -/
def finite_graph (heap : Heap) (v : Obj) : Prop :=
  ∀ x, Reaches heap v x → x.info.iterates_to_itself = none

/-- An object graph without dangling pointers and ill-formed instantiations:
every object a traversal from `v` can get to is valid. -/
def valid_graph (heap : Heap) (v : Obj) : Prop :=
  ∀ x, Reaches heap v x → x.valid heap

/-! ## The chain as a composition of steps

Which branch the chain takes, and what the branch calls, is decided by the type
and the content of the value alone.  `shape_of` records the decision; `Shape.run`
is the decided branch as a function of the state. -/

/-- The steps a branch of the chain is made of. -/
inductive Shape where
  /-- `return bytes`. -/
  | ret (bytes : Nat)
  /-- A fault of the model. -/
  | fail (e : Fault)
  /-- A call of the engine on `x`. -/
  | call (x : Obj)
  /-- The call `accumulate_pointer_f(p)`. -/
  | ptr (p : Nat)
  /-- The raw pointer branch: `accumulate_pointer_f(p)` under the policy `True`,
  0 otherwise. -/
  | raw (p : Nat)
  /-- Two steps, one after the other, their byte counts added. -/
  | seq (a b : Shape)
  /-- The call `unknown_types->emplace(t)` when a collector is attached, and
  0 bytes. -/
  | record (t : Nat)

/-- The loop over the elements of a range or tuple: a call for each in turn. -/
def Shape.sum : List Obj → Shape
  | [] => .ret 0
  | e :: es => .seq (.call e) (Shape.sum es)

/-- The branch as a function of the state. -/
def Shape.run (cfg : Config) (heap : Heap) (recurse : Obj → data_t → Result) :
    Shape → data_t → Result
  | .ret bytes, s => .ok (bytes, s)
  | .fail e, _ => .error e
  | .call x, s => recurse x s
  | .ptr p, s => accumulate_pointer_f cfg heap recurse p s
  | .raw p, s =>
    if s.follow_raw_pointers = efollow_raw_pointers.True
    then accumulate_pointer_f cfg heap recurse p s else .ok (0, s)
  | .seq a b, s => do
    let r1 ← a.run cfg heap recurse s
    let r2 ← b.run cfg heap recurse r1.2
    pure (size_add cfg r1.1 r2.1, r2.2)
  | .record t, s => .ok (0, emplace_unknown t s)

/-- The branch of `get_heap_allocated_bytes_chain` taken for `value`. -/
def shape_of (cfg : Config) (AnyTypeList : List Nat) (value : Obj) : Shape :=
  if value.info.is_string_view || value.info.is_weak_ptr then .ret 0
  else if let some w := value.info.weight_in_bytes then .ret w
  else if let some t := value.as_tuple then .call t
  else if value.info.sizeof < cfg.sizeof_pointer then .ret 0
  else if let some o := value.optional then
    match o with
    | some contained => .call contained
    | none => .ret 0
  else if let some ptr := value.info.smart_ptr then .ptr ptr
  else if let some ptr := value.info.pointer then .raw ptr
  else if let some v := value.variant then
    match v with
    | none => .ret 0
    | some variant_value => .call variant_value
  else if let some (first, second) := value.pair then .seq (.call first) (.call second)
  else if let some elements := value.tuple then .seq (.ret 0) (Shape.sum elements)
  else if let some range := value.elements then
    if value.info.is_vector_bool then
      match value.info.capacity with
      | some capacity => .ret (capacity / 8)
      | none => .fail Fault.not_instantiable
    else if let (some data, some capacity) := (value.info.data, value.info.capacity) then
      .seq
        (.ret (if data = 0 then 0
               else if is_inside_self_f value data then 0
               else size_mul cfg value.info.sizeof_value_type capacity))
        (.seq (.ret 0) (Shape.sum range))
    else if value.info.is_map then
      match map_allocation_bytes cfg value range 0 with
      | .error e => .fail e
      | .ok allocation_bytes =>
        .seq (.ret allocation_bytes) (.seq (.ret 0) (Shape.sum range))
    else
      .seq (.ret (container_allocation_bytes cfg value range 0))
        (.seq (.ret 0) (Shape.sum range))
  else if let some a := value.any then
    match a with
    | none => .ret 0
    | some held =>
      if held.info.type_index ∈ AnyTypeList then
        if !is_inside_self_f value held.info.address
        then .seq (.seq (.ret 0) (.call held)) (.ret held.info.sizeof)
        else .seq (.ret 0) (.call held)
      else .record held.info.type_index
  else if let (true, some calls) := (cfg.WIB_CEREAL_ENABLED, value.serialize) then
    .seq (.ret 0) (Shape.sum calls.flatten)
  else if let (true, some calls) := (cfg.WIB_CEREAL_ENABLED, value.save) then
    .seq (.ret 0) (Shape.sum calls.flatten)
  else if let some fields := value.aggregate then
    if cfg.WIB_PFR_ENABLED then
      if fields.length = 0 then .ret 0 else .seq (.ret 0) (Shape.sum fields)
    else if cfg.WIB_CISTA_ENABLED then .seq (.ret 0) (Shape.sum fields)
    else .record value.info.type_index
  else .record value.info.type_index

/-- Two states agree on what steers the traversal: the pointer policy and the
visited addresses. -/
def same_visit (s t : data_t) : Prop :=
  s.follow_raw_pointers = t.follow_raw_pointers ∧
  s.handled_addresses = t.handled_addresses

/-- Two outcomes agree: the same fault, or the same byte count with states that
agree on policy and visited addresses. -/
def same_outcome (r r' : Result) : Prop :=
  match r, r' with
  | .ok (b, s), .ok (b', s') => b = b' ∧ same_visit s s'
  | .error e, .error e' => e = e'
  | _, _ => False

/-- Started from states that agree, `F` and `F'` end with outcomes that agree. -/
def Respects (F F' : data_t → Result) : Prop :=
  ∀ s t, same_visit s t → same_outcome (F s) (F' t)

/-- The engine with the depth counter on entry adjusted as
`get_heap_allocated_bytes` does around the chain. -/
def in_scope (cfg : Config) (F : data_t → Result) : data_t → Result :=
  fun s => scope_exit_t cfg (F { s with current_depth := size_inc cfg s.current_depth })

/-- The engine instance `recurse` under observation: a call that starts with a
depth counter other than `d` is turned into a fault. -/
def only_at_depth (d : Nat) (recurse : Obj → data_t → Result) : Obj → data_t → Result :=
  fun x io => if io.current_depth = d then recurse x io else .error Fault.not_instantiable

/-! ## Settled addresses and their charges -/

/-- The address `x` is settled under the policy `follow` and the visited
addresses `handled`: the object stored at `x`, traversed from a state with that
policy and those visited addresses, returns `l` bytes and visits no further
address.  Its charge `c` is `sizeof(pointee) + l`, what `accumulate_pointer_f`
adds for it. -/
def Cost (cfg : Config) (types : List Nat) (heap : Heap) (follow : efollow_raw_pointers)
    (handled : List Nat) (x c : Nat) : Prop :=
  ∃ fuel pointee t l t', heap.lookup x = some pointee ∧
    t.follow_raw_pointers = follow ∧ t.handled_addresses = handled ∧
    get_heap_allocated_bytes cfg types heap fuel pointee t = .ok (l, t') ∧
    t'.handled_addresses = handled ∧ c = pointee.info.sizeof + l

/-- The policy `a` follows no pointer that the policy `b` does not follow. -/
def policy_le (a b : efollow_raw_pointers) : Prop :=
  a = efollow_raw_pointers.True → b = efollow_raw_pointers.True

/-- What a run of `F` leaves behind is settled: the run only adds visited
addresses, and from every state `t` that contains them (under a policy that
follows no more) `F` returns without visiting anything, every added address is
settled there, and the bytes of the first run are the bytes of the run from `t`
plus the charges of the added addresses, as `size_t`. -/
def Settles (cfg : Config) (types : List Nat) (heap : Heap) (F : data_t → Result) : Prop :=
  ∀ s b s', F s = .ok (b, s') →
    s'.follow_raw_pointers = s.follow_raw_pointers ∧
    ∃ new, s'.handled_addresses = new ++ s.handled_addresses ∧
      ∀ t, policy_le t.follow_raw_pointers s.follow_raw_pointers →
        (∀ p ∈ s'.handled_addresses, p ∈ t.handled_addresses) →
        ∃ l t' cs, F t = .ok (l, t') ∧ same_visit t' t ∧
          List.Forall₂ (Cost cfg types heap t.follow_raw_pointers t.handled_addresses)
            new cs ∧
          b % cfg.SIZE_MOD = (l + cs.sum) % cfg.SIZE_MOD

/-- A run of `F` only adds visited addresses and keeps the policy. -/
def Grows (F : data_t → Result) : Prop :=
  ∀ s b s', F s = .ok (b, s') → grows s s'

/-- A run of `F` from `s` visits nothing outside a set `g` that contains `s`,
that a run of `F'` leaves as it is, and in which every address not in `s` is
settled. -/
def Minimal (cfg : Config) (types : List Nat) (heap : Heap) (F F' : data_t → Result) : Prop :=
  ∀ s b s' g l g', F s = .ok (b, s') → F' g = .ok (l, g') →
    g'.handled_addresses = g.handled_addresses →
    s.follow_raw_pointers = g.follow_raw_pointers →
    (∀ p ∈ s.handled_addresses, p ∈ g.handled_addresses) →
    (∀ x ∈ g.handled_addresses, x ∉ s.handled_addresses →
      ∃ c, Cost cfg types heap g.follow_raw_pointers g.handled_addresses x c) →
    ∀ p ∈ s'.handled_addresses, p ∈ g.handled_addresses

/-! ## Where a value enters the chain

The engine picks a branch by the first test that succeeds.  The predicates
below say that all tests before a given one fail. -/

/-- The value is a plain simple type: `std::is_arithmetic_v<T> ||
std::is_enum_v<T>`. -/
def is_scalar (value : Obj) : Prop :=
  value.info.is_arithmetic = true ∨ value.info.is_enum = true

/-- The value is one of the non-allocating std types: `is_string_view_v<T> ||
is_weak_ptr_v<T>`. -/
def is_view (value : Obj) : Prop :=
  value.info.is_string_view = true ∨ value.info.is_weak_ptr = true

instance (value : Obj) : Decidable (is_scalar value) := by
  unfold is_scalar; infer_instance

instance (value : Obj) : Decidable (is_view value) := by
  unfold is_view; infer_instance

/-- No test before the `std::optional` one applies: the value is neither scalar
nor a view, has neither hook, and is at least as large as a pointer. -/
def reaches_optional_test (cfg : Config) (value : Obj) : Prop :=
  value.info.is_arithmetic = false ∧ value.info.is_enum = false ∧
  value.info.is_string_view = false ∧ value.info.is_weak_ptr = false ∧
  value.info.weight_in_bytes = none ∧ value.as_tuple = none ∧
  cfg.sizeof_pointer ≤ value.info.sizeof

/-- The value is handled by the `smart_ptr` branch and holds the address `ptr`. -/
def is_smart_ptr (cfg : Config) (value : Obj) (ptr : Nat) : Prop :=
  reaches_optional_test cfg value ∧ value.optional = none ∧
  value.info.smart_ptr = some ptr

/-- The value is handled by the raw pointer branch and holds the address `ptr`. -/
def is_raw_pointer (cfg : Config) (value : Obj) (ptr : Nat) : Prop :=
  reaches_optional_test cfg value ∧ value.optional = none ∧
  value.info.smart_ptr = none ∧ value.info.pointer = some ptr

/-- No test before the container one applies. -/
def reaches_container_test (cfg : Config) (value : Obj) : Prop :=
  reaches_optional_test cfg value ∧ value.optional = none ∧
  value.info.smart_ptr = none ∧ value.info.pointer = none ∧
  value.variant = none ∧ value.pair = none ∧ value.tuple = none

/-- The value is handled by the `is_continuous_memory` branch: a container with
`data()` and `capacity()` that is not `std::vector<bool>`. -/
def is_continuous_memory (cfg : Config) (value : Obj) (range : List Obj)
    (data capacity : Nat) : Prop :=
  reaches_container_test cfg value ∧ value.elements = some range ∧
  value.info.is_vector_bool = false ∧
  value.info.data = some data ∧ value.info.capacity = some capacity

/-- The value is handled by the last container branch: iterable, not
`std::vector<bool>`, not continuous memory, not a map. -/
def is_generic_container (cfg : Config) (value : Obj) (range : List Obj) : Prop :=
  reaches_container_test cfg value ∧ value.elements = some range ∧
  value.info.is_vector_bool = false ∧
  (value.info.data = none ∨ value.info.capacity = none) ∧
  value.info.is_map = false

/-- The value is handled by the `std::any` branch; `a` is what it holds. -/
def is_any (cfg : Config) (value : Obj) (a : Option Obj) : Prop :=
  reaches_container_test cfg value ∧ value.elements = none ∧ value.any = some a

/-- The charge of the `is_continuous_memory` branch for the buffer itself. -/
def buffer_bytes (cfg : Config) (value : Obj) (data capacity : Nat) : Nat :=
  if data = 0 ∨ is_inside_self_f value data = true then 0
  else size_mul cfg value.info.sizeof_value_type capacity

/-- The elements of `range`, traversed one after the other from state `s`, have
the recursive weights `weights` and leave the state `s'`. -/
def range_weights (recurse : Obj → data_t → Result) :
    List Obj → data_t → List Nat → data_t → Prop
  | [], s, [], s' => s' = s
  | element :: rest, s, w :: ws, s' =>
    ∃ s1, recurse element s = .ok (w, s1) ∧ range_weights recurse rest s1 ws s'
  | _, _, _, _ => False

/-- The value owns nothing on the heap as far as the engine can tell: in every
state (whose depth counter is a `size_t`) its weight is 0 and the state is left
as it was. -/
def heap_free (cfg : Config) (recurse : Obj → data_t → Result) (x : Obj) : Prop :=
  ∀ io, io.current_depth < cfg.SIZE_MOD → recurse x io = .ok (0, io)

/-! ## Concrete values

The target of the test suite: pointers of 8 bytes, `size_t` of 64 bits, only
`WIB_CEREAL_ENABLED` defined. -/

/-- The configuration `test.cpp` is built with. -/
def lp64 : Config :=
  { sizeof_pointer := 8, size_t_bits := 64, WIB_PFR_ENABLED := false,
    WIB_CISTA_ENABLED := false, WIB_CEREAL_ENABLED := true }

/-- A `char` at address `a`. -/
def char_at (a : Nat) : Obj :=
  Obj.leaf { type_index := 1, sizeof := 1, address := a, is_arithmetic := true }

/-- A `std::vector<char>` (`bytevec_t`) at `addr` whose buffer of `capacity`
bytes starts at `data` and holds `size` live elements. -/
def bytevec (addr data capacity size : Nat) : Obj :=
  { Obj.leaf { type_index := 2, sizeof := 24, address := addr, data := some data,
               capacity := some capacity, sizeof_value_type := 1 } with
    range := some ((List.range size).map (fun i => char_at (data + i))) }

/-- A `std::shared_ptr` at `addr` that holds the address `target`. -/
def shared_ptr_at (addr target : Nat) : Obj :=
  Obj.leaf { type_index := 4, sizeof := 16, address := addr, smart_ptr := some target }

/-- A raw pointer `bytevec_t*` at `addr` that holds the address `target`. -/
def raw_pointer_at (addr target : Nat) : Obj :=
  Obj.leaf { type_index := 5, sizeof := 8, address := addr, pointer := some target }

/-- A `std::array` at `addr` of the given elements, `sizeof_element` bytes each
(it has `data()` but no `capacity()`). -/
def array_of (type_index addr sizeof_element : Nat) (elements : List Obj) : Obj :=
  { Obj.leaf { type_index := type_index, sizeof := sizeof_element * elements.length,
               address := addr, data := some addr,
               sizeof_value_type := sizeof_element } with
    range := some elements }

/-- A `std::weak_ptr` at `addr`. -/
def weak_ptr_at (addr : Nat) : Obj :=
  Obj.leaf { type_index := 9, sizeof := 16, address := addr, is_weak_ptr := true }

/-- The test type `str_t` of "custom access": a hook `weight_in_bytes()` that
returns `w`, next to a member `dummy_a` that owns a buffer. -/
def hooked_at (addr w : Nat) (dummy_a : Obj) : Obj :=
  { Obj.leaf { type_index := 11, sizeof := 24, address := addr,
               weight_in_bytes := some w } with
    aggregate := some [dummy_a] }

/-- The heap of the "raw pointer" test: one `bytevec_t` at address 4096, resized
to 128 bytes, its buffer at 8192. -/
def raw_pointer_test_heap : Heap := [(4096, bytevec 4096 8192 128 128)]

/-- The array of the "raw pointer" test: a `std::array<bytevec_t*, 12>` at
address 64, every element holding the address 4096. -/
def raw_pointer_test_array : Obj :=
  array_of 6 64 8 ((List.range 12).map (fun i => raw_pointer_at (64 + 8 * i) 4096))

/-- A `std::vector` at `addr` of the given elements, `sizeof_element` bytes each,
in a buffer at `data` with room for `capacity` elements. -/
def vector_of (type_index addr data capacity sizeof_element : Nat)
    (elements : List Obj) : Obj :=
  { Obj.leaf { type_index := type_index, sizeof := 24, address := addr, data := some data,
               capacity := some capacity, sizeof_value_type := sizeof_element } with
    range := some elements }

/-- The pointee of the `std::shared_ptr` test: a `std::array<char, 128>` at
address 4096. -/
def shared_ptr_test_value : Obj :=
  array_of 3 4096 1 ((List.range 128).map (fun i => char_at (4096 + i)))

/-- The heap of the `std::shared_ptr` test. -/
def shared_ptr_test_heap : Heap := [(4096, shared_ptr_test_value)]

/-- The 100 copies of the handle, stored from address 8192 on: the first one
and the 99 after it. -/
def shared_ptr_test_handles : List Obj :=
  shared_ptr_at 8192 4096 ::
    (List.range 99).map (fun i => shared_ptr_at (8192 + 16 * (i + 1)) 4096)

/-- A node of a linked structure: a class at `addr` whose decomposition hook
`as_tuple()` exposes its one member, a `std::shared_ptr` to the node at `next`. -/
def node_at (addr next : Nat) : Obj :=
  { Obj.leaf { type_index := 12, sizeof := 16, address := addr } with
    as_tuple := some
      { Obj.leaf { type_index := 13, sizeof := 8, address := 16 } with
        tuple := some [shared_ptr_at addr next] } }

/-- Two nodes that own each other: the node at 4096 points to the node at 8192
and back. -/
def cycle_heap : Heap := [(4096, node_at 4096 8192), (8192, node_at 8192 4096)]

/-- A `std::string` at `addr` on a target with a small buffer of 16 bytes at
offset 16: `data()` is `data`, `capacity()` is `capacity`. -/
def string_at (addr data capacity size : Nat) : Obj :=
  { Obj.leaf { type_index := 14, sizeof := 32, address := addr, data := some data,
               capacity := some capacity, sizeof_value_type := 1 } with
    range := some ((List.range size).map (fun i => char_at (data + i))) }

/-- A `std::vector<bytevec_t>` at address 64 with a buffer for one element at
8192, holding one byte vector whose own buffer of 128 bytes is at 12288. -/
def vector_of_bytevec_full : Obj :=
  vector_of 15 64 8192 1 24 [bytevec 8192 12288 128 128]

/-- The same vector after `clear()`: same buffer, same capacity, no live
element. -/
def vector_of_bytevec_cleared : Obj :=
  vector_of 15 64 8192 1 24 []

/-- A `std::any` at `addr` (16 bytes) that holds `held`. -/
def any_at (addr : Nat) (held : Option Obj) : Obj :=
  { Obj.leaf { type_index := 16, sizeof := 16, address := addr } with any := some held }

/-- A value of a type the engine has no strategy for, such as
`std::chrono::steady_clock::time_point`: 8 bytes, no capability. -/
def time_point_at (addr : Nat) : Obj :=
  Obj.leaf { type_index := 17, sizeof := 8, address := addr }

/-- A `std::array<bytevec_t, 2>` at `addr` whose two vectors were constructed
with 1024 bytes each. -/
def array_of_bytevecs (addr : Nat) : Obj :=
  array_of 18 addr 24
    [bytevec addr 8192 1024 1024, bytevec (addr + 24) 12288 1024 1024]

/-! ## The branches after the small-object test -/

/-- The value is handled by the small-object test: not scalar, not a view,
without either hook, and smaller than a pointer. -/
def is_small_object (cfg : Config) (value : Obj) : Prop :=
  value.info.is_arithmetic = false ∧ value.info.is_enum = false ∧
  value.info.is_string_view = false ∧ value.info.is_weak_ptr = false ∧
  value.info.weight_in_bytes = none ∧ value.as_tuple = none ∧
  value.info.sizeof < cfg.sizeof_pointer

/-- The value is handled by the `std::optional` branch; `contained` is what it
holds, `none` when `!has_value()`. -/
def is_optional (cfg : Config) (value : Obj) (contained : Option Obj) : Prop :=
  reaches_optional_test cfg value ∧ value.optional = some contained

/-- The value is handled by the `std::variant` branch; `active` is the active
alternative, `none` when `valueless_by_exception()`. -/
def is_variant (cfg : Config) (value : Obj) (active : Option Obj) : Prop :=
  reaches_optional_test cfg value ∧ value.optional = none ∧
  value.info.smart_ptr = none ∧ value.info.pointer = none ∧
  value.variant = some active

/-- The value is handled by the `std::pair` branch. -/
def is_pair (cfg : Config) (value : Obj) (first second : Obj) : Prop :=
  reaches_optional_test cfg value ∧ value.optional = none ∧
  value.info.smart_ptr = none ∧ value.info.pointer = none ∧
  value.variant = none ∧ value.pair = some (first, second)

/-- The value is handled by the `std::tuple` branch. -/
def is_tuple (cfg : Config) (value : Obj) (elements : List Obj) : Prop :=
  reaches_optional_test cfg value ∧ value.optional = none ∧
  value.info.smart_ptr = none ∧ value.info.pointer = none ∧
  value.variant = none ∧ value.pair = none ∧ value.tuple = some elements

/-- The value is handled by the `is_vector_bool` branch: it is a
`std::vector<bool>` whose `capacity()` is `capacity`. -/
def is_bit_packed (cfg : Config) (value : Obj) (range : List Obj) (capacity : Nat) : Prop :=
  reaches_container_test cfg value ∧ value.elements = some range ∧
  value.info.is_vector_bool = true ∧ value.info.capacity = some capacity

/-- The value is handled by the `is_map` branch: iterable, not
`std::vector<bool>`, not continuous memory, with `key_type` and `mapped_type`. -/
def is_associative (cfg : Config) (value : Obj) (range : List Obj) : Prop :=
  reaches_container_test cfg value ∧ value.elements = some range ∧
  value.info.is_vector_bool = false ∧
  (value.info.data = none ∨ value.info.capacity = none) ∧
  value.info.is_map = true

/-- No test before the `std::is_aggregate_v` one applies: the value is neither
a container nor a `std::any`, and the cereal branch is compiled out or the type
has neither `serialize` nor `save`. -/
def reaches_aggregate_test (cfg : Config) (value : Obj) : Prop :=
  reaches_container_test cfg value ∧ value.elements = none ∧ value.any = none ∧
  (cfg.WIB_CEREAL_ENABLED = false ∨ (value.serialize = none ∧ value.save = none))

/-- The value is an aggregate that reaches the `std::is_aggregate_v` test;
`fields` are its fields. -/
def is_plain_aggregate (cfg : Config) (value : Obj) (fields : List Obj) : Prop :=
  reaches_aggregate_test cfg value ∧ value.aggregate = some fields

/-- No branch of the chain handles the value: it reaches the aggregate test and
is no aggregate, or it is one and neither field enumerator is compiled in. -/
def matches_no_strategy (cfg : Config) (value : Obj) : Prop :=
  reaches_aggregate_test cfg value ∧
  (value.aggregate = none ∨
    (cfg.WIB_PFR_ENABLED = false ∧ cfg.WIB_CISTA_ENABLED = false))

/-! ## The charges of the specification

Written from the sentences of the specification, to be compared with the loops
of the engine. -/

/-- The charge for the elements of an iterable: `sizeof(element)` for every
element stored outside the footprint of `value`. -/
def element_footprints (value : Obj) (range : List Obj) : Nat :=
  (range.map (fun element =>
    if is_inside_self_f value element.info.address = true then 0
    else element.info.sizeof)).sum

/-- The charge for the entries of a key/value container: for every entry
`sizeof(key)` unless the key lies inside the footprint of `value`, plus
`sizeof(value)` unless the mapped value lies inside it. -/
def entry_footprints (value : Obj) (entries : List (member_info × member_info)) : Nat :=
  (entries.map (fun kvp =>
    (if is_inside_self_f value kvp.1.address = true then 0 else kvp.1.sizeof) +
    (if is_inside_self_f value kvp.2.address = true then 0 else kvp.2.sizeof))).sum

/-! ## More concrete values -/

/-- An `int` at address `a`. -/
def int_at (a : Nat) : Obj :=
  Obj.leaf { type_index := 20, sizeof := 4, address := a, is_arithmetic := true }

/-- A `double` at address `a`. -/
def double_at (a : Nat) : Obj :=
  Obj.leaf { type_index := 21, sizeof := 8, address := a, is_arithmetic := true }

/-- A `std::vector<bool>` at `addr` (40 bytes) with the given `capacity()` and
elements. -/
def vector_bool_at (addr capacity : Nat) (elements : List Obj) : Obj :=
  { Obj.leaf { type_index := 22, sizeof := 40, address := addr, is_vector_bool := true,
               capacity := some capacity } with
    range := some elements }

/-- The proxy `std::vector<bool>::const_reference` an iteration over a
`std::vector<bool>` yields. -/
def bit_reference : Obj :=
  Obj.leaf { type_index := 26, sizeof := 16, address := 0 }

/-- A `std::optional<bytevec_t>` at `addr` (32 bytes). -/
def optional_at (addr : Nat) (contained : Option Obj) : Obj :=
  { Obj.leaf { type_index := 23, sizeof := 32, address := addr } with
    optional := some contained }

/-- A `std::set<bytevec_t>` at `addr` (48 bytes) with the given elements. -/
def set_of (addr : Nat) (elements : List Obj) : Obj :=
  { Obj.leaf { type_index := 24, sizeof := 48, address := addr } with
    range := some elements }

/-- A `std::pair` at `addr` of `sizeof` bytes. -/
def pair_at (type_index addr sizeof : Nat) (first second : Obj) : Obj :=
  { Obj.leaf { type_index := type_index, sizeof := sizeof, address := addr } with
    pair := some (first, second) }

/-- A `std::map` at `addr` (48 bytes) with the given entries. -/
def map_of (type_index addr : Nat) (entries : List Obj) : Obj :=
  { Obj.leaf { type_index := type_index, sizeof := 48, address := addr, is_map := true } with
    range := some entries }

/-- The entry number `i` of a `std::map<int, double>`: a
`std::pair<const int, double>` of 16 bytes in a node on the heap. -/
def int_double_entry (i : Nat) : Obj :=
  pair_at 25 (8192 + 64 * i) 16 (int_at (8192 + 64 * i)) (double_at (8192 + 64 * i + 8))

/-- A `std::variant<int, std::string>` at `addr` (40 bytes). -/
def variant_at (addr : Nat) (active : Option Obj) : Obj :=
  { Obj.leaf { type_index := 27, sizeof := 40, address := addr } with
    variant := some active }

/-- A `std::tuple` at `addr` of `sizeof` bytes. -/
def tuple_at (type_index addr sizeof : Nat) (elements : List Obj) : Obj :=
  { Obj.leaf { type_index := type_index, sizeof := sizeof, address := addr } with
    tuple := some elements }

/-- The tuple of the `std::tuple` test, a
`std::tuple<int, std::vector<int>, std::vector<double>>` at address 64, both
vectors resized to 1024. -/
def tuple_test_value : Obj :=
  tuple_at 28 64 56
    [int_at 64,
     vector_of 29 72 8192 1024 4 ((List.range 1024).map (fun i => int_at (8192 + 4 * i))),
     vector_of 30 96 16384 1024 8 ((List.range 1024).map (fun i => double_at (16384 + 8 * i)))]

/-- A small type that opted in with a hook: one byte, `weight_in_bytes()`
returns 42. -/
def small_hooked_at (addr : Nat) : Obj :=
  Obj.leaf { type_index := 31, sizeof := 1, address := addr, weight_in_bytes := some 42 }

/-- The class `str_t` of "custom access" with `as_tuple()`: its hook returns
`std::tie(a, b, c, d)`, a tuple of four references (32 bytes), where `b` and `d`
are byte vectors resized to 1024. -/
def as_tuple_test_value : Obj :=
  { Obj.leaf { type_index := 32, sizeof := 64, address := 64 } with
    as_tuple := some (tuple_at 33 16 32
      [int_at 64, bytevec 72 8192 1024 1024, double_at 96, bytevec 104 12288 1024 1024]) }

/-- A class whose `as_tuple()` returns `std::make_tuple(h)` for its one member
`h`, a `small_hooked_at`: a `std::tuple` of one byte. -/
def as_tuple_by_value : Obj :=
  { Obj.leaf { type_index := 34, sizeof := 1, address := 64 } with
    as_tuple := some (tuple_at 35 16 1 [small_hooked_at 16]) }

/-- The struct `str` of "small objects": one `char`, an aggregate of one byte. -/
def small_struct : Obj :=
  { Obj.leaf { type_index := 36, sizeof := 1, address := 64 } with
    aggregate := some [char_at 64] }

/-- The struct `str_t` of the field-enumerator test: `int x; std::string y;
inner_t z`, where `z.v` is a byte vector resized to 2000. -/
def aggregate_test_value : Obj :=
  { Obj.leaf { type_index := 37, sizeof := 72, address := 64 } with
    aggregate := some
      [int_at 64, string_at 72 88 15 0,
       { Obj.leaf { type_index := 38, sizeof := 32, address := 104 } with
         aggregate := some
           [bytevec 104 8192 2000 2000,
            Obj.leaf { type_index := 39, sizeof := 4, address := 128, is_arithmetic := true },
            Obj.leaf { type_index := 40, sizeof := 1, address := 132,
                       is_arithmetic := true }] }] }

/-- An aggregate without fields at address 64 of `sizeof` bytes: 1 for
`struct empty_struct_t {}`, 8 for `struct alignas(8) empty_t {}`. -/
def empty_aggregate (sizeof : Nat) : Obj :=
  { Obj.leaf { type_index := 41, sizeof := sizeof, address := 64 } with
    aggregate := some [] }

/-- A `std::array<H, 2>` of two bytes at address 64 whose elements are
`small_hooked_at`. -/
def small_array_of_hooked : Obj :=
  array_of 42 64 1 [small_hooked_at 64, small_hooked_at 65]

/-- A `std::variant<H>` of two bytes at address 64 that holds a
`small_hooked_at`. -/
def small_variant_of_hooked : Obj :=
  { Obj.leaf { type_index := 43, sizeof := 2, address := 64 } with
    variant := some (some (small_hooked_at 64)) }

/-- A `std::map<H, H>` at address 64 with one entry, a
`std::pair<const H, H>` of two bytes in a node at 8192. -/
def map_of_hooked : Obj :=
  map_of 44 64 [pair_at 45 8192 2 (small_hooked_at 8192) (small_hooked_at 8193)]

/-- The C array `bytevec_t arr[100]` of the "c-array" test at address 64, every
vector resized to 128: iterable, without `data()` and `capacity()`. -/
def c_array_test_value : Obj :=
  { Obj.leaf { type_index := 46, sizeof := 2400, address := 64 } with
    range := some ((List.range 100).map
      (fun i => bytevec (64 + 24 * i) (8192 + 128 * i) 128 128)) }

/-- A `std::array<int, 1000>` at address 64. -/
def array_of_ints : Obj :=
  array_of 47 64 4 ((List.range 1000).map (fun i => int_at (64 + 4 * i)))

/-- The set of the `std::set` test after both insertions: two nodes on the heap
that hold byte vectors constructed with 256 and 128 bytes. -/
def set_test_value : Obj :=
  set_of 64 [bytevec 8192 12288 256 256, bytevec 8256 16384 128 128]

/-- The map of the `std::map` test: a `std::map<int, double>` at address 64 with
1000 entries. -/
def map_test_value : Obj :=
  map_of 48 64 ((List.range 1000).map int_double_entry)

/-! ## Member enumeration -/

/-- The value is handled by the cereal branch: the branch is compiled in, no
earlier test applies, and `calls` are the archive invocations of `serialize`,
or of `save` when the type has no `serialize`. -/
def is_member_enumerable (cfg : Config) (value : Obj) (calls : List (List Obj)) : Prop :=
  reaches_container_test cfg value ∧ value.elements = none ∧ value.any = none ∧
  cfg.WIB_CEREAL_ENABLED = true ∧
  (value.serialize = some calls ∨ (value.serialize = none ∧ value.save = some calls))

/-- The struct `cereal_serialize_enabled` of the "cereal-serialize" test at
address 64: three byte vectors resized to 1024, 512 and 256, and a `serialize`
that calls `ar(v0, v1)` and then `ar(v2)`. -/
def cereal_serialize_test_value : Obj :=
  { Obj.leaf { type_index := 49, sizeof := 72, address := 64 } with
    serialize := some
      [[bytevec 64 8192 1024 1024, bytevec 88 12288 512 512], [bytevec 112 16384 256 256]]
    aggregate := some
      [bytevec 64 8192 1024 1024, bytevec 88 12288 512 512, bytevec 112 16384 256 256] }

/-- The struct `cereal_save_enabled` of the same test: as above with `save` in
place of `serialize`. -/
def cereal_save_test_value : Obj :=
  { Obj.leaf { type_index := 50, sizeof := 72, address := 64 } with
    save := some
      [[bytevec 64 8192 1024 1024, bytevec 88 12288 512 512], [bytevec 112 16384 256 256]]
    aggregate := some
      [bytevec 64 8192 1024 1024, bytevec 88 12288 512 512, bytevec 112 16384 256 256] }

/-- The default build of the header: as `lp64`, with no configuration switch
defined. -/
def lp64_plain : Config :=
  { sizeof_pointer := 8, size_t_bits := 64, WIB_PFR_ENABLED := false,
    WIB_CISTA_ENABLED := false, WIB_CEREAL_ENABLED := false }

/-- A heap of two objects: a node at 4096 that owns, through a
`std::shared_ptr`, the byte vector at 8192, which is resized to 16 bytes (its
buffer at 12288). -/
def order_test_heap : Heap :=
  [(4096, node_at 4096 8192), (8192, bytevec 8192 12288 16 16)]

/-- A `std::pair` of two `std::shared_ptr`: the first to the node at 4096, the
second to the byte vector at 8192 that the node owns as well. -/
def order_test_pair : Obj :=
  pair_at 51 64 32 (shared_ptr_at 64 4096) (shared_ptr_at 80 8192)

/-- The same two handles in the other order. -/
def order_test_pair_swapped : Obj :=
  pair_at 52 64 32 (shared_ptr_at 80 8192) (shared_ptr_at 64 4096)

/-- A `std::pair` of a value whose hook `weight_in_bytes()` returns `SIZE_MAX`
and a raw pointer to the byte vector at 8192. -/
def wrapping_test_value : Obj :=
  pair_at 53 64 32 (hooked_at 64 (2 ^ 64 - 1) (bytevec 64 16384 16 16)) (raw_pointer_at 88 8192)

/-- A `std::pair` of a `std::shared_ptr` to the node at 4096 and a raw pointer to
the byte vector at 8192, on a heap where nothing else owns that byte vector. -/
def raw_pointer_pair : Obj :=
  pair_at 54 64 24 (shared_ptr_at 64 4096) (raw_pointer_at 80 8192)

/-- The heap of `raw_pointer_pair`: a byte vector at 4096 resized to 16 bytes,
and one at 8192 resized to 16 bytes. -/
def raw_pointer_pair_heap : Heap :=
  [(4096, bytevec 4096 12288 16 16), (8192, bytevec 8192 16384 16 16)]

/-- An entry type that is not a `std::pair`: a struct at `addr` (32 bytes) with
the members `int first` and `bytevec_t second`, the byte vector resized to 16
bytes with its buffer at `data`. -/
def struct_entry_at (addr data : Nat) : Obj :=
  { Obj.leaf { type_index := 56, sizeof := 32, address := addr,
               first_second := some ({ address := addr, sizeof := 4 },
                                     { address := addr + 8, sizeof := 24 }) } with
    aggregate := some [int_at addr, bytevec (addr + 8) data 16 16] }

/-- A key/value container at address 64 (a class of 48 bytes with `key_type`,
`mapped_type`, `begin()` and `end()`) whose one entry is a `struct_entry_at` in
a node at 8192. -/
def map_of_struct_entries : Obj :=
  map_of 57 64 [struct_entry_at 8192 12288]

/-- A `std::filesystem::path` of one component at `addr` (40 bytes): it has
`begin()` and `end()`, and its iterator yields the one component, which is the
path again. -/
def path_at (addr : Nat) : Obj :=
  Obj.leaf { type_index := 55, sizeof := 40, address := addr,
             iterates_to_itself := some [addr] }

/-! ## General facts about the engine -/

theorem bind_eq_ok {ε α β : Type} (r : Except ε α) (k : α → Except ε β) (b : β) :
    (r >>= k) = .ok b ↔ ∃ a, r = .ok a ∧ k a = .ok b := by
  cases r with
  | error e => simp [bind, Except.bind]
  | ok a => simp [bind, Except.bind]

theorem add_bytes_keeps {R : data_t → data_t → Prop} (cfg : Config)
    {recurse : Obj → data_t → Result} (h : Keeps R recurse) :
    KeepsV R (add_bytes cfg recurse) := by
  intro x st st' hx
  simp only [add_bytes, bind_eq_ok] at hx
  obtain ⟨⟨b, io⟩, h1, h2⟩ := hx
  cases h2
  exact h _ _ _ _ h1

theorem tuple_for_each_keeps {R : data_t → data_t → Prop}
    (hrefl : ∀ s, R s s) (htrans : ∀ a b c, R a b → R b c → R a c)
    {F : Obj → Nat × data_t → Result} (h : KeepsV R F) :
    ∀ (l : List Obj) (st st' : Nat × data_t),
      tuple_for_each F l st = .ok st' → R st.2 st'.2 := by
  intro l
  induction l with
  | nil => intro st st' hx; cases hx; exact hrefl _
  | cons e es ih =>
    intro st st' hx
    simp only [tuple_for_each, bind_eq_ok] at hx
    obtain ⟨st1, h1, h2⟩ := hx
    exact htrans _ _ _ (h _ _ _ h1) (ih _ _ h2)

theorem run_archive_keeps {R : data_t → data_t → Prop}
    (hrefl : ∀ s, R s s) (htrans : ∀ a b c, R a b → R b c → R a c)
    {F : Obj → Nat × data_t → Result} (h : KeepsV R F) :
    ∀ (l : List (List Obj)) (st st' : Nat × data_t),
      run_archive F l st = .ok st' → R st.2 st'.2 := by
  intro l
  induction l with
  | nil => intro st st' hx; cases hx; exact hrefl _
  | cons e es ih =>
    intro st st' hx
    simp only [run_archive, cereal_archive_inspector, bind_eq_ok] at hx
    obtain ⟨st1, h1, h2⟩ := hx
    exact htrans _ _ _ (tuple_for_each_keeps hrefl htrans h _ _ _ h1) (ih _ _ h2)

theorem try_visit_any_keeps {R : data_t → data_t → Prop}
    (hrefl : ∀ s, R s s)
    {F : Obj → Nat × data_t → Result} (h : KeepsV R F) (a : Obj) :
    ∀ (l : List Nat) (st : Nat × data_t) (handled : Bool) (st' : Nat × data_t),
      try_visit_any F a l st = .ok (handled, st') → R st.2 st'.2 := by
  intro l
  induction l with
  | nil => intro st hd st' hx; cases hx; exact hrefl _
  | cons t ts ih =>
    intro st hd st' hx
    simp only [try_visit_any] at hx
    split at hx
    · simp only [bind_eq_ok] at hx
      obtain ⟨st1, h1, h2⟩ := hx
      cases h2
      exact h _ _ _ h1
    · exact ih _ _ _ hx

theorem any_visitor_keeps {R : data_t → data_t → Prop} (cfg : Config)
    {recurse : Obj → data_t → Result} (h : Keeps R recurse) (value : Obj) :
    KeepsV R (any_visitor cfg recurse value) := by
  intro x st st' hx
  simp only [any_visitor, bind_eq_ok] at hx
  obtain ⟨⟨bytes, io⟩, h1, h2⟩ := hx
  have := add_bytes_keeps cfg h _ _ _ h1
  split at h2 <;> (cases h2; exact this)

theorem accumulate_pointer_f_keeps {R : data_t → data_t → Prop} {cfg : Config} {heap : Heap}
    (hrefl : ∀ s, R s s) (htrans : ∀ a b c, R a b → R b c → R a c)
    (hins : ∀ (s : data_t) (a : Nat), a ∉ s.handled_addresses →
      R s { s with handled_addresses := a :: s.handled_addresses })
    {recurse : Obj → data_t → Result} (h : Keeps R recurse)
    (ptr : Nat) (s : data_t) (b : Nat) (s' : data_t)
    (hx : accumulate_pointer_f cfg heap recurse ptr s = .ok (b, s')) : R s s' := by
  simp only [accumulate_pointer_f] at hx
  split at hx
  · cases hx; exact hrefl _
  · split at hx
    · cases hx; exact hrefl _
    · next hnot =>
      split at hx
      · cases hx
      · simp only [bind_eq_ok] at hx
        obtain ⟨⟨b2, io2⟩, h1, h2⟩ := hx
        cases h2
        exact htrans _ _ _ (hins s ptr hnot) (h _ _ _ _ h1)

theorem chain_keeps {R : data_t → data_t → Prop} {cfg : Config} {types : List Nat} {heap : Heap}
    (hrefl : ∀ s, R s s) (htrans : ∀ a b c, R a b → R b c → R a c)
    (hins : ∀ (s : data_t) (a : Nat), a ∉ s.handled_addresses →
      R s { s with handled_addresses := a :: s.handled_addresses })
    (hemp : ∀ (s : data_t) (t : Nat), R s (emplace_unknown t s))
    {recurse : Obj → data_t → Result} (h : Keeps R recurse)
    (value : Obj) (s : data_t) (b : Nat) (s' : data_t)
    (hx : get_heap_allocated_bytes_chain cfg types heap recurse value s = .ok (b, s')) :
    R s s' := by
  have hA := add_bytes_keeps cfg h
  have hT := tuple_for_each_keeps hrefl htrans hA
  have hRun := run_archive_keeps hrefl htrans hA
  have hAcc : ∀ l s b s', accumulate_range_f cfg recurse l s = .ok (b, s') → R s s' :=
    fun l s b s' hl => hT l (0, s) (b, s') hl
  have hAny : ∀ a l s hd bytes s',
      try_visit_any (any_visitor cfg recurse value) a l (0, s) = .ok (hd, bytes, s') → R s s' :=
    fun a l s hd bytes s' hl =>
      try_visit_any_keeps hrefl (any_visitor_keeps cfg h value) a l (0, s) hd (bytes, s') hl
  simp only [get_heap_allocated_bytes_chain, store_unknown_type, bind, Except.bind] at hx
  repeat' split at hx
  all_goals first
    | (cases hx; exact hrefl _)
    | (cases hx; done)
    | exact h _ _ _ _ hx
    | exact accumulate_pointer_f_keeps hrefl htrans hins h _ _ _ _ hx
    | exact hT _ _ _ hx
    | exact hRun _ _ _ hx
    | (cases hx; exact hAcc _ _ _ _ (by assumption))
    | (cases hx; exact htrans _ _ _ (h _ _ _ _ (by assumption)) (h _ _ _ _ (by assumption)))
    | (cases hx; exact hemp _ _)
    | (cases hx; exact htrans _ _ _ (hAny _ _ _ _ _ _ (by assumption)) (hemp _ _))
    | (cases hx; exact hAny _ _ _ _ _ _ (by assumption))
  

theorem ghab_keeps {R : data_t → data_t → Prop} {cfg : Config} {types : List Nat} {heap : Heap}
    (hrefl : ∀ s, R s s) (htrans : ∀ a b c, R a b → R b c → R a c)
    (hins : ∀ (s : data_t) (a : Nat), a ∉ s.handled_addresses →
      R s { s with handled_addresses := a :: s.handled_addresses })
    (hemp : ∀ (s : data_t) (t : Nat), R s (emplace_unknown t s))
    (hdepth : ∀ (s : data_t) (d : Nat), R s { s with current_depth := d }) :
    ∀ fuel, Keeps R (get_heap_allocated_bytes cfg types heap fuel) := by
  intro fuel
  induction fuel with
  | zero => intro x s b s' hx; cases hx
  | succ n ih =>
    intro x s b s' hx
    simp only [get_heap_allocated_bytes] at hx
    split at hx
    · cases hx; exact hrefl _
    · simp only [scope_exit_t, bind_eq_ok] at hx
      obtain ⟨⟨b2, s2⟩, h1, h2⟩ := hx
      cases h2
      exact htrans _ _ _ (hdepth s _)
        (htrans _ _ _ (chain_keeps hrefl htrans hins hemp ih _ _ _ _ h1) (hdepth s2 _))

theorem fuel_le_rfl {α : Type} {r : Except Fault α} : FuelLe r r := Or.inr (Eq.refl r)

theorem fuel_le_bind {α β : Type} {r r' : Except Fault α} {k k' : α → Except Fault β}
    (h : FuelLe r r') (hk : ∀ a, FuelLe (k a) (k' a)) : FuelLe (r >>= k) (r' >>= k') := by
  rcases h with h | h
  · left; rw [h]; rfl
  · subst h
    cases r' with
    | error e => right; rfl
    | ok a => exact hk a

theorem add_bytes_le (cfg : Config) {f g : Obj → data_t → Result} (h : FuelLeF f g)
    (x : Obj) (st : Nat × data_t) : FuelLe (add_bytes cfg f x st) (add_bytes cfg g x st) := by
  simp only [add_bytes]
  exact fuel_le_bind (h _ _) (fun _ => fuel_le_rfl)

theorem tuple_for_each_le {σ : Type} {F G : Obj → σ → Except Fault σ}
    (h : ∀ x st, FuelLe (F x st) (G x st)) :
    ∀ (l : List Obj) (st : σ), FuelLe (tuple_for_each F l st) (tuple_for_each G l st) := by
  intro l
  induction l with
  | nil => intro st; exact fuel_le_rfl
  | cons e es ih =>
    intro st
    simp only [tuple_for_each]
    exact fuel_le_bind (h _ _) (fun a => ih a)

theorem run_archive_le {σ : Type} {F G : Obj → σ → Except Fault σ}
    (h : ∀ x st, FuelLe (F x st) (G x st)) :
    ∀ (l : List (List Obj)) (st : σ), FuelLe (run_archive F l st) (run_archive G l st) := by
  intro l
  induction l with
  | nil => intro st; exact fuel_le_rfl
  | cons e es ih =>
    intro st
    simp only [run_archive, cereal_archive_inspector]
    exact fuel_le_bind (tuple_for_each_le h _ _) (fun a => ih a)

theorem try_visit_any_le {σ : Type} {F G : Obj → σ → Except Fault σ}
    (h : ∀ x st, FuelLe (F x st) (G x st)) (a : Obj) :
    ∀ (l : List Nat) (st : σ), FuelLe (try_visit_any F a l st) (try_visit_any G a l st) := by
  intro l
  induction l with
  | nil => intro st; exact fuel_le_rfl
  | cons t ts ih =>
    intro st
    simp only [try_visit_any]
    split
    · exact fuel_le_bind (h _ _) (fun _ => fuel_le_rfl)
    · exact ih st

theorem any_visitor_le (cfg : Config) {f g : Obj → data_t → Result} (h : FuelLeF f g)
    (value x : Obj) (st : Nat × data_t) :
    FuelLe (any_visitor cfg f value x st) (any_visitor cfg g value x st) := by
  simp only [any_visitor]
  exact fuel_le_bind (add_bytes_le cfg h _ _) (fun _ => fuel_le_rfl)

theorem accumulate_pointer_f_le {cfg : Config} {heap : Heap} {f g : Obj → data_t → Result}
    (h : FuelLeF f g) (ptr : Nat) (s : data_t) :
    FuelLe (accumulate_pointer_f cfg heap f ptr s) (accumulate_pointer_f cfg heap g ptr s) := by
  simp only [accumulate_pointer_f]
  split
  · exact fuel_le_rfl
  · split
    · exact fuel_le_rfl
    · split
      · exact fuel_le_rfl
      · exact fuel_le_bind (h _ _) (fun _ => fuel_le_rfl)

theorem chain_le {cfg : Config} {types : List Nat} {heap : Heap} {f g : Obj → data_t → Result}
    (h : FuelLeF f g) (value : Obj) (s : data_t) :
    FuelLe (get_heap_allocated_bytes_chain cfg types heap f value s)
      (get_heap_allocated_bytes_chain cfg types heap g value s) := by
  have hA := add_bytes_le cfg h
  have hT := tuple_for_each_le hA
  have hRun := run_archive_le hA
  have hAcc : ∀ l s, FuelLe (accumulate_range_f cfg f l s) (accumulate_range_f cfg g l s) :=
    fun l s => hT l (0, s)
  have hAny := try_visit_any_le (any_visitor_le cfg h value)
  simp only [get_heap_allocated_bytes_chain]
  repeat' split
  all_goals first
    | exact fuel_le_rfl
    | exact h _ _
    | exact accumulate_pointer_f_le h _ _
    | exact hT _ _
    | exact hRun _ _
    | exact fuel_le_bind (h _ _) (fun _ => fuel_le_bind (h _ _) (fun _ => fuel_le_rfl))
    | exact fuel_le_bind (hAcc _ _) (fun _ => fuel_le_rfl)
    | exact fuel_le_bind fuel_le_rfl (fun _ => fuel_le_bind (hAcc _ _) (fun _ => fuel_le_rfl))
    | exact fuel_le_bind (hAny _ _ _) (fun _ => fuel_le_rfl)

theorem ghab_succ_le (cfg : Config) (types : List Nat) (heap : Heap) :
    ∀ fuel, FuelLeF (get_heap_allocated_bytes cfg types heap fuel)
      (get_heap_allocated_bytes cfg types heap (fuel + 1)) := by
  intro fuel
  induction fuel with
  | zero => intro x s; left; rfl
  | succ n ih =>
    intro x s
    rw [get_heap_allocated_bytes, get_heap_allocated_bytes]
    split
    · exact fuel_le_rfl
    · simp only [scope_exit_t]
      exact fuel_le_bind (chain_le ih _ _) (fun _ => fuel_le_rfl)

theorem ghab_mono (cfg : Config) (types : List Nat) (heap : Heap) (n m : Nat) (hnm : n ≤ m)
    (x : Obj) (s : data_t)
    (h : get_heap_allocated_bytes cfg types heap n x s ≠ .error Fault.out_of_fuel) :
    get_heap_allocated_bytes cfg types heap m x s =
      get_heap_allocated_bytes cfg types heap n x s := by
  induction hnm with
  | refl => rfl
  | step hle ih =>
    rcases ghab_succ_le cfg types heap _ x s with h1 | h1
    · rw [ih] at h1; exact absurd h1 h
    · rw [h1, ih]

theorem sizeOf_lt_of_mem_flatten {x : Obj} {ll : List (List Obj)} (h : x ∈ ll.flatten) :
    sizeOf x < sizeOf ll := by
  rw [List.mem_flatten] at h
  obtain ⟨l, hl, hx⟩ := h
  have h1 := List.sizeOf_lt_of_mem hl
  have h2 := List.sizeOf_lt_of_mem hx
  omega

theorem Obj.sizeOf_lt_of_mem_children {x v : Obj}
    (hfin : v.info.iterates_to_itself = none) (h : x ∈ v.children) :
    sizeOf x < sizeOf v := by
  cases v with
  | mk info as_tuple optional variant pair tuple range any serialize save aggregate =>
    simp only at hfin
    simp only [Obj.children, Obj.elements, hfin, List.mem_append] at h
    simp only [Obj.mk.sizeOf_spec]
    rcases h with ((((((((h | h) | h) | h) | h) | h) | h) | h) | h) | h
    · cases as_tuple with
      | none => simp at h
      | some t => simp at h; subst h; simp; omega
    · cases optional with
      | none => simp at h
      | some o =>
        cases o with
        | none => simp at h
        | some t => simp at h; subst h; simp; omega
    · cases variant with
      | none => simp at h
      | some o =>
        cases o with
        | none => simp at h
        | some t => simp at h; subst h; simp; omega
    · cases pair with
      | none => simp at h
      | some p =>
        obtain ⟨a, b⟩ := p
        simp at h
        rcases h with h | h <;> (subst h; simp; omega)
    · cases tuple with
      | none => simp at h
      | some l =>
        simp at h
        have := List.sizeOf_lt_of_mem h
        simp; omega
    · cases range with
      | none => simp at h
      | some l =>
        simp at h
        have := List.sizeOf_lt_of_mem h
        simp; omega
    · cases any with
      | none => simp at h
      | some o =>
        cases o with
        | none => simp at h
        | some t => simp at h; subst h; simp; omega
    · cases serialize with
      | none => simp at h
      | some l =>
        simp only [Option.getD_some] at h
        have := sizeOf_lt_of_mem_flatten h
        simp; omega
    · cases save with
      | none => simp at h
      | some l =>
        simp only [Option.getD_some] at h
        have := sizeOf_lt_of_mem_flatten h
        simp; omega
    · cases aggregate with
      | none => simp at h
      | some l =>
        simp at h
        have := List.sizeOf_lt_of_mem h
        simp; omega

theorem avoids_ok {α : Type} (P : Fault → Prop) (a : α) :
    Avoids P (Except.ok a : Except Fault α) := by
  intro e h; cases h

theorem avoids_error {α : Type} {P : Fault → Prop} {e : Fault} (h : P e) :
    Avoids P (Except.error e : Except Fault α) := by
  intro e' h'; cases h'; exact h

theorem avoids_bind {α β : Type} {P : Fault → Prop} {r : Except Fault α}
    {k : α → Except Fault β} (h1 : Avoids P r) (h2 : ∀ a, r = .ok a → Avoids P (k a)) :
    Avoids P (r >>= k) := by
  cases r with
  | error e =>
    intro e' h
    have h' : (Except.error e : Except Fault β) = Except.error e' := h
    cases h'
    exact h1 e rfl
  | ok a => exact h2 a rfl

theorem avoids_ne_iff {α : Type} (r : Except Fault α) :
    Avoids (fun e => e ≠ Fault.out_of_fuel) r ↔ r ≠ .error Fault.out_of_fuel := by
  constructor
  · intro h hr; exact h _ hr rfl
  · intro h e hr he; subst he; exact h hr

theorem add_bytes_avoids (cfg : Config) {P : Fault → Prop} {f : Obj → data_t → Result}
    {x : Obj} {st : Nat × data_t} (h : Avoids P (f x st.2)) :
    Avoids P (add_bytes cfg f x st) := by
  simp only [add_bytes]
  exact avoids_bind h (fun _ _ => avoids_ok P _)

theorem tuple_for_each_avoids {P : Fault → Prop} {R : data_t → data_t → Prop}
    (hrefl : ∀ s, R s s) (htrans : ∀ a b c, R a b → R b c → R a c)
    {F : Obj → Nat × data_t → Result} (hK : KeepsV R F) :
    ∀ (l : List Obj) (st : Nat × data_t),
      (∀ x ∈ l, ∀ st' : Nat × data_t, R st.2 st'.2 → Avoids P (F x st')) →
      Avoids P (tuple_for_each F l st) := by
  intro l
  induction l with
  | nil => intro st _; exact avoids_ok P _
  | cons e es ih =>
    intro st hF
    simp only [tuple_for_each]
    refine avoids_bind (hF e (List.mem_cons_self _ _) st (hrefl _)) (fun st1 h1 => ?_)
    exact ih st1 (fun x hx st' hr =>
      hF x (List.mem_cons_of_mem _ hx) st' (htrans _ _ _ (hK _ _ _ h1) hr))

theorem run_archive_avoids {P : Fault → Prop} {R : data_t → data_t → Prop}
    (hrefl : ∀ s, R s s) (htrans : ∀ a b c, R a b → R b c → R a c)
    {F : Obj → Nat × data_t → Result} (hK : KeepsV R F) :
    ∀ (ll : List (List Obj)) (st : Nat × data_t),
      (∀ x ∈ ll.flatten, ∀ st' : Nat × data_t, R st.2 st'.2 → Avoids P (F x st')) →
      Avoids P (run_archive F ll st) := by
  intro ll
  induction ll with
  | nil => intro st _; exact avoids_ok P _
  | cons l ls ih =>
    intro st hF
    simp only [run_archive, cereal_archive_inspector]
    refine avoids_bind
      (tuple_for_each_avoids hrefl htrans hK l st
        (fun x hx st' hr => hF x (by simp [hx]) st' hr)) (fun st1 h1 => ?_)
    exact ih st1 (fun x hx st' hr =>
      hF x (by simp [hx]) st'
        (htrans _ _ _ (tuple_for_each_keeps hrefl htrans hK _ _ _ h1) hr))

theorem try_visit_any_avoids {P : Fault → Prop} {F : Obj → Nat × data_t → Result} {a : Obj}
    {st : Nat × data_t} (h : Avoids P (F a st)) :
    ∀ (l : List Nat), Avoids P (try_visit_any F a l st) := by
  intro l
  induction l with
  | nil => exact avoids_ok P _
  | cons t ts ih =>
    simp only [try_visit_any]
    split
    · exact avoids_bind h (fun _ _ => avoids_ok P _)
    · exact ih

theorem any_visitor_avoids (cfg : Config) {P : Fault → Prop} {f : Obj → data_t → Result}
    {value x : Obj} {st : Nat × data_t} (h : Avoids P (f x st.2)) :
    Avoids P (any_visitor cfg f value x st) := by
  simp only [any_visitor]
  refine avoids_bind (add_bytes_avoids cfg h) (fun _ _ => ?_)
  split <;> exact avoids_ok P _

theorem accumulate_pointer_f_avoids {P : Fault → Prop} {cfg : Config} {heap : Heap}
    {f : Obj → data_t → Result} {ptr : Nat} {s : data_t}
    (hd : ptr ≠ 0 → heap.lookup ptr = none → P Fault.dangling_pointer)
    (h : ∀ x, ptr ∉ s.handled_addresses → heap.lookup ptr = some x →
      Avoids P (f x { s with handled_addresses := ptr :: s.handled_addresses })) :
    Avoids P (accumulate_pointer_f cfg heap f ptr s) := by
  simp only [accumulate_pointer_f]
  split
  · exact avoids_ok P _
  · next h0 =>
    split
    · exact avoids_ok P _
    · next hnot =>
      split
      · next hl => exact avoids_error (hd h0 hl)
      · next pointee hl =>
        exact avoids_bind (h pointee hnot hl) (fun _ _ => avoids_ok P _)

theorem map_allocation_bytes_avoids {P : Fault → Prop} (cfg : Config) (value : Obj) :
    ∀ (l : List Obj) (acc : Nat),
      (∀ e ∈ l, e.first_second = none → P Fault.not_instantiable) →
      Avoids P (map_allocation_bytes cfg value l acc) := by
  intro l
  induction l with
  | nil => intro acc _; exact avoids_ok P _
  | cons e es ih =>
    intro acc h
    simp only [map_allocation_bytes]
    split
    · next hp => exact avoids_error (h e (List.mem_cons_self _ _) hp)
    · exact ih _ (fun x hx => h x (List.mem_cons_of_mem _ hx))

set_option maxHeartbeats 2000000 in
/-- The chain has only faults that satisfy `P` when the recursive calls it can
make have only such faults and the faults it can raise itself satisfy `P`. -/
theorem chain_avoids {P : Fault → Prop} {R : data_t → data_t → Prop} {cfg : Config}
    {types : List Nat} {heap : Heap}
    (hrefl : ∀ s, R s s) (htrans : ∀ a b c, R a b → R b c → R a c)
    {f : Obj → data_t → Result} (hK : Keeps R f) (value : Obj) (s : data_t)
    (hc : ∀ x ∈ value.children, ∀ t, R s t → Avoids P (f x t))
    (hp : ∀ ptr x, (value.info.smart_ptr = some ptr ∨ value.info.pointer = some ptr) →
      ptr ∉ s.handled_addresses → heap.lookup ptr = some x →
      Avoids P (f x { s with handled_addresses := ptr :: s.handled_addresses }))
    (hdang : ∀ ptr, (value.info.smart_ptr = some ptr ∨ value.info.pointer = some ptr) →
      ptr ≠ 0 → heap.lookup ptr = none → P Fault.dangling_pointer)
    (hvb : value.info.is_vector_bool = true → value.info.capacity = none →
      P Fault.not_instantiable)
    (hmap : value.info.is_map = true → ∀ r, value.elements = some r →
      ∀ e ∈ r, e.first_second = none → P Fault.not_instantiable) :
    Avoids P (get_heap_allocated_bytes_chain cfg types heap f value s) := by
  have hA := add_bytes_keeps cfg hK
  have hT : ∀ l, (∀ x ∈ l, x ∈ value.children) → ∀ b,
      Avoids P (tuple_for_each (add_bytes cfg f) l (b, s)) :=
    fun l hl b => tuple_for_each_avoids hrefl htrans hA l (b, s)
      (fun x hx st' hr => add_bytes_avoids cfg (hc x (hl x hx) _ hr))
  have hRun : ∀ ll, (∀ x ∈ ll.flatten, x ∈ value.children) → ∀ b,
      Avoids P (run_archive (add_bytes cfg f) ll (b, s)) :=
    fun ll hl b => run_archive_avoids hrefl htrans hA ll (b, s)
      (fun x hx st' hr => add_bytes_avoids cfg (hc x (hl x hx) _ hr))
  simp only [get_heap_allocated_bytes_chain, store_unknown_type, accumulate_range_f]
  repeat' split
  all_goals try simp only [Prod.mk.injEq] at *
  all_goals first
    | exact avoids_ok P _
    | exact avoids_error (hvb (by assumption) (by assumption))
    | exact hc _ (by simp [Obj.children, *]) _ (hrefl _)
    | exact accumulate_pointer_f_avoids (hdang _ (Or.inl (by assumption)))
        (hp _ · (Or.inl (by assumption)))
    | exact accumulate_pointer_f_avoids (hdang _ (Or.inr (by assumption)))
        (hp _ · (Or.inr (by assumption)))
    | exact hT _ (by intro x hx; simp [Obj.children, *]) _
    | exact hRun _ (by intro x hx; simp [Obj.children, *]) _
    | exact avoids_bind (hc _ (by simp [Obj.children, *]) _ (hrefl _))
        (fun a h1 => avoids_bind (hc _ (by simp [Obj.children, *]) _ (hK _ _ a.1 a.2 h1))
          (fun _ _ => avoids_ok P _))
    | exact avoids_bind (hT _ (by intro x hx; simp [Obj.children, *]) _)
        (fun _ _ => avoids_ok P _)
    | exact avoids_bind
        (map_allocation_bytes_avoids _ _ _ _ (hmap (by assumption) _ (by assumption)))
        (fun _ _ => avoids_bind (hT _ (by intro x hx; simp [Obj.children, *]) _)
          (fun _ _ => avoids_ok P _))
    | exact avoids_bind
        (try_visit_any_avoids
          (any_visitor_avoids cfg (hc _ (by simp [Obj.children, *]) _ (hrefl _))) _)
        (fun _ _ => by split <;> exact avoids_ok P _)

theorem grows_refl (s : data_t) : grows s s :=
  ⟨rfl, ⟨[], rfl⟩, id, rfl⟩

theorem grows_trans (a b c : data_t) (h1 : grows a b) (h2 : grows b c) : grows a c := by
  obtain ⟨f1, ⟨n1, e1⟩, d1, u1⟩ := h1
  obtain ⟨f2, ⟨n2, e2⟩, d2, u2⟩ := h2
  refine ⟨f2.trans f1, ⟨n2 ++ n1, ?_⟩, fun h => d2 (d1 h), u2.trans u1⟩
  rw [e2, e1, List.append_assoc]

theorem grows_insert (s : data_t) (a : Nat) (h : a ∉ s.handled_addresses) :
    grows s { s with handled_addresses := a :: s.handled_addresses } :=
  ⟨rfl, ⟨[a], rfl⟩, fun hd => List.nodup_cons.mpr ⟨h, hd⟩, rfl⟩

theorem grows_emplace (s : data_t) (t : Nat) : grows s (emplace_unknown t s) := by
  unfold emplace_unknown
  split
  · exact grows_refl s
  · next types heq => exact ⟨rfl, ⟨[], rfl⟩, id, by simp [heq]⟩

theorem grows_depth (s : data_t) (d : Nat) : grows s { s with current_depth := d } :=
  ⟨rfl, ⟨[], rfl⟩, id, rfl⟩

theorem ghab_grows (cfg : Config) (types : List Nat) (heap : Heap) (fuel : Nat) :
    Keeps grows (get_heap_allocated_bytes cfg types heap fuel) :=
  ghab_keeps grows_refl grows_trans grows_insert grows_emplace grows_depth fuel

theorem exists_heap_bound (heap : Heap) :
    ∃ B : Nat, ∀ (a : Nat) (x : Obj), heap.lookup a = some x → sizeOf x ≤ B := by
  induction heap with
  | nil => exact ⟨0, fun a x h => by simp at h⟩
  | cons e es ih =>
    obtain ⟨k, v⟩ := e
    obtain ⟨B, hB⟩ := ih
    refine ⟨max (sizeOf v) B, fun a x h => ?_⟩
    simp only [List.lookup] at h
    split at h
    · cases h; exact le_max_left _ _
    · exact le_trans (hB a x h) (le_max_right _ _)

theorem mem_keys_of_lookup {heap : Heap} {a : Nat} {x : Obj} (h : heap.lookup a = some x) :
    a ∈ heap.map Prod.fst := by
  induction heap with
  | nil => simp at h
  | cons e es ih =>
    obtain ⟨k, v⟩ := e
    simp only [List.lookup] at h
    split at h
    · next heq => simp at heq; simp [heq]
    · simp [ih h]

theorem unvisited_le_of_grows {heap : Heap} {s t : data_t} (h : grows s t) :
    unvisited heap t ≤ unvisited heap s := by
  obtain ⟨_, ⟨new, e⟩, _, _⟩ := h
  apply Finset.card_le_card
  intro a ha
  simp only [Finset.mem_sdiff, List.mem_toFinset] at ha ⊢
  refine ⟨ha.1, fun hs => ha.2 ?_⟩
  rw [e]; exact List.mem_append_right _ hs

theorem unvisited_insert_lt {heap : Heap} {s : data_t} {a : Nat} {x : Obj}
    (hl : heap.lookup a = some x) (hn : a ∉ s.handled_addresses) :
    unvisited heap { s with handled_addresses := a :: s.handled_addresses } <
      unvisited heap s := by
  apply Finset.card_lt_card
  refine Finset.ssubset_iff_subset_ne.mpr ⟨?_, ?_⟩
  · intro b hb
    simp only [Finset.mem_sdiff, List.mem_toFinset, List.mem_cons, not_or] at hb ⊢
    exact ⟨hb.1, hb.2.2⟩
  · intro heq
    have : a ∈ (heap.map Prod.fst).toFinset \ s.handled_addresses.toFinset := by
      simp only [Finset.mem_sdiff, List.mem_toFinset]
      exact ⟨mem_keys_of_lookup hl, hn⟩
    rw [← heq] at this
    simp at this

theorem finite_graph_child {heap : Heap} {v c : Obj} (h : finite_graph heap v)
    (hc : c ∈ v.children) : finite_graph heap c :=
  fun x hx => h x (Reaches.child hc hx)

theorem finite_graph_pointee {heap : Heap} {v p : Obj} {ptr : Nat} (h : finite_graph heap v)
    (hv : v.info.smart_ptr = some ptr ∨ v.info.pointer = some ptr)
    (hl : heap.lookup ptr = some p) : finite_graph heap p := by
  intro x hx
  rcases hv with hv | hv
  · exact h x (Reaches.smart_ptr hv hl hx)
  · exact h x (Reaches.pointer hv hl hx)

theorem finite_graph_of_valid_graph {heap : Heap} {v : Obj} (h : valid_graph heap v) :
    finite_graph heap v :=
  fun x hx => (h x hx).2.2.2

/-- Enough fuel: on a graph where no object iterates to itself, the engine does
not run out of it. -/
theorem ghab_fuel_enough (cfg : Config) (types : List Nat) (heap : Heap) (B : Nat)
    (hB : ∀ (a : Nat) (x : Obj), heap.lookup a = some x → sizeOf x ≤ B) :
    ∀ (fuel : Nat) (v : Obj) (s : data_t), finite_graph heap v →
      unvisited heap s * (B + 1) + sizeOf v < fuel →
      get_heap_allocated_bytes cfg types heap fuel v s ≠ .error Fault.out_of_fuel := by
  intro fuel
  induction fuel with
  | zero => intro v s _ h; omega
  | succ n ih =>
    intro v s hfin h
    rw [get_heap_allocated_bytes]
    split
    · simp [pure, Except.pure]
    · simp only [scope_exit_t]
      rw [← avoids_ne_iff]
      refine avoids_bind ?_ (fun _ _ => avoids_ok _ _)
      refine chain_avoids grows_refl grows_trans (ghab_grows cfg types heap n) v _ ?_ ?_
        (fun _ _ _ _ => by decide) (fun _ _ => by decide) (fun _ _ _ _ _ _ => by decide)
      · intro x hx t ht
        rw [avoids_ne_iff]
        apply ih _ _ (finite_graph_child hfin hx)
        have h1 := Obj.sizeOf_lt_of_mem_children (hfin v (Reaches.here v)) hx
        have h2 : unvisited heap t ≤ unvisited heap s :=
          unvisited_le_of_grows (grows_trans _ _ _ (grows_depth s _) ht)
        have h3 := Nat.mul_le_mul_right (B + 1) h2
        omega
      · intro ptr x hptr hn hl
        rw [avoids_ne_iff]
        apply ih _ _ (finite_graph_pointee hfin hptr hl)
        have h1 := hB _ _ hl
        have key : ∀ u, u < unvisited heap s → u * (B + 1) + sizeOf x < n := by
          intro u hu
          have h3 := Nat.mul_le_mul_right (B + 1) (Nat.succ_le_of_lt hu)
          rw [Nat.succ_mul] at h3
          omega
        exact key _ (unvisited_insert_lt
          (s := { s with current_depth := size_inc cfg s.current_depth }) hl hn)

/-- Every run of the engine on a graph where no object iterates to itself ends:
from some budget on the outcome is the same and is not `out_of_fuel`. -/
theorem get_heap_allocated_bytes_total (cfg : Config) (types : List Nat) (heap : Heap)
    (v : Obj) (s : data_t) (hfin : finite_graph heap v) :
    ∃ n, ∀ fuel, n ≤ fuel →
      get_heap_allocated_bytes cfg types heap fuel v s ≠ .error Fault.out_of_fuel ∧
      get_heap_allocated_bytes cfg types heap fuel v s =
        get_heap_allocated_bytes cfg types heap n v s := by
  obtain ⟨B, hB⟩ := exists_heap_bound heap
  refine ⟨unvisited heap s * (B + 1) + sizeOf v + 1, fun fuel hf => ?_⟩
  have h0 := ghab_fuel_enough cfg types heap B hB _ v s hfin (Nat.lt_succ_self _)
  have h1 := ghab_mono cfg types heap _ fuel hf v s h0
  exact ⟨by rw [h1]; exact h0, h1⟩

theorem valid_graph_child {heap : Heap} {v c : Obj} (h : valid_graph heap v)
    (hc : c ∈ v.children) : valid_graph heap c :=
  fun x hx => h x (Reaches.child hc hx)

theorem valid_graph_pointee {heap : Heap} {v p : Obj} {ptr : Nat} (h : valid_graph heap v)
    (hv : v.info.smart_ptr = some ptr ∨ v.info.pointer = some ptr)
    (hl : heap.lookup ptr = some p) : valid_graph heap p := by
  intro x hx
  rcases hv with hv | hv
  · exact h x (Reaches.smart_ptr hv hl hx)
  · exact h x (Reaches.pointer hv hl hx)

/-- On a valid object graph the only fault is a budget that is too small. -/
theorem ghab_valid_graph (cfg : Config) (types : List Nat) (heap : Heap) :
    ∀ (fuel : Nat) (v : Obj) (s : data_t), valid_graph heap v →
      Avoids (fun e => e = Fault.out_of_fuel)
        (get_heap_allocated_bytes cfg types heap fuel v s) := by
  intro fuel
  induction fuel with
  | zero => intro v s _ e h; cases h; rfl
  | succ n ih =>
    intro v s hv
    rw [get_heap_allocated_bytes]
    split
    · exact avoids_ok _ _
    · simp only [scope_exit_t]
      refine avoids_bind ?_ (fun _ _ => avoids_ok _ _)
      have hloc := hv v (Reaches.here v)
      refine chain_avoids (R := fun _ _ => True) (fun _ => trivial) (fun _ _ _ _ _ => trivial)
        (fun _ _ _ _ _ => trivial) v _ ?_ ?_ ?_ ?_ ?_
      · intro x hx t _
        exact ih x t (valid_graph_child hv hx)
      · intro ptr x hptr _ hl
        exact ih x _ (valid_graph_pointee hv hptr hl)
      · intro ptr hptr h0 hl
        exact absurd hl (hloc.1 ptr hptr h0)
      · intro hb hcap
        exact absurd hcap (hloc.2.1 hb)
      · intro hm r hr e he hpair
        exact absurd hpair (hloc.2.2.1 hm r hr e he)

/-- On a valid object graph every run of the engine returns a byte count, the
same one from some budget on. -/
theorem get_heap_allocated_bytes_returns (cfg : Config) (types : List Nat) (heap : Heap)
    (v : Obj) (s : data_t) (hv : valid_graph heap v) :
    ∃ n b s', ∀ fuel, n ≤ fuel →
      get_heap_allocated_bytes cfg types heap fuel v s = .ok (b, s') := by
  obtain ⟨n, hn⟩ :=
    get_heap_allocated_bytes_total cfg types heap v s (finite_graph_of_valid_graph hv)
  obtain ⟨h1, _⟩ := hn n (Nat.le_refl n)
  cases hr : get_heap_allocated_bytes cfg types heap n v s with
  | error e =>
    have := ghab_valid_graph cfg types heap n v s hv e hr
    subst this
    exact absurd hr h1
  | ok r =>
    obtain ⟨b, s'⟩ := r
    exact ⟨n, b, s', fun fuel hf => by rw [(hn fuel hf).2, hr]⟩

/-! ## Arithmetic of `size_t` -/

theorem size_mod_pos (cfg : Config) : 0 < cfg.SIZE_MOD := by
  unfold Config.SIZE_MOD; positivity

theorem size_add_lt (cfg : Config) (a b : Nat) : size_add cfg a b < cfg.SIZE_MOD :=
  Nat.mod_lt _ (size_mod_pos cfg)

theorem size_dec_lt (cfg : Config) (d : Nat) : size_dec cfg d < cfg.SIZE_MOD :=
  Nat.mod_lt _ (size_mod_pos cfg)

theorem size_inc_lt (cfg : Config) (d : Nat) : size_inc cfg d < cfg.SIZE_MOD :=
  Nat.mod_lt _ (size_mod_pos cfg)

theorem size_dec_inc (cfg : Config) (d : Nat) (h : d < cfg.SIZE_MOD) :
    size_dec cfg (size_inc cfg d) = d := by
  unfold size_dec size_inc
  have hpos := size_mod_pos cfg
  by_cases hd : d + 1 = cfg.SIZE_MOD
  · rw [hd, Nat.mod_self, Nat.zero_add, Nat.mod_eq_of_lt (by omega)]; omega
  · rw [Nat.mod_eq_of_lt (by omega : d + 1 < cfg.SIZE_MOD)]
    have : d + 1 + cfg.SIZE_MOD - 1 = d + cfg.SIZE_MOD := by omega
    rw [this, Nat.add_mod_right, Nat.mod_eq_of_lt h]

/-! ## Entering the chain -/

theorem ghab_scalar (cfg : Config) (types : List Nat) (heap : Heap) (fuel : Nat)
    (v : Obj) (s : data_t) (h : is_scalar v) :
    get_heap_allocated_bytes cfg types heap (fuel + 1) v s = .ok (0, s) := by
  have : (v.info.is_arithmetic || v.info.is_enum) = true := by
    rcases h with h | h <;> simp [h]
  simp [get_heap_allocated_bytes, this, pure, Except.pure]

theorem ghab_not_scalar (cfg : Config) (types : List Nat) (heap : Heap) (fuel : Nat)
    (v : Obj) (s : data_t) (h1 : v.info.is_arithmetic = false) (h2 : v.info.is_enum = false) :
    get_heap_allocated_bytes cfg types heap (fuel + 1) v s =
      scope_exit_t cfg (get_heap_allocated_bytes_chain cfg types heap
        (get_heap_allocated_bytes cfg types heap fuel) v
        { s with current_depth := size_inc cfg s.current_depth }) := by
  simp [get_heap_allocated_bytes, h1, h2]

theorem scope_exit_t_ok (cfg : Config) (b : Nat) (s : data_t) :
    scope_exit_t cfg (.ok (b, s)) =
      .ok (b, { s with current_depth := size_dec cfg s.current_depth }) := rfl

theorem chain_smart_ptr (cfg : Config) (types : List Nat) (heap : Heap)
    (recurse : Obj → data_t → Result) (v : Obj) (ptr : Nat) (s : data_t)
    (h : is_smart_ptr cfg v ptr) :
    get_heap_allocated_bytes_chain cfg types heap recurse v s =
      accumulate_pointer_f cfg heap recurse ptr s := by
  obtain ⟨⟨_, _, h3, h4, h5, h6, h7⟩, h8, h9⟩ := h
  simp [get_heap_allocated_bytes_chain, h3, h4, h5, h6, Nat.not_lt.mpr h7, h8, h9]

theorem chain_raw_pointer (cfg : Config) (types : List Nat) (heap : Heap)
    (recurse : Obj → data_t → Result) (v : Obj) (ptr : Nat) (s : data_t)
    (h : is_raw_pointer cfg v ptr) :
    get_heap_allocated_bytes_chain cfg types heap recurse v s =
      if s.follow_raw_pointers = efollow_raw_pointers.True
      then accumulate_pointer_f cfg heap recurse ptr s else .ok (0, s) := by
  obtain ⟨⟨_, _, h3, h4, h5, h6, h7⟩, h8, h9, h10⟩ := h
  simp [get_heap_allocated_bytes_chain, h3, h4, h5, h6, Nat.not_lt.mpr h7, h8, h9, h10,
    pure, Except.pure]

/-! ## The claims -/

/-- C8. Non-owning leaves weigh nothing: for a scalar (arithmetic or enumerated)
value and for a non-owning view (`string_view`, `weak_ptr`), whatever else the
value offers, `weight_in_bytes` is 0 and `unknown_typeindexes` is empty for
every allowlist and pointer policy, and the engine returns 0 in every state
without marking an address or recording a type. -/
theorem C8_non_owning_leaves (cfg : Config) (types : List Nat) (heap : Heap) (fuel : Nat)
    (v : Obj) (follow : efollow_raw_pointers) (h : is_scalar v ∨ is_view v) :
    weight_in_bytes cfg types heap (fuel + 1) v follow = .ok 0 ∧
    unknown_typeindexes cfg types heap (fuel + 1) v follow = .ok [] ∧
    ∀ s, ∃ s', get_heap_allocated_bytes cfg types heap (fuel + 1) v s = .ok (0, s') ∧
      s'.handled_addresses = s.handled_addresses ∧ s'.unknown_types = s.unknown_types := by
  have key : ∀ s, ∃ s', get_heap_allocated_bytes cfg types heap (fuel + 1) v s = .ok (0, s') ∧
      s'.handled_addresses = s.handled_addresses ∧ s'.unknown_types = s.unknown_types := by
    intro s
    by_cases hs : is_scalar v
    · exact ⟨s, ghab_scalar cfg types heap fuel v s hs, rfl, rfl⟩
    · have hv : is_view v := h.resolve_left hs
      have h1 : v.info.is_arithmetic = false := by
        cases hb : v.info.is_arithmetic
        · rfl
        · exact absurd (Or.inl hb) hs
      have h2 : v.info.is_enum = false := by
        cases hb : v.info.is_enum
        · rfl
        · exact absurd (Or.inr hb) hs
      have h3 : (v.info.is_string_view || v.info.is_weak_ptr) = true := by
        rcases hv with hv | hv <;> simp [hv]
      refine ⟨{ s with current_depth := size_dec cfg (size_inc cfg s.current_depth) },
        ?_, rfl, rfl⟩
      rw [ghab_not_scalar cfg types heap fuel v s h1 h2]
      simp only [get_heap_allocated_bytes_chain, h3, if_true]
      rfl
  refine ⟨?_, ?_, key⟩
  · obtain ⟨s', hs', _, _⟩ := key (initial_data follow none)
    simp only [weight_in_bytes, hs']; rfl
  · obtain ⟨s', hs', _, hu⟩ := key (initial_data follow (some []))
    simp only [unknown_typeindexes, hs']
    show Except.ok (s'.unknown_types.getD []) = Except.ok []
    rw [hu]; rfl

/-- C8, witnessed on a `std::weak_ptr` to allocated memory, with raw pointers
followed and a non-empty allowlist. -/
theorem C8_non_owning_leaves_witness :
    (is_scalar (weak_ptr_at 64) ∨ is_view (weak_ptr_at 64)) ∧
    weight_in_bytes lp64 [2] [(4096, bytevec 4096 8192 100 0)] 1
      (weak_ptr_at 64) efollow_raw_pointers.True = .ok 0 :=
  ⟨Or.inr (Or.inr rfl),
   (C8_non_owning_leaves lp64 [2] [(4096, bytevec 4096 8192 100 0)] 0 _
      efollow_raw_pointers.True (Or.inr (Or.inr rfl))).1⟩

/-- C5. Explicit weight hook: a value that is neither scalar nor a view and whose
type has a `weight_in_bytes()` member weighs exactly what the hook reports,
whatever else the value offers.  The engine does not recurse (the result does
not depend on `recurse`, and a budget of one call is enough), and it leaves the
visited addresses and the unknown types as they were; so `unknown_typeindexes`
is empty. -/
theorem C5_weight_hook (cfg : Config) (types : List Nat) (heap : Heap) (fuel : Nat)
    (v : Obj) (w : Nat) (follow : efollow_raw_pointers)
    (h1 : ¬ is_scalar v) (h2 : ¬ is_view v) (h3 : v.info.weight_in_bytes = some w) :
    (∀ recurse s, get_heap_allocated_bytes_chain cfg types heap recurse v s = .ok (w, s)) ∧
    (∀ s, ∃ s', get_heap_allocated_bytes cfg types heap (fuel + 1) v s = .ok (w, s') ∧
      s'.handled_addresses = s.handled_addresses ∧ s'.unknown_types = s.unknown_types) ∧
    weight_in_bytes cfg types heap (fuel + 1) v follow = .ok w ∧
    unknown_typeindexes cfg types heap (fuel + 1) v follow = .ok [] := by
  have ha : v.info.is_arithmetic = false := by
    cases hb : v.info.is_arithmetic
    · rfl
    · exact absurd (Or.inl hb) h1
  have he : v.info.is_enum = false := by
    cases hb : v.info.is_enum
    · rfl
    · exact absurd (Or.inr hb) h1
  have hsv : v.info.is_string_view = false := by
    cases hb : v.info.is_string_view
    · rfl
    · exact absurd (Or.inl hb) h2
  have hwp : v.info.is_weak_ptr = false := by
    cases hb : v.info.is_weak_ptr
    · rfl
    · exact absurd (Or.inr hb) h2
  have hchain : ∀ recurse s,
      get_heap_allocated_bytes_chain cfg types heap recurse v s = .ok (w, s) := by
    intro recurse s
    simp [get_heap_allocated_bytes_chain, hsv, hwp, h3, pure, Except.pure]
  have key : ∀ s, ∃ s', get_heap_allocated_bytes cfg types heap (fuel + 1) v s = .ok (w, s') ∧
      s'.handled_addresses = s.handled_addresses ∧ s'.unknown_types = s.unknown_types := by
    intro s
    refine ⟨{ s with current_depth := size_dec cfg (size_inc cfg s.current_depth) },
      ?_, rfl, rfl⟩
    rw [ghab_not_scalar cfg types heap fuel v s ha he, hchain]
    rfl
  refine ⟨hchain, key, ?_, ?_⟩
  · obtain ⟨s', hs', _, _⟩ := key (initial_data follow none)
    simp only [weight_in_bytes, hs']; rfl
  · obtain ⟨s', hs', _, hu⟩ := key (initial_data follow (some []))
    simp only [unknown_typeindexes, hs']
    show Except.ok (s'.unknown_types.getD []) = Except.ok []
    rw [hu]; rfl

/-- C5, witnessed on the test type whose hook returns 42 while its member owns a
buffer of 2048 bytes: the weight is 42 with a budget of a single call. -/
theorem C5_weight_hook_witness :
    weight_in_bytes lp64 [] [] 1 (hooked_at 64 42 (bytevec 64 8192 2048 0)) = .ok 42 ∧
    unknown_typeindexes lp64 [] [] 1 (hooked_at 64 42 (bytevec 64 8192 2048 0)) = .ok [] :=
  (C5_weight_hook lp64 [] [] 0 (hooked_at 64 42 (bytevec 64 8192 2048 0)) 42
    efollow_raw_pointers.False (by decide) (by decide) rfl).2.2

theorem accumulate_pointer_f_skip (cfg : Config) (heap : Heap)
    (recurse : Obj → data_t → Result) (ptr : Nat) (io_data : data_t)
    (h : ptr = 0 ∨ ptr ∈ io_data.handled_addresses) :
    accumulate_pointer_f cfg heap recurse ptr io_data = .ok (0, io_data) := by
  unfold accumulate_pointer_f
  rcases h with h | h
  · simp [h, pure, Except.pure]
  · by_cases h0 : ptr = 0
    · simp [h0, pure, Except.pure]
    · simp [h0, h, pure, Except.pure]

theorem accumulate_pointer_f_follow (cfg : Config) (heap : Heap)
    (recurse : Obj → data_t → Result) (ptr : Nat) (io_data : data_t) (pointee : Obj)
    (h0 : ptr ≠ 0) (h1 : ptr ∉ io_data.handled_addresses)
    (h2 : heap.lookup ptr = some pointee) :
    accumulate_pointer_f cfg heap recurse ptr io_data =
      (recurse pointee { io_data with handled_addresses := ptr :: io_data.handled_addresses }
        >>= fun r => pure (size_add cfg r.1 pointee.info.sizeof, r.2)) := by
  unfold accumulate_pointer_f
  simp only [h0, h1, h2, if_false]

/-- C9. Owning/shared pointer step.  For a value `h` handled by the `smart_ptr`
branch with target `ptr`, in any state `s`: if `ptr` is null or already visited
the result is 0 and the visited set is unchanged; otherwise, with `pointee` the
object at `ptr` and `w` its recursive weight computed in the state in which
`ptr` is already marked, the result is `w + sizeof(pointee)` (as `size_t`), and
the final visited set contains `ptr` and every address visited before. -/
theorem C9_owning_pointer_step (cfg : Config) (types : List Nat) (heap : Heap) (fuel : Nat)
    (h : Obj) (ptr : Nat) (s : data_t) (hh : is_smart_ptr cfg h ptr) :
    ((ptr = 0 ∨ ptr ∈ s.handled_addresses) →
      ∃ s', get_heap_allocated_bytes cfg types heap (fuel + 1) h s = .ok (0, s') ∧
        s'.handled_addresses = s.handled_addresses) ∧
    (ptr ≠ 0 → ptr ∉ s.handled_addresses →
      ∀ pointee, heap.lookup ptr = some pointee →
      ∀ w s2, get_heap_allocated_bytes cfg types heap fuel pointee
          { s with handled_addresses := ptr :: s.handled_addresses
                   current_depth := size_inc cfg s.current_depth } = .ok (w, s2) →
        ∃ s', get_heap_allocated_bytes cfg types heap (fuel + 1) h s =
            .ok (size_add cfg w pointee.info.sizeof, s') ∧
          s'.handled_addresses = s2.handled_addresses ∧
          ptr ∈ s'.handled_addresses ∧
          ∀ a ∈ s.handled_addresses, a ∈ s'.handled_addresses) := by
  have hns := hh.1.1
  have hne := hh.1.2.1
  constructor
  · intro hskip
    refine ⟨{ s with current_depth := size_dec cfg (size_inc cfg s.current_depth) }, ?_, rfl⟩
    rw [ghab_not_scalar cfg types heap fuel h s hns hne, chain_smart_ptr _ _ _ _ _ _ _ hh,
      accumulate_pointer_f_skip cfg heap _ ptr
        { s with current_depth := size_inc cfg s.current_depth } hskip]
    rfl
  · intro h0 h1 pointee hl w s2 hw
    refine ⟨{ s2 with current_depth := size_dec cfg s2.current_depth }, ?_, rfl, ?_, ?_⟩
    · rw [ghab_not_scalar cfg types heap fuel h s hns hne, chain_smart_ptr _ _ _ _ _ _ _ hh,
        accumulate_pointer_f_follow cfg heap _ ptr
          { s with current_depth := size_inc cfg s.current_depth } pointee h0 h1 hl, hw]
      rfl
    · obtain ⟨_, ⟨new, e⟩, _, _⟩ := ghab_grows cfg types heap fuel _ _ _ _ hw
      show ptr ∈ s2.handled_addresses
      rw [e]; simp
    · intro a ha
      obtain ⟨_, ⟨new, e⟩, _, _⟩ := ghab_grows cfg types heap fuel _ _ _ _ hw
      show a ∈ s2.handled_addresses
      rw [e]; simp [ha]

theorem shared_ptr_at_is_smart_ptr (addr target : Nat) :
    is_smart_ptr lp64 (shared_ptr_at addr target) target :=
  ⟨⟨rfl, rfl, rfl, rfl, rfl, rfl, by show 8 ≤ 16; decide⟩, rfl, rfl⟩

set_option maxRecDepth 100000 in
/-- C9, witnessed on the first check of the `std::shared_ptr` test: a handle to
a `std::array<char, 128>` weighs `sizeof(value_t)`, and the address is marked. -/
theorem C9_owning_pointer_step_witness :
    is_smart_ptr lp64 (shared_ptr_at 64 4096) 4096 ∧
    ∃ s', get_heap_allocated_bytes lp64 [] shared_ptr_test_heap 3
        (shared_ptr_at 64 4096) (initial_data efollow_raw_pointers.False none) =
          .ok (128, s') ∧
      4096 ∈ s'.handled_addresses :=
  ⟨shared_ptr_at_is_smart_ptr 64 4096, by
    obtain ⟨s', h1, _, h3, _⟩ :=
      (C9_owning_pointer_step lp64 [] shared_ptr_test_heap 2
        (shared_ptr_at 64 4096) 4096 (initial_data efollow_raw_pointers.False none)
        (shared_ptr_at_is_smart_ptr 64 4096)).2 (by decide) (by decide) _ rfl 0 _ (by rfl)
    exact ⟨s', h1, h3⟩⟩

set_option maxRecDepth 100000 in
/-- C10. Raw-pointer policy.  For a value `p` handled by the raw pointer branch
with target `ptr`: when the state says not to follow raw pointers, `p`
contributes 0 and the visited set is unchanged, whatever `ptr` is; when it says
to follow them, the engine does on `p` exactly what it does on an owning handle
to the same address.  Not following is the default of both entry points.  On
the array of 12 raw pointers to one byte vector of capacity 128 the weight is
`128 + sizeof(bytevec_t)` when following and 0 when not. -/
theorem C10_raw_pointer_policy (cfg : Config) (types : List Nat) (heap : Heap) (fuel : Nat)
    (p : Obj) (ptr : Nat) (s : data_t) (hp : is_raw_pointer cfg p ptr) :
    (s.follow_raw_pointers = efollow_raw_pointers.False →
      ∃ s', get_heap_allocated_bytes cfg types heap (fuel + 1) p s = .ok (0, s') ∧
        s'.handled_addresses = s.handled_addresses) ∧
    (s.follow_raw_pointers = efollow_raw_pointers.True →
      ∀ h, is_smart_ptr cfg h ptr →
        get_heap_allocated_bytes cfg types heap (fuel + 1) p s =
          get_heap_allocated_bytes cfg types heap (fuel + 1) h s) ∧
    (∀ v, weight_in_bytes cfg types heap fuel v =
        weight_in_bytes cfg types heap fuel v efollow_raw_pointers.False ∧
      unknown_typeindexes cfg types heap fuel v =
        unknown_typeindexes cfg types heap fuel v efollow_raw_pointers.False) ∧
    weight_in_bytes lp64 [] raw_pointer_test_heap 4 raw_pointer_test_array
      efollow_raw_pointers.True = .ok (128 + 24) ∧
    weight_in_bytes lp64 [] raw_pointer_test_heap 4 raw_pointer_test_array
      efollow_raw_pointers.False = .ok 0 := by
  have hns := hp.1.1
  have hne := hp.1.2.1
  refine ⟨?_, ?_, fun v => ⟨rfl, rfl⟩, by rfl, by rfl⟩
  · intro hf
    refine ⟨{ s with current_depth := size_dec cfg (size_inc cfg s.current_depth) }, ?_, rfl⟩
    rw [ghab_not_scalar cfg types heap fuel p s hns hne, chain_raw_pointer _ _ _ _ _ _ _ hp]
    have : ¬ (s.follow_raw_pointers = efollow_raw_pointers.True) := by rw [hf]; decide
    simp only [this, if_false]
    rfl
  · intro hf h hh
    rw [ghab_not_scalar cfg types heap fuel p s hns hne, chain_raw_pointer _ _ _ _ _ _ _ hp,
      ghab_not_scalar cfg types heap fuel h s hh.1.1 hh.1.2.1,
      chain_smart_ptr _ _ _ _ _ _ _ hh]
    simp only [hf, if_true]

theorem raw_pointer_at_is_raw_pointer (addr target : Nat) :
    is_raw_pointer lp64 (raw_pointer_at addr target) target :=
  ⟨⟨rfl, rfl, rfl, rfl, rfl, rfl, by show 8 ≤ 8; decide⟩, rfl, rfl, rfl⟩

/-- C10, witnessed on one pointer of the "raw pointer" test: followed, it weighs
what a `std::shared_ptr` to the same vector weighs, that is 152 bytes. -/
theorem C10_raw_pointer_policy_witness :
    is_raw_pointer lp64 (raw_pointer_at 64 4096) 4096 ∧
    get_heap_allocated_bytes lp64 [] raw_pointer_test_heap 3 (raw_pointer_at 64 4096)
        (initial_data efollow_raw_pointers.True none) =
      get_heap_allocated_bytes lp64 [] raw_pointer_test_heap 3 (shared_ptr_at 64 4096)
        (initial_data efollow_raw_pointers.True none) :=
  ⟨raw_pointer_at_is_raw_pointer 64 4096,
   (C10_raw_pointer_policy lp64 [] raw_pointer_test_heap 2 (raw_pointer_at 64 4096) 4096
      (initial_data efollow_raw_pointers.True none)
      (raw_pointer_at_is_raw_pointer 64 4096)).2.1 rfl _
      (shared_ptr_at_is_smart_ptr 64 4096)⟩

/-! ## Containers -/

theorem chain_continuous_memory (cfg : Config) (types : List Nat) (heap : Heap)
    (recurse : Obj → data_t → Result) (v : Obj) (range : List Obj) (data capacity : Nat)
    (s : data_t) (h : is_continuous_memory cfg v range data capacity) :
    get_heap_allocated_bytes_chain cfg types heap recurse v s =
      (accumulate_range_f cfg recurse range s >>= fun r =>
        pure (size_add cfg (buffer_bytes cfg v data capacity) r.1, r.2)) := by
  obtain ⟨⟨⟨_, _, h3, h4, h5, h6, h7⟩, h8, h9, h10, h11, h12, h13⟩, h14, h15, h16, h17⟩ := h
  simp only [get_heap_allocated_bytes_chain, h3, h4, h5, h6, Nat.not_lt.mpr h7, h8, h9, h10,
    h11, h12, h13, h14, h15, h16, h17, buffer_bytes]
  by_cases hd : data = 0
  · simp [hd]
  · by_cases hi : is_inside_self_f v data = true
    · simp [hd, hi]
    · simp [hd, hi]

theorem container_allocation_bytes_inside (cfg : Config) (v : Obj) :
    ∀ (l : List Obj) (acc : Nat), (∀ e ∈ l, is_inside_self_f v e.info.address = true) →
      container_allocation_bytes cfg v l acc = acc := by
  intro l
  induction l with
  | nil => intro acc _; rfl
  | cons e es ih =>
    intro acc h
    have he := h e (List.mem_cons_self _ _)
    simp only [container_allocation_bytes, he]
    exact ih acc (fun x hx => h x (List.mem_cons_of_mem _ hx))

theorem chain_generic_container (cfg : Config) (types : List Nat) (heap : Heap)
    (recurse : Obj → data_t → Result) (v : Obj) (range : List Obj)
    (s : data_t) (h : is_generic_container cfg v range) :
    get_heap_allocated_bytes_chain cfg types heap recurse v s =
      (accumulate_range_f cfg recurse range s >>= fun r =>
        pure (size_add cfg (container_allocation_bytes cfg v range 0) r.1, r.2)) := by
  obtain ⟨⟨⟨_, _, h3, h4, h5, h6, h7⟩, h8, h9, h10, h11, h12, h13⟩, h14, h15, h16, h17⟩ := h
  simp only [get_heap_allocated_bytes_chain, h3, h4, h5, h6, Nat.not_lt.mpr h7, h8, h9, h10,
    h11, h12, h13, h14, h15, h17]
  rcases h16 with h16 | h16
  · simp [h16]
  · cases hd : v.info.data <;> simp [h16]

/-- Scalar elements add nothing and leave the state alone. -/
theorem tuple_for_each_scalars (cfg : Config) (types : List Nat) (heap : Heap) (fuel : Nat) :
    ∀ (l : List Obj) (acc : Nat) (s : data_t), acc < cfg.SIZE_MOD →
      (∀ e ∈ l, is_scalar e) →
      tuple_for_each (add_bytes cfg (get_heap_allocated_bytes cfg types heap (fuel + 1))) l
        (acc, s) = .ok (acc, s) := by
  intro l
  induction l with
  | nil => intro acc s _ _; rfl
  | cons e es ih =>
    intro acc s hacc h
    have he := ghab_scalar cfg types heap fuel e s (h e (List.mem_cons_self _ _))
    simp only [tuple_for_each, add_bytes, he, bind, Except.bind, pure, Except.pure]
    have : size_add cfg acc 0 = acc := by
      simp [size_add, Nat.mod_eq_of_lt hacc]
    rw [this]
    exact ih acc s hacc (fun x hx => h x (List.mem_cons_of_mem _ hx))

/-- Elements that own nothing add nothing and leave the state alone. -/
theorem tuple_for_each_heap_free (cfg : Config) (recurse : Obj → data_t → Result) :
    ∀ (l : List Obj) (acc : Nat) (s : data_t), acc < cfg.SIZE_MOD →
      s.current_depth < cfg.SIZE_MOD →
      (∀ e ∈ l, heap_free cfg recurse e) →
      tuple_for_each (add_bytes cfg recurse) l (acc, s) = .ok (acc, s) := by
  intro l
  induction l with
  | nil => intro acc s _ _ _; rfl
  | cons e es ih =>
    intro acc s hacc hs h
    have he := h e (List.mem_cons_self _ _) s hs
    simp only [tuple_for_each, add_bytes, he, bind, Except.bind, pure, Except.pure]
    have : size_add cfg acc 0 = acc := by
      simp [size_add, Nat.mod_eq_of_lt hacc]
    rw [this]
    exact ih acc s hacc hs (fun x hx => h x (List.mem_cons_of_mem _ hx))

theorem tuple_for_each_append {σ : Type} (F : Obj → σ → Except Fault σ) :
    ∀ (l1 l2 : List Obj) (st : σ),
      tuple_for_each F (l1 ++ l2) st = (tuple_for_each F l1 st >>= tuple_for_each F l2) := by
  intro l1
  induction l1 with
  | nil => intro l2 st; rfl
  | cons e es ih =>
    intro l2 st
    simp only [List.cons_append, tuple_for_each]
    cases hF : F e st with
    | error err => rfl
    | ok st1 => exact ih l2 st1

/-- A `std::array` of scalars, or any generic container whose elements are
scalars stored inside it, owns nothing. -/
theorem generic_container_of_scalars_heap_free (cfg : Config) (types : List Nat)
    (heap : Heap) (fuel : Nat) (v : Obj) (range : List Obj)
    (hv : is_generic_container cfg v range) (hs : ∀ e ∈ range, is_scalar e)
    (hi : ∀ e ∈ range, is_inside_self_f v e.info.address = true) :
    heap_free cfg (get_heap_allocated_bytes cfg types heap (fuel + 2)) v := by
  intro io hio
  rw [ghab_not_scalar cfg types heap (fuel + 1) v io hv.1.1.1 hv.1.1.2.1,
    chain_generic_container _ _ _ _ _ _ _ hv, container_allocation_bytes_inside _ _ _ _ hi,
    accumulate_range_f, tuple_for_each_scalars cfg types heap fuel range 0 _
      (size_mod_pos cfg) hs]
  simp only [bind, Except.bind, pure, Except.pure, scope_exit_t]
  have h0 : size_add cfg 0 0 = 0 := by simp [size_add]
  rw [h0, size_dec_inc cfg _ hio]

/-! ## Shared ownership -/

/-- After a call on a value that is not scalar the depth counter is a `size_t`. -/
theorem ghab_depth_lt (cfg : Config) (types : List Nat) (heap : Heap) (fuel : Nat)
    (v : Obj) (s : data_t) (b : Nat) (s' : data_t)
    (h1 : v.info.is_arithmetic = false) (h2 : v.info.is_enum = false)
    (h : get_heap_allocated_bytes cfg types heap fuel v s = .ok (b, s')) :
    s'.current_depth < cfg.SIZE_MOD := by
  cases fuel with
  | zero => cases h
  | succ n =>
    rw [ghab_not_scalar cfg types heap n v s h1 h2] at h
    simp only [scope_exit_t, bind_eq_ok] at h
    obtain ⟨⟨b2, s2⟩, _, h4⟩ := h
    cases h4
    exact size_dec_lt cfg _

/-- A handle to an address that is already marked adds nothing and leaves the
state alone. -/
theorem ghab_smart_ptr_visited (cfg : Config) (types : List Nat) (heap : Heap) (fuel : Nat)
    (h : Obj) (ptr : Nat) (s : data_t) (hh : is_smart_ptr cfg h ptr)
    (hv : ptr ∈ s.handled_addresses) (hd : s.current_depth < cfg.SIZE_MOD) :
    get_heap_allocated_bytes cfg types heap (fuel + 1) h s = .ok (0, s) := by
  rw [ghab_not_scalar cfg types heap fuel h s hh.1.1 hh.1.2.1, chain_smart_ptr _ _ _ _ _ _ _ hh,
    accumulate_pointer_f_skip cfg heap _ ptr
      { s with current_depth := size_inc cfg s.current_depth } (Or.inr hv),
    scope_exit_t_ok]
  simp only [size_dec_inc cfg _ hd]

theorem tuple_for_each_visited_handles (cfg : Config) (types : List Nat) (heap : Heap)
    (fuel : Nat) (ptr : Nat) :
    ∀ (hs : List Obj) (acc : Nat) (s : data_t), acc < cfg.SIZE_MOD →
      s.current_depth < cfg.SIZE_MOD → ptr ∈ s.handled_addresses →
      (∀ x ∈ hs, is_smart_ptr cfg x ptr) →
      tuple_for_each (add_bytes cfg (get_heap_allocated_bytes cfg types heap (fuel + 1))) hs
        (acc, s) = .ok (acc, s) := by
  intro hs
  induction hs with
  | nil => intro acc s _ _ _ _; rfl
  | cons e es ih =>
    intro acc s hacc hd hv hall
    have he := ghab_smart_ptr_visited cfg types heap fuel e ptr s
      (hall e (List.mem_cons_self _ _)) hv hd
    simp only [tuple_for_each, add_bytes, he, bind, Except.bind, pure, Except.pure]
    have : size_add cfg acc 0 = acc := by
      simp [size_add, Nat.mod_eq_of_lt hacc]
    rw [this]
    exact ih acc s hacc hd hv (fun x hx => hall x (List.mem_cons_of_mem _ hx))

/-- The bytes one handle yields are a `size_t`. -/
theorem ghab_smart_ptr_lt (cfg : Config) (types : List Nat) (heap : Heap) (fuel : Nat)
    (h : Obj) (ptr : Nat) (s : data_t) (hh : is_smart_ptr cfg h ptr) (b : Nat) (s' : data_t)
    (hr : get_heap_allocated_bytes cfg types heap fuel h s = .ok (b, s')) :
    b < cfg.SIZE_MOD ∧ (ptr ≠ 0 → ptr ∉ s.handled_addresses → ptr ∈ s'.handled_addresses) := by
  cases fuel with
  | zero => cases hr
  | succ n =>
    rw [ghab_not_scalar cfg types heap n h s hh.1.1 hh.1.2.1,
      chain_smart_ptr _ _ _ _ _ _ _ hh] at hr
    simp only [scope_exit_t, bind_eq_ok] at hr
    obtain ⟨⟨b2, s2⟩, h3, h4⟩ := hr
    cases h4
    simp only [accumulate_pointer_f] at h3
    split at h3
    · cases h3; exact ⟨size_mod_pos cfg, fun h0 => absurd ‹ptr = 0› h0⟩
    · split at h3
      · cases h3; exact ⟨size_mod_pos cfg, fun _ hn => absurd ‹ptr ∈ _› hn⟩
      · split at h3
        · cases h3
        · simp only [bind_eq_ok] at h3
          obtain ⟨⟨w, s3⟩, h5, h6⟩ := h3
          cases h6
          refine ⟨size_add_lt cfg _ _, fun _ _ => ?_⟩
          obtain ⟨_, ⟨new, e⟩, _, _⟩ := ghab_grows cfg types heap n _ _ _ _ h5
          show ptr ∈ s3.handled_addresses
          rw [e]; simp

/-- Handles to one address: all of them together yield what the first yields. -/
theorem accumulate_range_f_same_target (cfg : Config) (types : List Nat) (heap : Heap)
    (fuel : Nat) (h : Obj) (hs : List Obj) (ptr : Nat) (s : data_t)
    (h0 : ptr ≠ 0) (h1 : ptr ∉ s.handled_addresses)
    (hall : ∀ x ∈ h :: hs, is_smart_ptr cfg x ptr) :
    accumulate_range_f cfg (get_heap_allocated_bytes cfg types heap fuel) (h :: hs) s =
      get_heap_allocated_bytes cfg types heap fuel h s := by
  have hh := hall h (List.mem_cons_self _ _)
  simp only [accumulate_range_f, tuple_for_each, add_bytes]
  cases hr : get_heap_allocated_bytes cfg types heap fuel h s with
  | error e => rfl
  | ok r =>
    obtain ⟨b, s'⟩ := r
    obtain ⟨hb, hv⟩ := ghab_smart_ptr_lt cfg types heap fuel h ptr s hh b s' hr
    have hd := ghab_depth_lt cfg types heap fuel h s b s' hh.1.1 hh.1.2.1 hr
    cases fuel with
    | zero => cases hr
    | succ n =>
      simp only [bind, Except.bind, pure, Except.pure]
      have : size_add cfg 0 b = b := by simp [size_add, Nat.mod_eq_of_lt hb]
      rw [this]
      exact tuple_for_each_visited_handles cfg types heap n ptr hs b s' hb hd (hv h0 h1)
        (fun x hx => hall x (List.mem_cons_of_mem _ hx))

/-- C1. Shared-ownership dedup.  Let `h :: hs` be `n ≥ 1` values handled by the
`smart_ptr` branch that all hold the same non-null address `ptr`, not yet
visited in state `s`, with `pointee` the object stored there.

* Traversing all of them yields exactly what traversing the first yields, bytes
  and state; and with `w` the recursive weight of the pointee this is
  `w + sizeof(pointee)` (as `size_t`): the pointee is charged once.
* A vector (continuous memory, buffer allocated outside its footprint) of these
  handles to a pointee that owns nothing weighs
  `sizeof(pointee) + capacity * sizeof(value_type)`.
* A fixed array (generic container, elements inside its footprint) of these
  handles to such a pointee weighs `sizeof(pointee)`. -/
theorem C1_shared_ownership_dedup (cfg : Config) (types : List Nat) (heap : Heap)
    (fuel : Nat) (h : Obj) (hs : List Obj) (ptr : Nat) (pointee : Obj)
    (h0 : ptr ≠ 0) (hall : ∀ x ∈ h :: hs, is_smart_ptr cfg x ptr)
    (hl : heap.lookup ptr = some pointee) :
    (∀ s, ptr ∉ s.handled_addresses →
      accumulate_range_f cfg (get_heap_allocated_bytes cfg types heap (fuel + 1)) (h :: hs) s =
        get_heap_allocated_bytes cfg types heap (fuel + 1) h s ∧
      ∀ w s2, get_heap_allocated_bytes cfg types heap fuel pointee
          { s with handled_addresses := ptr :: s.handled_addresses
                   current_depth := size_inc cfg s.current_depth } = .ok (w, s2) →
        accumulate_range_f cfg (get_heap_allocated_bytes cfg types heap (fuel + 1)) (h :: hs) s =
          .ok (size_add cfg w pointee.info.sizeof,
               { s2 with current_depth := size_dec cfg s2.current_depth })) ∧
    (∀ vec data capacity follow,
      is_continuous_memory cfg vec (h :: hs) data capacity →
      data ≠ 0 → is_inside_self_f vec data = false →
      heap_free cfg (get_heap_allocated_bytes cfg types heap fuel) pointee →
      weight_in_bytes cfg types heap (fuel + 2) vec follow =
        .ok ((pointee.info.sizeof + capacity * vec.info.sizeof_value_type) % cfg.SIZE_MOD)) ∧
    (∀ arr follow,
      is_generic_container cfg arr (h :: hs) →
      (∀ x ∈ h :: hs, is_inside_self_f arr x.info.address = true) →
      heap_free cfg (get_heap_allocated_bytes cfg types heap fuel) pointee →
      weight_in_bytes cfg types heap (fuel + 2) arr follow =
        .ok (pointee.info.sizeof % cfg.SIZE_MOD)) := by
  have hh := hall h (List.mem_cons_self _ _)
  have charge : ∀ s, ptr ∉ s.handled_addresses → ∀ w s2,
      get_heap_allocated_bytes cfg types heap fuel pointee
          { s with handled_addresses := ptr :: s.handled_addresses
                   current_depth := size_inc cfg s.current_depth } = .ok (w, s2) →
        accumulate_range_f cfg (get_heap_allocated_bytes cfg types heap (fuel + 1)) (h :: hs) s =
          .ok (size_add cfg w pointee.info.sizeof,
               { s2 with current_depth := size_dec cfg s2.current_depth }) := by
    intro s h1 w s2 hw
    rw [accumulate_range_f_same_target cfg types heap (fuel + 1) h hs ptr s h0 h1 hall,
      ghab_not_scalar cfg types heap fuel h s hh.1.1 hh.1.2.1,
      chain_smart_ptr _ _ _ _ _ _ _ hh,
      accumulate_pointer_f_follow cfg heap _ ptr
        { s with current_depth := size_inc cfg s.current_depth } pointee h0 h1 hl, hw]
    rfl
  have free : heap_free cfg (get_heap_allocated_bytes cfg types heap fuel) pointee →
      ∀ s, ptr ∉ s.handled_addresses → ∃ s2,
        accumulate_range_f cfg (get_heap_allocated_bytes cfg types heap (fuel + 1)) (h :: hs) s =
          .ok (pointee.info.sizeof % cfg.SIZE_MOD, s2) := by
    intro hfree s h1
    have hw := hfree { s with handled_addresses := ptr :: s.handled_addresses
                              current_depth := size_inc cfg s.current_depth }
      (size_inc_lt cfg _)
    rw [charge s h1 0 _ hw]
    simp only [size_add, Nat.zero_add]
    exact ⟨_, rfl⟩
  refine ⟨fun s h1 => ⟨accumulate_range_f_same_target cfg types heap (fuel + 1) h hs ptr s h0 h1
    hall, charge s h1⟩, ?_, ?_⟩
  · intro vec data capacity follow hvec hd hi hfree
    have key : ∀ s, ptr ∉ s.handled_addresses → ∃ s',
        get_heap_allocated_bytes cfg types heap (fuel + 2) vec s =
          .ok ((pointee.info.sizeof + capacity * vec.info.sizeof_value_type) % cfg.SIZE_MOD,
            s') := by
      intro s h1
      obtain ⟨s2, hacc⟩ := free hfree { s with current_depth := size_inc cfg s.current_depth } h1
      rw [ghab_not_scalar cfg types heap (fuel + 1) vec s hvec.1.1.1 hvec.1.1.2.1,
        chain_continuous_memory _ _ _ _ _ _ _ _ _ hvec, hacc]
      refine ⟨{ s2 with current_depth := size_dec cfg s2.current_depth }, ?_⟩
      simp only [bind, Except.bind, pure, Except.pure, scope_exit_t, buffer_bytes, hd, hi,
        size_add, size_mul]
      simp [Nat.add_mod, Nat.mul_comm, Nat.add_comm]
    obtain ⟨s', hk⟩ := key (initial_data follow none) (by simp [initial_data])
    simp only [weight_in_bytes, hk]
    rfl
  · intro arr follow harr hi hfree
    have key : ∀ s, ptr ∉ s.handled_addresses → ∃ s',
        get_heap_allocated_bytes cfg types heap (fuel + 2) arr s =
          .ok (pointee.info.sizeof % cfg.SIZE_MOD, s') := by
      intro s h1
      obtain ⟨s2, hacc⟩ := free hfree { s with current_depth := size_inc cfg s.current_depth } h1
      rw [ghab_not_scalar cfg types heap (fuel + 1) arr s harr.1.1.1 harr.1.1.2.1,
        chain_generic_container _ _ _ _ _ _ _ harr,
        container_allocation_bytes_inside _ _ _ _ hi, hacc]
      refine ⟨{ s2 with current_depth := size_dec cfg s2.current_depth }, ?_⟩
      simp only [bind, Except.bind, pure, Except.pure, scope_exit_t, size_add]
      simp
    obtain ⟨s', hk⟩ := key (initial_data follow none) (by simp [initial_data])
    simp only [weight_in_bytes, hk]
    rfl

theorem array_of_is_generic_container (type_index addr sizeof_element : Nat)
    (elements : List Obj) (h : 8 ≤ sizeof_element * elements.length) :
    is_generic_container lp64 (array_of type_index addr sizeof_element elements) elements :=
  ⟨⟨⟨rfl, rfl, rfl, rfl, rfl, rfl, h⟩, rfl, rfl, rfl, rfl, rfl, rfl⟩, rfl, rfl, Or.inr rfl, rfl⟩

theorem vector_of_is_continuous_memory (type_index addr data capacity sizeof_element : Nat)
    (elements : List Obj) :
    is_continuous_memory lp64 (vector_of type_index addr data capacity sizeof_element elements)
      elements data capacity :=
  ⟨⟨⟨rfl, rfl, rfl, rfl, rfl, rfl, by show 8 ≤ 24; decide⟩, rfl, rfl, rfl, rfl, rfl, rfl⟩,
    rfl, rfl, rfl, rfl⟩

theorem shared_ptr_test_value_heap_free (fuel : Nat) :
    heap_free lp64 (get_heap_allocated_bytes lp64 [] shared_ptr_test_heap (fuel + 2))
      shared_ptr_test_value := by
  apply generic_container_of_scalars_heap_free lp64 [] shared_ptr_test_heap fuel _ _
    (array_of_is_generic_container 3 4096 1 _ (by simp))
  · intro e he
    simp only [List.mem_map, List.mem_range] at he
    obtain ⟨i, _, rfl⟩ := he
    exact Or.inl rfl
  · intro e he
    simp only [List.mem_map, List.mem_range] at he
    obtain ⟨i, hi, rfl⟩ := he
    simp only [is_inside_self_f, array_of, Obj.leaf, char_at, List.length_map,
      List.length_range, Bool.and_eq_true, decide_eq_true_eq]
    omega

theorem shared_ptr_test_handles_spec :
    ∀ x ∈ shared_ptr_test_handles,
      is_smart_ptr lp64 x 4096 ∧
      is_inside_self_f (array_of 8 8192 16 shared_ptr_test_handles) x.info.address = true := by
  intro x hx
  simp only [shared_ptr_test_handles, List.mem_cons, List.mem_map, List.mem_range] at hx
  rcases hx with rfl | ⟨i, hi, rfl⟩
  · refine ⟨shared_ptr_at_is_smart_ptr _ _, ?_⟩
    simp only [is_inside_self_f, array_of, Obj.leaf, shared_ptr_at, shared_ptr_test_handles,
      List.length_cons, List.length_map, List.length_range, Bool.and_eq_true,
      decide_eq_true_eq]
    omega
  · refine ⟨shared_ptr_at_is_smart_ptr _ _, ?_⟩
    simp only [is_inside_self_f, array_of, Obj.leaf, shared_ptr_at, shared_ptr_test_handles,
      List.length_cons, List.length_map, List.length_range, Bool.and_eq_true,
      decide_eq_true_eq]
    omega

set_option maxRecDepth 100000 in
/-- C1, witnessed on the `std::shared_ptr` test: a vector of 100 copies of one
handle to a `std::array<char, 128>` weighs `128 + capacity * 16`, and an array
of the 100 copies weighs 128. -/
theorem C1_shared_ownership_dedup_witness :
    weight_in_bytes lp64 [] shared_ptr_test_heap 4
      (vector_of 7 64 8192 100 16 shared_ptr_test_handles) = .ok (128 + 100 * 16) ∧
    weight_in_bytes lp64 [] shared_ptr_test_heap 4
      (array_of 8 8192 16 shared_ptr_test_handles) = .ok 128 := by
  have h := C1_shared_ownership_dedup lp64 [] shared_ptr_test_heap 2
    (shared_ptr_at 8192 4096)
    ((List.range 99).map (fun i => shared_ptr_at (8192 + 16 * (i + 1)) 4096))
    4096 shared_ptr_test_value (by decide)
    (fun x hx => (shared_ptr_test_handles_spec x hx).1) rfl
  constructor
  · exact h.2.1 (vector_of 7 64 8192 100 16 shared_ptr_test_handles) 8192 100
      efollow_raw_pointers.False
      (vector_of_is_continuous_memory 7 64 8192 100 16 _)
      (by decide) rfl (shared_ptr_test_value_heap_free 0)
  · exact h.2.2 (array_of 8 8192 16 shared_ptr_test_handles)
      efollow_raw_pointers.False
      (array_of_is_generic_container 8 8192 16 _
        (by simp [shared_ptr_test_handles]))
      (fun x hx => (shared_ptr_test_handles_spec x hx).2) (shared_ptr_test_value_heap_free 0)

/-! ## Termination -/

theorem path_at_is_generic_container (addr : Nat) :
    is_generic_container lp64 (path_at addr) [path_at addr] :=
  ⟨⟨⟨rfl, rfl, rfl, rfl, rfl, rfl, by show 8 ≤ 40; decide⟩, rfl, rfl, rfl, rfl, rfl, rfl⟩,
    rfl, rfl, Or.inl rfl, rfl⟩

/-- The engine does not return on a `std::filesystem::path` of one component:
whatever the budget, the recursion into the one element, the path again, uses it
up. -/
theorem ghab_path_at (types : List Nat) (heap : Heap) :
    ∀ (fuel addr : Nat) (s : data_t),
      get_heap_allocated_bytes lp64 types heap fuel (path_at addr) s =
        .error Fault.out_of_fuel := by
  intro fuel
  induction fuel with
  | zero => intro addr s; rfl
  | succ n ih =>
    intro addr s
    rw [ghab_not_scalar lp64 types heap n (path_at addr) s rfl rfl,
      chain_generic_container _ _ _ _ _ _ _ (path_at_is_generic_container addr)]
    simp only [accumulate_range_f, tuple_for_each, add_bytes, ih, bind, Except.bind]
    rfl

/-- C2, as stated, fails for a value whose iteration leads back to it: only
pointers are checked against the visited addresses, the elements of an iterable
are traversed unconditionally.  A `std::filesystem::path` of one component
iterates to that component, which is the path again, so the engine calls itself
on it without end: no budget, however large, is enough for `weight_in_bytes` or
`unknown_typeindexes` to return. -/
theorem C2_cycle_safety_counterexample :
    (path_at 64).elements = some [path_at 64] ∧
    (∀ fuel follow,
      weight_in_bytes lp64 [] [] fuel (path_at 64) follow = .error Fault.out_of_fuel) ∧
    (∀ fuel follow,
      unknown_typeindexes lp64 [] [] fuel (path_at 64) follow =
        .error Fault.out_of_fuel) := by
  refine ⟨rfl, fun fuel follow => ?_, fun fuel follow => ?_⟩
  · simp only [weight_in_bytes, ghab_path_at]
    rfl
  · simp only [unknown_typeindexes, ghab_path_at]
    rfl

/-- C2, amended.  Cycle safety.  The heap is any finite table of objects, so
handles may form cycles.  On a graph where no object iterates to itself (the
values that iteration, hooks and members yield form finite trees), for every
value and state the traversal ends: from some budget on, the outcome no longer
changes and is not `out_of_fuel`; the same holds for `weight_in_bytes`, and on a
valid object graph (moreover no dangling pointer, no type the header does not
compile for) that outcome is a byte count.  An address that is marked is never
followed or charged again, and in the state a traversal leaves, the addresses
marked before are still there, behind the new ones, and no address occurs twice
if none did: `sizeof(pointee)` is added when an address is inserted, so at most
once per address.  On two nodes that own each other the total is the two node
sizes. -/
theorem C2_cycle_safety (cfg : Config) (types : List Nat) (heap : Heap) (v : Obj)
    (s : data_t) :
    (finite_graph heap v → ∃ n, ∀ fuel, n ≤ fuel →
      get_heap_allocated_bytes cfg types heap fuel v s ≠ .error Fault.out_of_fuel ∧
      get_heap_allocated_bytes cfg types heap fuel v s =
        get_heap_allocated_bytes cfg types heap n v s) ∧
    (finite_graph heap v → ∀ follow, ∃ n, ∀ fuel, n ≤ fuel →
      weight_in_bytes cfg types heap fuel v follow ≠ .error Fault.out_of_fuel ∧
      weight_in_bytes cfg types heap fuel v follow =
        weight_in_bytes cfg types heap n v follow) ∧
    (valid_graph heap v → ∀ follow, ∃ n bytes, ∀ fuel, n ≤ fuel →
      weight_in_bytes cfg types heap fuel v follow = .ok bytes) ∧
    (∀ recurse ptr io, ptr ∈ io.handled_addresses →
      accumulate_pointer_f cfg heap recurse ptr io = .ok (0, io)) ∧
    (∀ fuel b s', get_heap_allocated_bytes cfg types heap fuel v s = .ok (b, s') →
      (∃ new, s'.handled_addresses = new ++ s.handled_addresses) ∧
      (s.handled_addresses.Nodup → s'.handled_addresses.Nodup)) ∧
    weight_in_bytes lp64 [] cycle_heap 7 (shared_ptr_at 64 4096) = .ok (16 + 16) := by
  refine ⟨get_heap_allocated_bytes_total cfg types heap v s, ?_, ?_, ?_, ?_, by rfl⟩
  · intro hfin follow
    obtain ⟨n, hn⟩ :=
      get_heap_allocated_bytes_total cfg types heap v (initial_data follow none) hfin
    refine ⟨n, fun fuel hf => ?_⟩
    obtain ⟨h1, h2⟩ := hn fuel hf
    simp only [weight_in_bytes, h2]
    refine ⟨?_, trivial⟩
    rw [h2] at h1
    rw [← avoids_ne_iff] at h1 ⊢
    exact avoids_bind h1 (fun _ _ => avoids_ok _ _)
  · intro hv follow
    obtain ⟨n, b, s', hn⟩ :=
      get_heap_allocated_bytes_returns cfg types heap v (initial_data follow none) hv
    refine ⟨n, b, fun fuel hf => ?_⟩
    simp only [weight_in_bytes, hn fuel hf]
    rfl
  · intro recurse ptr io hin
    exact accumulate_pointer_f_skip cfg heap recurse ptr io (Or.inr hin)
  · intro fuel b s' h
    obtain ⟨_, h2, h3, _⟩ := ghab_grows cfg types heap fuel _ _ _ _ h
    exact ⟨h2, h3⟩

/-- The objects of the two-node cycle, seen from a handle to the first node. -/
theorem cycle_heap_reaches (root x : Obj)
    (hroot : root ∈ [shared_ptr_at 64 4096, node_at 4096 8192, node_at 8192 4096,
      { Obj.leaf { type_index := 13, sizeof := 8, address := 16 } with
        tuple := some [shared_ptr_at 4096 8192] },
      { Obj.leaf { type_index := 13, sizeof := 8, address := 16 } with
        tuple := some [shared_ptr_at 8192 4096] },
      shared_ptr_at 4096 8192, shared_ptr_at 8192 4096])
    (h : Reaches cycle_heap root x) :
    x ∈ [shared_ptr_at 64 4096, node_at 4096 8192, node_at 8192 4096,
      { Obj.leaf { type_index := 13, sizeof := 8, address := 16 } with
        tuple := some [shared_ptr_at 4096 8192] },
      { Obj.leaf { type_index := 13, sizeof := 8, address := 16 } with
        tuple := some [shared_ptr_at 8192 4096] },
      shared_ptr_at 4096 8192, shared_ptr_at 8192 4096] := by
  induction h with
  | here v => exact hroot
  | child hc _ ih =>
    apply ih
    simp only [List.mem_cons, List.mem_singleton, List.not_mem_nil, or_false] at hroot
    rcases hroot with rfl | rfl | rfl | rfl | rfl | rfl | rfl <;>
      simp [Obj.children, Obj.elements, shared_ptr_at, node_at, Obj.leaf] at hc <;>
      subst hc <;> simp [shared_ptr_at, node_at, Obj.leaf]
  | smart_ptr hv hl _ ih =>
    apply ih
    simp only [List.mem_cons, List.mem_singleton, List.not_mem_nil, or_false] at hroot
    rcases hroot with rfl | rfl | rfl | rfl | rfl | rfl | rfl <;>
      simp [shared_ptr_at, node_at, Obj.leaf] at hv <;>
      subst hv <;> simp [cycle_heap, List.lookup] at hl <;>
      subst hl <;> simp [shared_ptr_at, node_at, Obj.leaf]
  | pointer hv _ _ _ =>
    simp only [List.mem_cons, List.mem_singleton, List.not_mem_nil, or_false] at hroot
    rcases hroot with rfl | rfl | rfl | rfl | rfl | rfl | rfl <;>
      simp [shared_ptr_at, node_at, Obj.leaf] at hv

theorem cycle_heap_valid_graph : valid_graph cycle_heap (shared_ptr_at 64 4096) := by
  intro x hx
  have hmem := cycle_heap_reaches _ x (List.mem_cons_self _ _) hx
  simp only [List.mem_cons, List.mem_singleton, List.not_mem_nil, or_false] at hmem
  rcases hmem with rfl | rfl | rfl | rfl | rfl | rfl | rfl <;>
    (refine ⟨?_, ?_, ?_, rfl⟩
     · intro ptr hptr _
       simp [shared_ptr_at, node_at, Obj.leaf] at hptr
       try (subst hptr; simp [cycle_heap, List.lookup])
     · intro hb; simp [shared_ptr_at, node_at, Obj.leaf] at hb
     · intro hm; simp [shared_ptr_at, node_at, Obj.leaf] at hm)

/-- C2 amended, witnessed on two nodes that own each other: the graph is valid,
so a handle to the first node has a weight, the same from some budget on. -/
theorem C2_cycle_safety_witness :
    valid_graph cycle_heap (shared_ptr_at 64 4096) ∧
    finite_graph cycle_heap (shared_ptr_at 64 4096) ∧
    ∃ n bytes, ∀ fuel, n ≤ fuel →
      weight_in_bytes lp64 [] cycle_heap fuel (shared_ptr_at 64 4096)
        efollow_raw_pointers.True = .ok bytes :=
  ⟨cycle_heap_valid_graph, finite_graph_of_valid_graph cycle_heap_valid_graph,
   (C2_cycle_safety lp64 [] cycle_heap (shared_ptr_at 64 4096)
      (initial_data efollow_raw_pointers.True none)).2.2.1 cycle_heap_valid_graph
      efollow_raw_pointers.True⟩

/-! ## Continuous memory -/

/-- The loop of `accumulate_range_f` adds up the weights of the elements. -/
theorem tuple_for_each_range_weights (cfg : Config) (recurse : Obj → data_t → Result) :
    ∀ (range : List Obj) (s : data_t) (weights : List Nat) (s' : data_t) (acc : Nat),
      range_weights recurse range s weights s' →
      tuple_for_each (add_bytes cfg recurse) range (acc % cfg.SIZE_MOD, s) =
        .ok ((acc + weights.sum) % cfg.SIZE_MOD, s') := by
  intro range
  induction range with
  | nil =>
    intro s weights s' acc h
    cases weights with
    | nil =>
      simp only [range_weights] at h
      subst h
      simp [tuple_for_each, pure, Except.pure]
    | cons w ws => simp [range_weights] at h
  | cons e es ih =>
    intro s weights s' acc h
    cases weights with
    | nil => simp [range_weights] at h
    | cons w ws =>
      simp only [range_weights] at h
      obtain ⟨s1, h1, h2⟩ := h
      simp only [tuple_for_each, add_bytes, h1, bind, Except.bind, pure, Except.pure,
        size_add]
      have := ih s1 ws s' (acc + w) h2
      rw [Nat.mod_add_mod] 
      rw [this, List.sum_cons, Nat.add_assoc]

theorem accumulate_range_f_range_weights (cfg : Config) (recurse : Obj → data_t → Result)
    (range : List Obj) (s : data_t) (weights : List Nat) (s' : data_t)
    (h : range_weights recurse range s weights s') :
    accumulate_range_f cfg recurse range s = .ok (weights.sum % cfg.SIZE_MOD, s') := by
  have := tuple_for_each_range_weights cfg recurse range s weights s' 0 h
  simp only [Nat.zero_mod, Nat.zero_add] at this
  exact this

theorem bytevec_is_continuous_memory (addr data capacity size : Nat) :
    is_continuous_memory lp64 (bytevec addr data capacity size)
      ((List.range size).map (fun i => char_at (data + i))) data capacity :=
  ⟨⟨⟨rfl, rfl, rfl, rfl, rfl, rfl, by show 8 ≤ 24; decide⟩, rfl, rfl, rfl, rfl, rfl, rfl⟩,
    rfl, rfl, rfl, rfl⟩

theorem string_at_is_continuous_memory (addr data capacity size : Nat) :
    is_continuous_memory lp64 (string_at addr data capacity size)
      ((List.range size).map (fun i => char_at (data + i))) data capacity :=
  ⟨⟨⟨rfl, rfl, rfl, rfl, rfl, rfl, by show 8 ≤ 32; decide⟩, rfl, rfl, rfl, rfl, rfl, rfl⟩,
    rfl, rfl, rfl, rfl⟩

theorem chars_are_scalars (data size : Nat) :
    ∀ e ∈ (List.range size).map (fun i => char_at (data + i)), is_scalar e := by
  intro e he
  simp only [List.mem_map, List.mem_range] at he
  obtain ⟨i, _, rfl⟩ := he
  exact Or.inl rfl

/-- The engine leaves a depth counter that is a `size_t` a `size_t`. -/
theorem ghab_keeps_depth_lt (cfg : Config) (types : List Nat) (heap : Heap) (fuel : Nat) :
    Keeps (fun s s' => s.current_depth < cfg.SIZE_MOD → s'.current_depth < cfg.SIZE_MOD)
      (get_heap_allocated_bytes cfg types heap fuel) := by
  intro x s b s' h hs
  cases fuel with
  | zero => cases h
  | succ n =>
    by_cases hx : is_scalar x
    · rw [ghab_scalar cfg types heap n x s hx] at h
      cases h
      exact hs
    · have h1 : x.info.is_arithmetic = false := by
        cases hb : x.info.is_arithmetic
        · rfl
        · exact absurd (Or.inl hb) hx
      have h2 : x.info.is_enum = false := by
        cases hb : x.info.is_enum
        · rfl
        · exact absurd (Or.inr hb) hx
      exact ghab_depth_lt cfg types heap (n + 1) x s b s' h1 h2 h

/-- The loop of `accumulate_range_f` keeps its sum a `size_t`. -/
theorem tuple_for_each_add_bytes_lt (cfg : Config) (recurse : Obj → data_t → Result) :
    ∀ (l : List Obj) (acc : Nat) (s : data_t) (b : Nat) (s' : data_t),
      acc < cfg.SIZE_MOD →
      tuple_for_each (add_bytes cfg recurse) l (acc, s) = .ok (b, s') →
      b < cfg.SIZE_MOD := by
  intro l
  induction l with
  | nil => intro acc s b s' hacc h; cases h; exact hacc
  | cons e es ih =>
    intro acc s b s' _ h
    simp only [tuple_for_each, bind_eq_ok] at h
    obtain ⟨⟨b1, s1⟩, h1, h2⟩ := h
    simp only [add_bytes, bind_eq_ok] at h1
    obtain ⟨⟨b0, s0⟩, _, h4⟩ := h1
    cases h4
    exact ih _ _ _ _ (size_add_lt cfg _ _) h2

set_option maxRecDepth 100000 in
/-- C4, as stated, fails: a vector of byte vectors that is cleared keeps its
buffer and its capacity of 1, yet its weight drops from 152 to 24, because the
dropped element owned 128 bytes itself. -/
theorem C4_capacity_preservation_counterexample :
    vector_of_bytevec_cleared.info = vector_of_bytevec_full.info ∧
    weight_in_bytes lp64 [] [] 3 vector_of_bytevec_full = .ok (24 + 128) ∧
    weight_in_bytes lp64 [] [] 3 vector_of_bytevec_cleared = .ok 24 ∧
    weight_in_bytes lp64 [] [] 3 vector_of_bytevec_cleared ≠
      weight_in_bytes lp64 [] [] 3 vector_of_bytevec_full := by
  refine ⟨rfl, by rfl, by rfl, by decide⟩

/-- C4, amended.  For a value handled by the `is_continuous_memory` branch,
dropping live elements at the end that own nothing themselves (each weighs 0 and
leaves the state as it is, as scalars do), while `data()`, `capacity()` and
everything else stay the same, changes neither the result of the engine nor
`weight_in_bytes`. -/
theorem C4_capacity_preservation (cfg : Config) (types : List Nat) (heap : Heap)
    (fuel : Nat) (v : Obj) (kept dropped : List Obj) (data capacity : Nat)
    (hv : is_continuous_memory cfg v (kept ++ dropped) data capacity)
    (hd : ∀ e ∈ dropped, heap_free cfg (get_heap_allocated_bytes cfg types heap fuel) e) :
    (∀ s, get_heap_allocated_bytes cfg types heap (fuel + 1) { v with range := some kept } s =
      get_heap_allocated_bytes cfg types heap (fuel + 1) v s) ∧
    (∀ follow, weight_in_bytes cfg types heap (fuel + 1) { v with range := some kept } follow =
      weight_in_bytes cfg types heap (fuel + 1) v follow) := by
  have hv' : is_continuous_memory cfg { v with range := some kept } kept data capacity := by
    obtain ⟨⟨⟨h1, h2, h3, h4, h5, h6, h7⟩, h8, h9, h10, h11, h12, h13⟩, _, h15, h16, h17⟩ := hv
    exact ⟨⟨⟨h1, h2, h3, h4, h5, h6, h7⟩, h8, h9, h10, h11, h12, h13⟩, rfl, h15, h16, h17⟩
  have key : ∀ s, get_heap_allocated_bytes cfg types heap (fuel + 1)
      { v with range := some kept } s =
        get_heap_allocated_bytes cfg types heap (fuel + 1) v s := by
    intro s
    rw [ghab_not_scalar cfg types heap fuel v s hv.1.1.1 hv.1.1.2.1,
      ghab_not_scalar cfg types heap fuel _ s hv'.1.1.1 hv'.1.1.2.1,
      chain_continuous_memory _ _ _ _ _ _ _ _ _ hv,
      chain_continuous_memory _ _ _ _ _ _ _ _ _ hv']
    have hacc : accumulate_range_f cfg (get_heap_allocated_bytes cfg types heap fuel)
          (kept ++ dropped) { s with current_depth := size_inc cfg s.current_depth } =
        accumulate_range_f cfg (get_heap_allocated_bytes cfg types heap fuel) kept
          { s with current_depth := size_inc cfg s.current_depth } := by
      simp only [accumulate_range_f, tuple_for_each_append]
      cases hk : tuple_for_each
          (add_bytes cfg (get_heap_allocated_bytes cfg types heap fuel)) kept
          (0, { s with current_depth := size_inc cfg s.current_depth }) with
      | error e => rfl
      | ok r =>
        obtain ⟨b, sk⟩ := r
        have hb := tuple_for_each_add_bytes_lt cfg _ kept 0 _ b sk (size_mod_pos cfg) hk
        have hdk : sk.current_depth < cfg.SIZE_MOD :=
          tuple_for_each_keeps (fun _ h => h) (fun _ _ _ h1 h2 h => h2 (h1 h))
            (add_bytes_keeps cfg (ghab_keeps_depth_lt cfg types heap fuel)) kept _ _ hk
            (size_inc_lt cfg _)
        exact tuple_for_each_heap_free cfg _ dropped b sk hb hdk hd
    rw [hacc]
    rfl
  exact ⟨key, fun follow => by simp only [weight_in_bytes, key]⟩

set_option maxRecDepth 100000 in
/-- C4 amended, witnessed on the `std::vector` test: the byte vector resized to
512 and then cleared weighs the same as before. -/
theorem C4_capacity_preservation_witness :
    weight_in_bytes lp64 [] [] 2 { bytevec 64 8192 512 512 with range := some [] } =
      weight_in_bytes lp64 [] [] 2 (bytevec 64 8192 512 512) :=
  (C4_capacity_preservation lp64 [] [] 1 (bytevec 64 8192 512 512) []
    ((List.range 512).map (fun i => char_at (8192 + i))) 8192 512
    (bytevec_is_continuous_memory 64 8192 512 512)
    (fun e he io _ => ghab_scalar lp64 [] [] 0 e io (chars_are_scalars 8192 512 e he))).2
    efollow_raw_pointers.False

/-! ## The type-erased box -/

theorem chain_any (cfg : Config) (types : List Nat) (heap : Heap)
    (recurse : Obj → data_t → Result) (v : Obj) (a : Option Obj) (s : data_t)
    (h : is_any cfg v a) :
    get_heap_allocated_bytes_chain cfg types heap recurse v s =
      match a with
      | none => .ok (0, s)
      | some held =>
        try_visit_any (any_visitor cfg recurse v) held types (0, s) >>= fun r =>
          if !r.1 && s.unknown_types.isSome
          then pure (r.2.1, emplace_unknown held.info.type_index r.2.2)
          else pure (r.2.1, r.2.2) := by
  obtain ⟨⟨⟨_, _, h3, h4, h5, h6, h7⟩, h8, h9, h10, h11, h12, h13⟩, h14, h15⟩ := h
  simp only [get_heap_allocated_bytes_chain, h3, h4, h5, h6, Nat.not_lt.mpr h7, h8, h9, h10,
    h11, h12, h13, h14, h15]
  cases a <;> simp [pure, Except.pure]

theorem try_visit_any_no_match {σ : Type} (F : Obj → σ → Except Fault σ) (a : Obj) :
    ∀ (types : List Nat) (st : σ), a.info.type_index ∉ types →
      try_visit_any F a types st = .ok (false, st) := by
  intro types
  induction types with
  | nil => intro st _; rfl
  | cons t ts ih =>
    intro st h
    simp only [List.mem_cons, not_or] at h
    simp only [try_visit_any, h.1, if_false]
    exact ih st h.2

theorem try_visit_any_match {σ : Type} (F : Obj → σ → Except Fault σ) (a : Obj) :
    ∀ (types : List Nat) (st : σ), a.info.type_index ∈ types →
      try_visit_any F a types st = (F a st >>= fun st1 => pure (true, st1)) := by
  intro types
  induction types with
  | nil => intro st h; simp at h
  | cons t ts ih =>
    intro st h
    by_cases ht : a.info.type_index = t
    · simp only [try_visit_any, ht, if_true]
    · simp only [try_visit_any, ht, if_false]
      rcases List.mem_cons.mp h with h | h
      · exact absurd h ht
      · exact ih st h

/-- C6. Type-erased box without a matching allowlist entry.  For a value `v`
handled by the `std::any` branch: an empty box weighs 0 and reports no unknown
type; a box that holds `held` weighs 0 under the empty allowlist and
`unknown_typeindexes` is exactly the one held type; and whenever no allowlist
entry equals the held type the box contributes 0, marks no address, and the held
type is put into the collector if one is attached (nothing happens without). -/
theorem C6_any_without_match (cfg : Config) (types : List Nat) (heap : Heap) (fuel : Nat)
    (v : Obj) (a : Option Obj) (follow : efollow_raw_pointers) (hv : is_any cfg v a) :
    (a = none →
      weight_in_bytes cfg types heap (fuel + 1) v follow = .ok 0 ∧
      unknown_typeindexes cfg types heap (fuel + 1) v follow = .ok []) ∧
    (∀ held, a = some held →
      weight_in_bytes cfg [] heap (fuel + 1) v follow = .ok 0 ∧
      unknown_typeindexes cfg [] heap (fuel + 1) v follow = .ok [held.info.type_index]) ∧
    (∀ held, a = some held → held.info.type_index ∉ types →
      ∀ s, ∃ s', get_heap_allocated_bytes cfg types heap (fuel + 1) v s = .ok (0, s') ∧
        s'.handled_addresses = s.handled_addresses ∧
        s'.unknown_types =
          (match s.unknown_types with
           | none => none
           | some seen =>
             some (if held.info.type_index ∈ seen then seen
                   else held.info.type_index :: seen))) := by
  have hns := hv.1.1.1
  have hne := hv.1.1.2.1
  have hno : ∀ (ts : List Nat) held, a = some held → held.info.type_index ∉ ts →
      ∀ s, get_heap_allocated_bytes cfg ts heap (fuel + 1) v s =
        .ok (0, { emplace_unknown held.info.type_index s with
                  current_depth := size_dec cfg (size_inc cfg s.current_depth) }) := by
    intro ts held ha hnot s
    subst ha
    rw [ghab_not_scalar cfg ts heap fuel v s hns hne, chain_any _ _ _ _ _ _ _ hv]
    simp only [try_visit_any_no_match _ held ts _ hnot, bind, Except.bind, pure, Except.pure,
      Bool.not_false, Bool.true_and]
    cases hu : s.unknown_types with
    | none => simp [hu, emplace_unknown, scope_exit_t, bind, Except.bind, pure, Except.pure]
    | some seen =>
      simp [hu, emplace_unknown, scope_exit_t, bind, Except.bind, pure, Except.pure]
  refine ⟨?_, ?_, ?_⟩
  · intro ha
    subst ha
    have key : ∀ s, get_heap_allocated_bytes cfg types heap (fuel + 1) v s =
        .ok (0, { s with current_depth := size_dec cfg (size_inc cfg s.current_depth) }) := by
      intro s
      rw [ghab_not_scalar cfg types heap fuel v s hns hne, chain_any _ _ _ _ _ _ _ hv]
      rfl
    constructor
    · simp only [weight_in_bytes, key]; rfl
    · simp only [unknown_typeindexes, key]; rfl
  · intro held ha
    have key := hno [] held ha (by simp)
    constructor
    · simp only [weight_in_bytes, key]; rfl
    · simp only [unknown_typeindexes, key]; rfl
  · intro held ha hnot s
    refine ⟨_, hno types held ha hnot s, ?_, ?_⟩
    · simp only [emplace_unknown]
      split <;> rfl
    · simp only [emplace_unknown]
      split
      · next hu => simp [hu]
      · next seen hu => simp [hu]

theorem any_at_is_any (addr : Nat) (held : Option Obj) :
    is_any lp64 (any_at addr held) held :=
  ⟨⟨⟨rfl, rfl, rfl, rfl, rfl, rfl, by show 8 ≤ 16; decide⟩, rfl, rfl, rfl, rfl, rfl, rfl⟩,
    rfl, rfl⟩

/-- C6, witnessed on the first block of the `std::any` test: without an
allowlist the box that holds an array of byte vectors weighs 0 and exactly the
type of the array is reported. -/
theorem C6_any_without_match_witness :
    is_any lp64 (any_at 64 (some (array_of_bytevecs 4096)))
      (some (array_of_bytevecs 4096)) ∧
    weight_in_bytes lp64 [] [] 1 (any_at 64 (some (array_of_bytevecs 4096))) = .ok 0 ∧
    unknown_typeindexes lp64 [] [] 1 (any_at 64 (some (array_of_bytevecs 4096))) =
      .ok [18] :=
  ⟨any_at_is_any 64 _,
   (C6_any_without_match lp64 [] [] 0 (any_at 64 (some (array_of_bytevecs 4096))) _
      efollow_raw_pointers.False (any_at_is_any 64 _)).2.1 _ rfl⟩

set_option maxRecDepth 100000 in
/-- C7, as stated, fails: a box that holds a value of a type the engine has no
strategy for (here 8 bytes with no capability, kept in the small buffer of the
box) is found through the allowlist, and the traversal of the payload then
records that type; `unknown_typeindexes` is not empty. -/
theorem C7_any_with_match_counterexample :
    is_any lp64 (any_at 64 (some (time_point_at 72))) (some (time_point_at 72)) ∧
    (time_point_at 72).info.type_index ∈ [17] ∧
    unknown_typeindexes lp64 [17] [] 3 (any_at 64 (some (time_point_at 72))) = .ok [17] ∧
    unknown_typeindexes lp64 [17] [] 3 (any_at 64 (some (time_point_at 72))) ≠ .ok [] :=
  ⟨any_at_is_any 64 _, by decide, by rfl, by decide⟩

/-- C7, amended.  For a value `v` handled by the `std::any` branch that holds
`held`, with the type of `held` an entry of the allowlist, and with `w` the
recursive weight of `held`: the engine returns `w + sizeof(held)` (as `size_t`),
the `sizeof` term being left out exactly when the address of `held` lies in
`[addressof(v), addressof(v) + sizeof(v))`.  The box itself records no type:
the collector and the visited addresses are those the traversal of the payload
leaves, so `unknown_typeindexes` is the set of types recorded inside the
payload, and it is empty when the payload records none. -/
theorem C7_any_with_match (cfg : Config) (types : List Nat) (heap : Heap) (fuel : Nat)
    (v held : Obj) (hv : is_any cfg v (some held)) (ht : held.info.type_index ∈ types) :
    (∀ s w s2, get_heap_allocated_bytes cfg types heap fuel held
        { s with current_depth := size_inc cfg s.current_depth } = .ok (w, s2) →
      get_heap_allocated_bytes cfg types heap (fuel + 1) v s =
        .ok ((if is_inside_self_f v held.info.address = true then w
              else w + held.info.sizeof) % cfg.SIZE_MOD,
             { s2 with current_depth := size_dec cfg s2.current_depth })) ∧
    (∀ follow w s2, get_heap_allocated_bytes cfg types heap fuel held
        { initial_data follow none with current_depth := size_inc cfg 0 } = .ok (w, s2) →
      weight_in_bytes cfg types heap (fuel + 1) v follow =
        .ok ((if is_inside_self_f v held.info.address = true then w
              else w + held.info.sizeof) % cfg.SIZE_MOD)) ∧
    (∀ follow w s2, get_heap_allocated_bytes cfg types heap fuel held
        { initial_data follow (some []) with current_depth := size_inc cfg 0 } = .ok (w, s2) →
      unknown_typeindexes cfg types heap (fuel + 1) v follow =
        .ok (s2.unknown_types.getD []) ∧
      (s2.unknown_types = some [] →
        unknown_typeindexes cfg types heap (fuel + 1) v follow = .ok [])) := by
  have key : ∀ s w s2, get_heap_allocated_bytes cfg types heap fuel held
        { s with current_depth := size_inc cfg s.current_depth } = .ok (w, s2) →
      get_heap_allocated_bytes cfg types heap (fuel + 1) v s =
        .ok ((if is_inside_self_f v held.info.address = true then w
              else w + held.info.sizeof) % cfg.SIZE_MOD,
             { s2 with current_depth := size_dec cfg s2.current_depth }) := by
    intro s w s2 hw
    rw [ghab_not_scalar cfg types heap fuel v s hv.1.1.1 hv.1.1.2.1,
      chain_any _ _ _ _ _ _ _ hv]
    simp only [try_visit_any_match _ held types _ ht, any_visitor, add_bytes, hw, bind,
      Except.bind, pure, Except.pure, size_add, Nat.zero_add]
    by_cases hi : is_inside_self_f v held.info.address = true
    · simp [hi, scope_exit_t, bind, Except.bind, pure, Except.pure]
    · simp [hi, scope_exit_t, bind, Except.bind, pure, Except.pure]
  refine ⟨key, ?_, ?_⟩
  · intro follow w s2 hw
    have hk := key (initial_data follow none) w s2 hw
    simp only [weight_in_bytes, hk]
    rfl
  · intro follow w s2 hw
    have hk := key (initial_data follow (some [])) w s2 hw
    have hu : unknown_typeindexes cfg types heap (fuel + 1) v follow =
        .ok (s2.unknown_types.getD []) := by
      simp only [unknown_typeindexes, hk]
      rfl
    exact ⟨hu, fun h0 => by rw [hu, h0]; rfl⟩

/-- A continuous-memory container of scalars weighs its buffer and leaves the
state as it is. -/
theorem ghab_continuous_memory_of_scalars (cfg : Config) (types : List Nat) (heap : Heap)
    (fuel : Nat) (v : Obj) (range : List Obj) (data capacity : Nat)
    (hv : is_continuous_memory cfg v range data capacity) (hs : ∀ e ∈ range, is_scalar e)
    (s : data_t) (hd : s.current_depth < cfg.SIZE_MOD) :
    get_heap_allocated_bytes cfg types heap (fuel + 2) v s =
      .ok (buffer_bytes cfg v data capacity, s) := by
  have hB : buffer_bytes cfg v data capacity < cfg.SIZE_MOD := by
    unfold buffer_bytes
    split
    · exact size_mod_pos cfg
    · exact Nat.mod_lt _ (size_mod_pos cfg)
  rw [ghab_not_scalar cfg types heap (fuel + 1) v s hv.1.1.1 hv.1.1.2.1,
    chain_continuous_memory _ _ _ _ _ _ _ _ _ hv, accumulate_range_f,
    tuple_for_each_scalars cfg types heap fuel range 0 _ (size_mod_pos cfg) hs]
  simp only [bind, Except.bind, pure, Except.pure, scope_exit_t, size_add, Nat.add_zero,
    Nat.mod_eq_of_lt hB, size_dec_inc cfg _ hd]

theorem array_of_bytevecs_weight (types : List Nat) (fuel : Nat) (s : data_t)
    (hd : s.current_depth < lp64.SIZE_MOD) :
    get_heap_allocated_bytes lp64 types [] (fuel + 3) (array_of_bytevecs 4096) s =
      .ok (1024 * 2, s) := by
  have hin : ∀ e ∈ [bytevec 4096 8192 1024 1024, bytevec (4096 + 24) 12288 1024 1024],
      is_inside_self_f (array_of_bytevecs 4096) e.info.address = true := by
    intro e he
    simp only [List.mem_cons, List.mem_singleton, List.not_mem_nil, or_false] at he
    rcases he with rfl | rfl <;> rfl
  have h1 := fun io (hio : io.current_depth < lp64.SIZE_MOD) =>
    ghab_continuous_memory_of_scalars lp64 types [] fuel (bytevec 4096 8192 1024 1024) _ 8192
      1024 (bytevec_is_continuous_memory 4096 8192 1024 1024) (chars_are_scalars 8192 1024)
      io hio
  have h2 := fun io (hio : io.current_depth < lp64.SIZE_MOD) =>
    ghab_continuous_memory_of_scalars lp64 types [] fuel (bytevec (4096 + 24) 12288 1024 1024)
      _ 12288 1024 (bytevec_is_continuous_memory (4096 + 24) 12288 1024 1024)
      (chars_are_scalars 12288 1024) io hio
  have hs1 := size_inc_lt lp64 s.current_depth
  rw [ghab_not_scalar lp64 types [] (fuel + 2) (array_of_bytevecs 4096) s rfl rfl,
    chain_generic_container lp64 types [] _ (array_of_bytevecs 4096) _ _
      (array_of_is_generic_container 18 4096 24 _ (by decide)),
    container_allocation_bytes_inside lp64 _ _ 0 hin]
  simp only [accumulate_range_f, tuple_for_each, add_bytes,
    h1 { s with current_depth := size_inc lp64 s.current_depth } hs1,
    h2 { s with current_depth := size_inc lp64 s.current_depth } hs1, bind,
    Except.bind, pure, Except.pure, scope_exit_t, size_dec_inc lp64 _ hd]
  rfl

/-- C7 amended, witnessed on the `std::any` test, with two byte vectors of 1024
bytes in the array instead of 128: with the type of the array in the allowlist
the box weighs `sizeof(arr) + 1024 * arr.size()` and reports no unknown type. -/
theorem C7_any_with_match_witness :
    is_any lp64 (any_at 64 (some (array_of_bytevecs 4096)))
      (some (array_of_bytevecs 4096)) ∧
    (array_of_bytevecs 4096).info.type_index ∈ [18] ∧
    weight_in_bytes lp64 [18] [] 4 (any_at 64 (some (array_of_bytevecs 4096))) =
      .ok (48 + 1024 * 2) ∧
    unknown_typeindexes lp64 [18] [] 4 (any_at 64 (some (array_of_bytevecs 4096))) =
      .ok [] :=
  ⟨any_at_is_any 64 _, List.mem_singleton.mpr rfl,
   (C7_any_with_match lp64 [18] [] 3 (any_at 64 (some (array_of_bytevecs 4096)))
      (array_of_bytevecs 4096) (any_at_is_any 64 _) (List.mem_singleton.mpr rfl)).2.1
      efollow_raw_pointers.False (1024 * 2) _
      (array_of_bytevecs_weight [18] 0 _ (size_inc_lt lp64 _)),
   ((C7_any_with_match lp64 [18] [] 3 (any_at 64 (some (array_of_bytevecs 4096)))
      (array_of_bytevecs 4096) (any_at_is_any 64 _) (List.mem_singleton.mpr rfl)).2.2
      efollow_raw_pointers.False (1024 * 2) _
      (array_of_bytevecs_weight [18] 0 _ (size_inc_lt lp64 _))).2 rfl⟩

/-! ## The branches after the small-object test -/

theorem chain_as_tuple (cfg : Config) (types : List Nat) (heap : Heap)
    (recurse : Obj → data_t → Result) (v t : Obj) (s : data_t)
    (h1 : v.info.is_string_view = false) (h2 : v.info.is_weak_ptr = false)
    (h3 : v.info.weight_in_bytes = none) (h4 : v.as_tuple = some t) :
    get_heap_allocated_bytes_chain cfg types heap recurse v s = recurse t s := by
  simp [get_heap_allocated_bytes_chain, h1, h2, h3, h4]

theorem chain_small_object (cfg : Config) (types : List Nat) (heap : Heap)
    (recurse : Obj → data_t → Result) (v : Obj) (s : data_t)
    (h : is_small_object cfg v) :
    get_heap_allocated_bytes_chain cfg types heap recurse v s = .ok (0, s) := by
  obtain ⟨_, _, h3, h4, h5, h6, h7⟩ := h
  simp [get_heap_allocated_bytes_chain, h3, h4, h5, h6, h7, pure, Except.pure]

theorem chain_optional (cfg : Config) (types : List Nat) (heap : Heap)
    (recurse : Obj → data_t → Result) (v : Obj) (contained : Option Obj) (s : data_t)
    (h : is_optional cfg v contained) :
    get_heap_allocated_bytes_chain cfg types heap recurse v s =
      match contained with
      | some x => recurse x s
      | none => .ok (0, s) := by
  obtain ⟨⟨_, _, h3, h4, h5, h6, h7⟩, h8⟩ := h
  cases contained <;>
    simp [get_heap_allocated_bytes_chain, h3, h4, h5, h6, Nat.not_lt.mpr h7, h8, pure,
      Except.pure]

theorem chain_variant (cfg : Config) (types : List Nat) (heap : Heap)
    (recurse : Obj → data_t → Result) (v : Obj) (active : Option Obj) (s : data_t)
    (h : is_variant cfg v active) :
    get_heap_allocated_bytes_chain cfg types heap recurse v s =
      match active with
      | some x => recurse x s
      | none => .ok (0, s) := by
  obtain ⟨⟨_, _, h3, h4, h5, h6, h7⟩, h8, h9, h10, h11⟩ := h
  cases active <;>
    simp [get_heap_allocated_bytes_chain, h3, h4, h5, h6, Nat.not_lt.mpr h7, h8, h9, h10,
      h11, pure, Except.pure]

theorem chain_pair (cfg : Config) (types : List Nat) (heap : Heap)
    (recurse : Obj → data_t → Result) (v first second : Obj) (s : data_t)
    (h : is_pair cfg v first second) :
    get_heap_allocated_bytes_chain cfg types heap recurse v s =
      (recurse first s >>= fun r1 => recurse second r1.2 >>= fun r2 =>
        pure (size_add cfg r1.1 r2.1, r2.2)) := by
  obtain ⟨⟨_, _, h3, h4, h5, h6, h7⟩, h8, h9, h10, h11, h12⟩ := h
  simp only [get_heap_allocated_bytes_chain, h3, h4, h5, h6, Nat.not_lt.mpr h7, h8, h9, h10,
    h11, h12]
  simp

theorem chain_tuple (cfg : Config) (types : List Nat) (heap : Heap)
    (recurse : Obj → data_t → Result) (v : Obj) (elements : List Obj) (s : data_t)
    (h : is_tuple cfg v elements) :
    get_heap_allocated_bytes_chain cfg types heap recurse v s =
      tuple_for_each (add_bytes cfg recurse) elements (0, s) := by
  obtain ⟨⟨_, _, h3, h4, h5, h6, h7⟩, h8, h9, h10, h11, h12, h13⟩ := h
  simp [get_heap_allocated_bytes_chain, h3, h4, h5, h6, Nat.not_lt.mpr h7, h8, h9, h10,
    h11, h12, h13]

theorem chain_bit_packed (cfg : Config) (types : List Nat) (heap : Heap)
    (recurse : Obj → data_t → Result) (v : Obj) (range : List Obj) (capacity : Nat)
    (s : data_t) (h : is_bit_packed cfg v range capacity) :
    get_heap_allocated_bytes_chain cfg types heap recurse v s = .ok (capacity / 8, s) := by
  obtain ⟨⟨⟨_, _, h3, h4, h5, h6, h7⟩, h8, h9, h10, h11, h12, h13⟩, h14, h15, h16⟩ := h
  simp [get_heap_allocated_bytes_chain, h3, h4, h5, h6, Nat.not_lt.mpr h7, h8, h9, h10,
    h11, h12, h13, h14, h15, h16, pure, Except.pure]

theorem chain_associative (cfg : Config) (types : List Nat) (heap : Heap)
    (recurse : Obj → data_t → Result) (v : Obj) (range : List Obj)
    (s : data_t) (h : is_associative cfg v range) :
    get_heap_allocated_bytes_chain cfg types heap recurse v s =
      (map_allocation_bytes cfg v range 0 >>= fun allocation_bytes =>
        accumulate_range_f cfg recurse range s >>= fun r =>
          pure (size_add cfg allocation_bytes r.1, r.2)) := by
  obtain ⟨⟨⟨_, _, h3, h4, h5, h6, h7⟩, h8, h9, h10, h11, h12, h13⟩, h14, h15, h16, h17⟩ := h
  simp only [get_heap_allocated_bytes_chain, h3, h4, h5, h6, Nat.not_lt.mpr h7, h8, h9, h10,
    h11, h12, h13, h14, h15, h17]
  rcases h16 with h16 | h16
  · simp [h16]
  · cases hd : v.info.data <;> simp [h16]

theorem chain_no_strategy (cfg : Config) (types : List Nat) (heap : Heap)
    (recurse : Obj → data_t → Result) (v : Obj) (s : data_t)
    (h : matches_no_strategy cfg v) :
    get_heap_allocated_bytes_chain cfg types heap recurse v s = store_unknown_type v s := by
  obtain ⟨⟨⟨⟨_, _, h3, h4, h5, h6, h7⟩, h8, h9, h10, h11, h12, h13⟩, h14, h15, h16⟩, h17⟩ := h
  simp only [get_heap_allocated_bytes_chain, h3, h4, h5, h6, Nat.not_lt.mpr h7, h8, h9, h10,
    h11, h12, h13, h14, h15]
  rcases h16 with h16 | ⟨h16, h16'⟩ <;> rcases h17 with h17 | ⟨h17, h17'⟩ <;>
    simp [h16, h17, *] <;> split <;> rfl

theorem not_scalar_false (v : Obj) (h : ¬ is_scalar v) :
    v.info.is_arithmetic = false ∧ v.info.is_enum = false := by
  constructor
  · cases hb : v.info.is_arithmetic
    · rfl
    · exact absurd (Or.inl hb) h
  · cases hb : v.info.is_enum
    · rfl
    · exact absurd (Or.inr hb) h

theorem not_view_false (v : Obj) (h : ¬ is_view v) :
    v.info.is_string_view = false ∧ v.info.is_weak_ptr = false := by
  constructor
  · cases hb : v.info.is_string_view
    · rfl
    · exact absurd (Or.inl hb) h
  · cases hb : v.info.is_weak_ptr
    · rfl
    · exact absurd (Or.inr hb) h

/-- A branch that returns `bytes` without touching the state gives `bytes` at
both entry points and reports nothing. -/
theorem entry_points_of_chain_ok (cfg : Config) (types : List Nat) (heap : Heap)
    (fuel : Nat) (v : Obj) (bytes : Nat)
    (h1 : v.info.is_arithmetic = false) (h2 : v.info.is_enum = false)
    (hc : ∀ s, get_heap_allocated_bytes_chain cfg types heap
      (get_heap_allocated_bytes cfg types heap fuel) v s = .ok (bytes, s)) :
    (∀ s, s.current_depth < cfg.SIZE_MOD →
      get_heap_allocated_bytes cfg types heap (fuel + 1) v s = .ok (bytes, s)) ∧
    (∀ follow, weight_in_bytes cfg types heap (fuel + 1) v follow = .ok bytes ∧
      unknown_typeindexes cfg types heap (fuel + 1) v follow = .ok []) := by
  have key : ∀ s, get_heap_allocated_bytes cfg types heap (fuel + 1) v s =
      .ok (bytes, { s with current_depth := size_dec cfg (size_inc cfg s.current_depth) }) := by
    intro s
    rw [ghab_not_scalar cfg types heap fuel v s h1 h2, hc]
    rfl
  refine ⟨?_, ?_⟩
  · intro s hd
    rw [key, size_dec_inc cfg _ hd]
  · intro follow
    constructor
    · simp only [weight_in_bytes, key]; rfl
    · simp only [unknown_typeindexes, key]; rfl

/-! ## Bit-packed sequences -/

/-- C13. Bit-packed boolean sequence.  For a `std::vector<bool>` whose
`capacity()` is `capacity`, whatever elements it holds: the engine returns
`capacity / 8` (truncating division) without calling itself on any element (the
result is the same for every `recurse`) and leaves the state as it was;
`weight_in_bytes` is `capacity / 8`, which is 0 when the capacity is 0, and
`unknown_typeindexes` is empty. -/
theorem C13_bit_packed_sequence (cfg : Config) (types : List Nat) (heap : Heap)
    (fuel : Nat) (v : Obj) (range : List Obj) (capacity : Nat)
    (hv : is_bit_packed cfg v range capacity) :
    (∀ recurse s,
      get_heap_allocated_bytes_chain cfg types heap recurse v s = .ok (capacity / 8, s)) ∧
    (∀ s, s.current_depth < cfg.SIZE_MOD →
      get_heap_allocated_bytes cfg types heap (fuel + 1) v s = .ok (capacity / 8, s)) ∧
    (∀ follow, weight_in_bytes cfg types heap (fuel + 1) v follow = .ok (capacity / 8) ∧
      unknown_typeindexes cfg types heap (fuel + 1) v follow = .ok []) ∧
    (capacity = 0 → ∀ follow, weight_in_bytes cfg types heap (fuel + 1) v follow = .ok 0) := by
  have hc := fun recurse s => chain_bit_packed cfg types heap recurse v range capacity s hv
  have he := entry_points_of_chain_ok cfg types heap fuel v (capacity / 8) hv.1.1.1 hv.1.1.2.1
    (fun s => hc _ s)
  refine ⟨hc, he.1, he.2, ?_⟩
  intro h0 follow
  rw [(he.2 follow).1, h0]

theorem vector_bool_at_is_bit_packed (addr capacity : Nat) (elements : List Obj) :
    is_bit_packed lp64 (vector_bool_at addr capacity elements) elements capacity :=
  ⟨⟨⟨rfl, rfl, rfl, rfl, rfl, rfl, by show 8 ≤ 40; decide⟩, rfl, rfl, rfl, rfl, rfl, rfl⟩,
    rfl, rfl, rfl⟩

/-- C13, witnessed on the `std::vector<bool>` test: the empty vector weighs 0,
and the vector resized to 100 bits, with a capacity of 128 bits, weighs 16. -/
theorem C13_bit_packed_sequence_witness :
    weight_in_bytes lp64 [] [] 1 (vector_bool_at 64 0 []) = .ok 0 ∧
    weight_in_bytes lp64 [] [] 1 (vector_bool_at 64 128 (List.replicate 100 bit_reference)) =
      .ok 16 :=
  ⟨(C13_bit_packed_sequence lp64 [] [] 0 (vector_bool_at 64 0 []) [] 0
      (vector_bool_at_is_bit_packed 64 0 [])).2.2.2 rfl efollow_raw_pointers.False,
   ((C13_bit_packed_sequence lp64 [] [] 0
      (vector_bool_at 64 128 (List.replicate 100 bit_reference)) _ 128
      (vector_bool_at_is_bit_packed 64 128 _)).2.2.1 efollow_raw_pointers.False).1⟩

/-! ## Optional -/

/-- C14. Optional.  For a `std::optional` at least as large as a pointer: when
it is empty the engine returns 0 and leaves the state as it was, so
`weight_in_bytes` is 0 and no type is reported; when it holds `x` the engine
returns exactly what the traversal of `x` returns, fault or weight, one level
deeper; and when `x` is a buffer of bytes (a continuous-memory container of
scalars with elements of one byte, allocated outside itself) whose capacity is
at least 3000, `weight_in_bytes` is that capacity, hence at least 3000. -/
theorem C14_optional (cfg : Config) (types : List Nat) (heap : Heap) (fuel : Nat)
    (o : Obj) (contained : Option Obj) (ho : is_optional cfg o contained) :
    (contained = none →
      (∀ s, s.current_depth < cfg.SIZE_MOD →
        get_heap_allocated_bytes cfg types heap (fuel + 1) o s = .ok (0, s)) ∧
      (∀ follow, weight_in_bytes cfg types heap (fuel + 1) o follow = .ok 0 ∧
        unknown_typeindexes cfg types heap (fuel + 1) o follow = .ok [])) ∧
    (∀ x, contained = some x → ∀ s,
      get_heap_allocated_bytes cfg types heap (fuel + 1) o s =
        scope_exit_t cfg (get_heap_allocated_bytes cfg types heap fuel x
          { s with current_depth := size_inc cfg s.current_depth })) ∧
    (∀ x, contained = some x → ∀ s w s2,
      get_heap_allocated_bytes cfg types heap fuel x
        { s with current_depth := size_inc cfg s.current_depth } = .ok (w, s2) →
      get_heap_allocated_bytes cfg types heap (fuel + 1) o s =
        .ok (w, { s2 with current_depth := size_dec cfg s2.current_depth })) ∧
    (∀ x range data capacity, contained = some x →
      is_continuous_memory cfg x range data capacity → (∀ e ∈ range, is_scalar e) →
      x.info.sizeof_value_type = 1 → data ≠ 0 → is_inside_self_f x data = false →
      capacity < cfg.SIZE_MOD → 3000 ≤ capacity →
      ∀ follow, ∃ bytes,
        weight_in_bytes cfg types heap (fuel + 3) o follow = .ok bytes ∧ 3000 ≤ bytes) := by
  have ha := ho.1.1
  have he := ho.1.2.1
  have step : ∀ x, contained = some x → ∀ (f : Nat) s,
      get_heap_allocated_bytes cfg types heap (f + 1) o s =
        scope_exit_t cfg (get_heap_allocated_bytes cfg types heap f x
          { s with current_depth := size_inc cfg s.current_depth }) := by
    intro x hx f s
    subst hx
    rw [ghab_not_scalar cfg types heap f o s ha he, chain_optional _ _ _ _ _ _ _ ho]
  refine ⟨?_, fun x hx s => step x hx fuel s, ?_, ?_⟩
  · intro hc
    subst hc
    exact entry_points_of_chain_ok cfg types heap fuel o 0 ha he
      (fun s => chain_optional _ _ _ _ _ _ s ho)
  · intro x hx s w s2 hw
    rw [step x hx fuel s, hw]
    rfl
  · intro x range data capacity hx hcm hs h1 hd hi hcap h3000 follow
    refine ⟨capacity, ?_, h3000⟩
    have hb : buffer_bytes cfg x data capacity = capacity := by
      simp [buffer_bytes, hd, hi, size_mul, h1, Nat.mod_eq_of_lt hcap]
    simp only [weight_in_bytes]
    rw [step x hx (fuel + 2) _,
      ghab_continuous_memory_of_scalars cfg types heap fuel x range data capacity hcm hs _
        (size_inc_lt cfg _), hb]
    rfl

theorem optional_at_is_optional (addr : Nat) (contained : Option Obj) :
    is_optional lp64 (optional_at addr contained) contained :=
  ⟨⟨rfl, rfl, rfl, rfl, rfl, rfl, by show 8 ≤ 32; decide⟩, rfl⟩

/-- C14, witnessed on the `std::optional` test: the empty optional weighs 0, and
the optional whose byte vector was resized to 3000 weighs at least 3000. -/
theorem C14_optional_witness :
    weight_in_bytes lp64 [] [] 1 (optional_at 64 none) = .ok 0 ∧
    ∃ bytes, weight_in_bytes lp64 [] [] 3 (optional_at 64 (some (bytevec 64 8192 3000 3000))) =
      .ok bytes ∧ 3000 ≤ bytes :=
  ⟨(((C14_optional lp64 [] [] 0 (optional_at 64 none) none
      (optional_at_is_optional 64 none)).1 rfl).2 efollow_raw_pointers.False).1,
   (C14_optional lp64 [] [] 0 (optional_at 64 (some (bytevec 64 8192 3000 3000))) _
      (optional_at_is_optional 64 _)).2.2.2 (bytevec 64 8192 3000 3000) _ 8192 3000 rfl
      (bytevec_is_continuous_memory 64 8192 3000 3000) (chars_are_scalars 8192 3000) rfl
      (by decide) rfl (by decide) (by decide) efollow_raw_pointers.False⟩

/-! ## Small objects, the fallback, and aggregates without a field enumerator -/

theorem store_unknown_type_eq (v : Obj) (s : data_t) :
    store_unknown_type v s = .ok (0, emplace_unknown v.info.type_index s) := by
  unfold store_unknown_type emplace_unknown
  cases hu : s.unknown_types <;> simp [pure, Except.pure]

/-- A value no branch handles weighs 0 and is put into the collector, if one is
attached. -/
theorem ghab_no_strategy (cfg : Config) (types : List Nat) (heap : Heap) (fuel : Nat)
    (v : Obj) (hv : matches_no_strategy cfg v) (s : data_t) :
    get_heap_allocated_bytes cfg types heap (fuel + 1) v s =
      .ok (0, { emplace_unknown v.info.type_index s with
                current_depth := size_dec cfg (size_inc cfg s.current_depth) }) := by
  rw [ghab_not_scalar cfg types heap fuel v s hv.1.1.1.1 hv.1.1.1.2.1,
    chain_no_strategy _ _ _ _ _ _ hv, store_unknown_type_eq]
  cases hu : s.unknown_types <;> simp [emplace_unknown, hu, scope_exit_t_ok]

/-- C18. Small-object heuristic and its priority.  For a value that is neither
scalar nor a view: when its type has neither hook and is smaller than a pointer,
the engine returns 0 whatever else the value offers, without calling itself and
without touching the state, so `weight_in_bytes` is 0 and `unknown_typeindexes`
is empty; when the type has a `weight_in_bytes()` hook the weight is what the
hook reports, and when it has only an `as_tuple()` hook the engine returns what
the traversal of the returned object returns, in both cases whatever the size of
the type. -/
theorem C18_small_object_heuristic (cfg : Config) (types : List Nat) (heap : Heap)
    (fuel : Nat) (v : Obj) (h1 : ¬ is_scalar v) (h2 : ¬ is_view v) :
    (v.info.weight_in_bytes = none → v.as_tuple = none →
      v.info.sizeof < cfg.sizeof_pointer →
      (∀ recurse s, get_heap_allocated_bytes_chain cfg types heap recurse v s = .ok (0, s)) ∧
      (∀ s, s.current_depth < cfg.SIZE_MOD →
        get_heap_allocated_bytes cfg types heap (fuel + 1) v s = .ok (0, s)) ∧
      (∀ follow, weight_in_bytes cfg types heap (fuel + 1) v follow = .ok 0 ∧
        unknown_typeindexes cfg types heap (fuel + 1) v follow = .ok [])) ∧
    (∀ w, v.info.weight_in_bytes = some w →
      ∀ follow, weight_in_bytes cfg types heap (fuel + 1) v follow = .ok w ∧
        unknown_typeindexes cfg types heap (fuel + 1) v follow = .ok []) ∧
    (∀ t, v.info.weight_in_bytes = none → v.as_tuple = some t → ∀ s,
      get_heap_allocated_bytes cfg types heap (fuel + 1) v s =
        scope_exit_t cfg (get_heap_allocated_bytes cfg types heap fuel t
          { s with current_depth := size_inc cfg s.current_depth })) := by
  obtain ⟨ha, he⟩ := not_scalar_false v h1
  obtain ⟨hsv, hwp⟩ := not_view_false v h2
  refine ⟨?_, ?_, ?_⟩
  · intro hw ht hsz
    have hsmall : is_small_object cfg v := ⟨ha, he, hsv, hwp, hw, ht, hsz⟩
    have hc := fun recurse s => chain_small_object cfg types heap recurse v s hsmall
    have hep := entry_points_of_chain_ok cfg types heap fuel v 0 ha he (fun s => hc _ s)
    exact ⟨hc, hep.1, hep.2⟩
  · intro w hw
    have hc : ∀ s, get_heap_allocated_bytes_chain cfg types heap
        (get_heap_allocated_bytes cfg types heap fuel) v s = .ok (w, s) := by
      intro s
      simp [get_heap_allocated_bytes_chain, hsv, hwp, hw, pure, Except.pure]
    exact (entry_points_of_chain_ok cfg types heap fuel v w ha he hc).2
  · intro t hw ht s
    rw [ghab_not_scalar cfg types heap fuel v s ha he,
      chain_as_tuple cfg types heap _ v t _ hsv hwp hw ht]

/-- C18, witnessed on the "small objects" test and on a hooked type of one byte:
the struct of one `char` weighs 0 and is not reported although it is an
aggregate no field enumerator handles, and the hooked byte weighs the 42 its
hook reports. -/
theorem C18_small_object_heuristic_witness :
    (weight_in_bytes lp64 [] [] 1 small_struct = .ok 0 ∧
      unknown_typeindexes lp64 [] [] 1 small_struct = .ok []) ∧
    weight_in_bytes lp64 [] [] 1 (small_hooked_at 64) = .ok 42 :=
  ⟨((C18_small_object_heuristic lp64 [] [] 0 small_struct (by decide) (by decide)).1 rfl rfl
      (by decide)).2.2 efollow_raw_pointers.False,
   ((C18_small_object_heuristic lp64 [] [] 0 (small_hooked_at 64) (by decide)
      (by decide)).2.1 42 rfl efollow_raw_pointers.False).1⟩

/-- C19. Fallback.  For a value no branch of the chain handles (at least as
large as a pointer, no hook, not optional, pointer, variant, pair, tuple,
iterable or `std::any`, not handled through cereal or a field enumerator): the
engine returns 0 with a budget of one call, marks no address, leaves an absent
collector absent and puts the type of the value into an attached collector; so
`weight_in_bytes` is 0 and `unknown_typeindexes` is exactly the one type. -/
theorem C19_fallback (cfg : Config) (types : List Nat) (heap : Heap) (fuel : Nat)
    (v : Obj) (hv : matches_no_strategy cfg v) :
    (∀ s, ∃ s', get_heap_allocated_bytes cfg types heap (fuel + 1) v s = .ok (0, s') ∧
      s'.handled_addresses = s.handled_addresses ∧
      s'.unknown_types =
        (match s.unknown_types with
         | none => none
         | some seen =>
           some (if v.info.type_index ∈ seen then seen else v.info.type_index :: seen))) ∧
    (∀ follow, weight_in_bytes cfg types heap (fuel + 1) v follow = .ok 0 ∧
      unknown_typeindexes cfg types heap (fuel + 1) v follow = .ok [v.info.type_index]) := by
  have key := ghab_no_strategy cfg types heap fuel v hv
  refine ⟨?_, ?_⟩
  · intro s
    refine ⟨_, key s, ?_, ?_⟩
    · simp only [emplace_unknown]
      split <;> rfl
    · simp only [emplace_unknown]
      split
      · next hu => simp [hu]
      · next seen hu => simp [hu]
  · intro follow
    constructor
    · simp only [weight_in_bytes, key]; rfl
    · simp only [unknown_typeindexes, key]; rfl

theorem time_point_at_matches_no_strategy (addr : Nat) :
    matches_no_strategy lp64 (time_point_at addr) :=
  ⟨⟨⟨⟨rfl, rfl, rfl, rfl, rfl, rfl, by show 8 ≤ 8; decide⟩, rfl, rfl, rfl, rfl, rfl, rfl⟩,
    rfl, rfl, Or.inr ⟨rfl, rfl⟩⟩, Or.inl rfl⟩

/-- C19, witnessed on the "unknown_types" test: a
`std::chrono::steady_clock::time_point` weighs 0 and its type is the one type
reported. -/
theorem C19_fallback_witness :
    weight_in_bytes lp64 [] [] 1 (time_point_at 64) = .ok 0 ∧
    unknown_typeindexes lp64 [] [] 1 (time_point_at 64) = .ok [17] :=
  (C19_fallback lp64 [] [] 0 (time_point_at 64)
    (time_point_at_matches_no_strategy 64)).2 efollow_raw_pointers.False

/-- C20, as stated, fails in its last part: without a field enumerator an
aggregate without fields that is as large as a pointer (8 bytes, as
`struct alignas(8) empty_t {}`) is reported as unknown, like every other
aggregate of that size. -/
theorem C20_aggregate_without_enumerator_counterexample :
    lp64.WIB_PFR_ENABLED = false ∧ lp64.WIB_CISTA_ENABLED = false ∧
    (empty_aggregate 8).aggregate = some [] ∧
    (empty_aggregate 8).info.weight_in_bytes = none ∧
    (empty_aggregate 8).as_tuple = none ∧
    weight_in_bytes lp64 [] [] 1 (empty_aggregate 8) = .ok 0 ∧
    unknown_typeindexes lp64 [] [] 1 (empty_aggregate 8) = .ok [41] := by
  refine ⟨rfl, rfl, rfl, rfl, rfl, ?_, ?_⟩ <;> decide

/-- C20, amended.  When neither field enumerator is compiled in: an aggregate
that reaches the aggregate test (no hook, at least as large as a pointer, no
earlier branch applies) weighs 0 whatever its fields own, the engine does not
call itself on any field, and `unknown_typeindexes` is exactly the type of the
aggregate, also when the aggregate has no field; an aggregate without fields
that is smaller than a pointer (and has no hook) weighs 0 and is not reported. -/
theorem C20_aggregate_without_enumerator (cfg : Config) (types : List Nat) (heap : Heap)
    (fuel : Nat) (v : Obj) (fields : List Obj)
    (hpfr : cfg.WIB_PFR_ENABLED = false) (hcista : cfg.WIB_CISTA_ENABLED = false) :
    (is_plain_aggregate cfg v fields →
      (∀ recurse s, get_heap_allocated_bytes_chain cfg types heap recurse v s =
        store_unknown_type v s) ∧
      (∀ follow, weight_in_bytes cfg types heap (fuel + 1) v follow = .ok 0 ∧
        unknown_typeindexes cfg types heap (fuel + 1) v follow =
          .ok [v.info.type_index])) ∧
    (is_small_object cfg v → v.aggregate = some [] →
      ∀ follow, weight_in_bytes cfg types heap (fuel + 1) v follow = .ok 0 ∧
        unknown_typeindexes cfg types heap (fuel + 1) v follow = .ok []) := by
  refine ⟨?_, ?_⟩
  · intro hr
    have hv : matches_no_strategy cfg v := ⟨hr.1, Or.inr ⟨hpfr, hcista⟩⟩
    have key := ghab_no_strategy cfg types heap fuel v hv
    refine ⟨fun recurse s => chain_no_strategy cfg types heap recurse v s hv, ?_⟩
    intro follow
    constructor
    · simp only [weight_in_bytes, key]; rfl
    · simp only [unknown_typeindexes, key]; rfl
  · intro hsmall _
    exact (entry_points_of_chain_ok cfg types heap fuel v 0 hsmall.1 hsmall.2.1
      (fun s => chain_small_object cfg types heap _ v s hsmall)).2

theorem aggregate_test_value_is_plain_aggregate :
    is_plain_aggregate lp64 aggregate_test_value (aggregate_test_value.aggregate.getD []) :=
  ⟨⟨⟨⟨rfl, rfl, rfl, rfl, rfl, rfl, by show 8 ≤ 72; decide⟩, rfl, rfl, rfl, rfl, rfl, rfl⟩,
    rfl, rfl, Or.inr ⟨rfl, rfl⟩⟩, rfl⟩

/-- C20 amended, witnessed on the field-enumerator test built without an
enumerator: the struct whose inner byte vector owns 2000 bytes weighs 0 and its
type is the one type reported, and `empty_struct_t` (one byte) weighs 0 and is
not reported. -/
theorem C20_aggregate_without_enumerator_witness :
    (weight_in_bytes lp64 [] [] 1 aggregate_test_value = .ok 0 ∧
      unknown_typeindexes lp64 [] [] 1 aggregate_test_value = .ok [37]) ∧
    (weight_in_bytes lp64 [] [] 1 (empty_aggregate 1) = .ok 0 ∧
      unknown_typeindexes lp64 [] [] 1 (empty_aggregate 1) = .ok []) :=
  ⟨((C20_aggregate_without_enumerator lp64 [] [] 0 aggregate_test_value _ rfl rfl).1
      aggregate_test_value_is_plain_aggregate).2 efollow_raw_pointers.False,
   (C20_aggregate_without_enumerator lp64 [] [] 0 (empty_aggregate 1) [] rfl rfl).2
      ⟨rfl, rfl, rfl, rfl, rfl, rfl, by show 1 < 8; decide⟩ rfl efollow_raw_pointers.False⟩

/-! ## Variant -/

/-- C15, as stated, fails for a variant smaller than a pointer: a
`std::variant<H>` of two bytes whose active alternative is a hooked type `H` of
one byte weighs 0, although the active alternative weighs the 42 its hook
reports. -/
theorem C15_variant_counterexample :
    small_variant_of_hooked.variant = some (some (small_hooked_at 64)) ∧
    weight_in_bytes lp64 [] [] 2 (small_hooked_at 64) = .ok 42 ∧
    weight_in_bytes lp64 [] [] 2 small_variant_of_hooked = .ok 0 := by
  refine ⟨rfl, ?_, ?_⟩ <;> decide

/-- C15, amended.  For a `std::variant` at least as large as a pointer: when it
is valueless the engine returns 0 and leaves the state as it was; when `x` is
the active alternative the engine returns exactly what the traversal of `x`
returns, fault or weight, one level deeper; and when the active alternative is a
scalar the variant weighs 0. -/
theorem C15_variant (cfg : Config) (types : List Nat) (heap : Heap) (fuel : Nat)
    (v : Obj) (active : Option Obj) (hv : is_variant cfg v active) :
    (active = none →
      (∀ s, s.current_depth < cfg.SIZE_MOD →
        get_heap_allocated_bytes cfg types heap (fuel + 1) v s = .ok (0, s)) ∧
      (∀ follow, weight_in_bytes cfg types heap (fuel + 1) v follow = .ok 0 ∧
        unknown_typeindexes cfg types heap (fuel + 1) v follow = .ok [])) ∧
    (∀ x, active = some x → ∀ s,
      get_heap_allocated_bytes cfg types heap (fuel + 1) v s =
        scope_exit_t cfg (get_heap_allocated_bytes cfg types heap fuel x
          { s with current_depth := size_inc cfg s.current_depth })) ∧
    (∀ x, active = some x → ∀ s w s2,
      get_heap_allocated_bytes cfg types heap fuel x
        { s with current_depth := size_inc cfg s.current_depth } = .ok (w, s2) →
      get_heap_allocated_bytes cfg types heap (fuel + 1) v s =
        .ok (w, { s2 with current_depth := size_dec cfg s2.current_depth })) ∧
    (∀ x, active = some x → is_scalar x →
      ∀ follow, weight_in_bytes cfg types heap (fuel + 2) v follow = .ok 0 ∧
        unknown_typeindexes cfg types heap (fuel + 2) v follow = .ok []) := by
  have ha := hv.1.1
  have he := hv.1.2.1
  have step : ∀ x, active = some x → ∀ (f : Nat) s,
      get_heap_allocated_bytes cfg types heap (f + 1) v s =
        scope_exit_t cfg (get_heap_allocated_bytes cfg types heap f x
          { s with current_depth := size_inc cfg s.current_depth }) := by
    intro x hx f s
    subst hx
    rw [ghab_not_scalar cfg types heap f v s ha he, chain_variant _ _ _ _ _ _ _ hv]
  refine ⟨?_, fun x hx s => step x hx fuel s, ?_, ?_⟩
  · intro hc
    subst hc
    exact entry_points_of_chain_ok cfg types heap fuel v 0 ha he
      (fun s => chain_variant _ _ _ _ _ _ s hv)
  · intro x hx s w s2 hw
    rw [step x hx fuel s, hw]
    rfl
  · intro x hx hs follow
    have key : ∀ s, get_heap_allocated_bytes cfg types heap (fuel + 2) v s =
        .ok (0, { s with current_depth := size_dec cfg (size_inc cfg s.current_depth) }) := by
      intro s
      rw [step x hx (fuel + 1) s, ghab_scalar cfg types heap fuel x _ hs]
      rfl
    constructor
    · simp only [weight_in_bytes, key]; rfl
    · simp only [unknown_typeindexes, key]; rfl

theorem variant_at_is_variant (addr : Nat) (active : Option Obj) :
    is_variant lp64 (variant_at addr active) active :=
  ⟨⟨rfl, rfl, rfl, rfl, rfl, rfl, by show 8 ≤ 40; decide⟩, rfl, rfl, rfl, rfl⟩

/-- C15 amended, witnessed on the `std::variant` test: the variant that holds an
`int` weighs 0, and the one that holds a string of 1024 characters weighs the
1024 bytes of the buffer of the string. -/
theorem C15_variant_witness :
    weight_in_bytes lp64 [] [] 2 (variant_at 64 (some (int_at 64))) = .ok 0 ∧
    weight_in_bytes lp64 [] [] 3 (variant_at 64 (some (string_at 64 8192 1024 1024))) =
      .ok 1024 ∧
    weight_in_bytes lp64 [] [] 1 (variant_at 64 none) = .ok 0 := by
  refine ⟨((C15_variant lp64 [] [] 0 (variant_at 64 (some (int_at 64))) _
      (variant_at_is_variant 64 _)).2.2.2 (int_at 64) rfl (Or.inl rfl)
      efollow_raw_pointers.False).1, ?_,
    (((C15_variant lp64 [] [] 0 (variant_at 64 none) _
      (variant_at_is_variant 64 _)).1 rfl).2 efollow_raw_pointers.False).1⟩
  have h := (C15_variant lp64 [] [] 2 (variant_at 64 (some (string_at 64 8192 1024 1024))) _
    (variant_at_is_variant 64 _)).2.2.1 (string_at 64 8192 1024 1024) rfl
    (initial_data efollow_raw_pointers.False none) 1024 _
    (ghab_continuous_memory_of_scalars lp64 [] [] 0 (string_at 64 8192 1024 1024) _ 8192
      1024 (string_at_is_continuous_memory 64 8192 1024 1024) (chars_are_scalars 8192 1024)
      _ (size_inc_lt lp64 _))
  simp only [weight_in_bytes, h]
  rfl

/-! ## Pair and tuple -/

/-- The sum of the `std::pair` branch is the loop of the `std::tuple` branch
over `first` and `second`. -/
theorem pair_as_tuple_for_each (cfg : Config) (recurse : Obj → data_t → Result)
    (first second : Obj) (s : data_t) :
    (recurse first s >>= fun r1 => recurse second r1.2 >>= fun r2 =>
      pure (size_add cfg r1.1 r2.1, r2.2)) =
    tuple_for_each (add_bytes cfg recurse) [first, second] (0, s) := by
  simp only [tuple_for_each, add_bytes, bind, Except.bind]
  cases h1 : recurse first s with
  | error e => rfl
  | ok r1 =>
    obtain ⟨b1, s1⟩ := r1
    simp only [pure, Except.pure]
    cases h2 : recurse second s1 with
    | error e => rfl
    | ok r2 =>
      obtain ⟨b2, s2⟩ := r2
      simp [size_add]

/-- C16. Pair and tuple.  For a `std::pair` (elements `first`, `second`) or a
`std::tuple` of any arity that is at least as large as a pointer: the engine
runs over the elements in index order, each from the state the previous one
left, and returns the sum (as `size_t`) of their recursive weights; with no
element the weight is 0.  A tuple without elements that is smaller than a
pointer, as `std::tuple<>` is, weighs 0 as well. -/
theorem C16_pair_and_tuple (cfg : Config) (types : List Nat) (heap : Heap) (fuel : Nat)
    (v : Obj) (elements : List Obj)
    (hv : is_tuple cfg v elements ∨
      ∃ first second, is_pair cfg v first second ∧ elements = [first, second]) :
    (∀ s, get_heap_allocated_bytes cfg types heap (fuel + 1) v s =
      scope_exit_t cfg (tuple_for_each
        (add_bytes cfg (get_heap_allocated_bytes cfg types heap fuel)) elements
        (0, { s with current_depth := size_inc cfg s.current_depth }))) ∧
    (∀ s weights s2,
      range_weights (get_heap_allocated_bytes cfg types heap fuel) elements
        { s with current_depth := size_inc cfg s.current_depth } weights s2 →
      get_heap_allocated_bytes cfg types heap (fuel + 1) v s =
        .ok (weights.sum % cfg.SIZE_MOD,
             { s2 with current_depth := size_dec cfg s2.current_depth })) ∧
    (elements = [] →
      ∀ follow, weight_in_bytes cfg types heap (fuel + 1) v follow = .ok 0 ∧
        unknown_typeindexes cfg types heap (fuel + 1) v follow = .ok []) ∧
    (∀ t, is_small_object cfg t → t.tuple = some [] →
      ∀ follow, weight_in_bytes cfg types heap (fuel + 1) t follow = .ok 0 ∧
        unknown_typeindexes cfg types heap (fuel + 1) t follow = .ok []) := by
  have step : ∀ s, get_heap_allocated_bytes cfg types heap (fuel + 1) v s =
      scope_exit_t cfg (tuple_for_each
        (add_bytes cfg (get_heap_allocated_bytes cfg types heap fuel)) elements
        (0, { s with current_depth := size_inc cfg s.current_depth })) := by
    intro s
    rcases hv with hv | ⟨first, second, hv, rfl⟩
    · rw [ghab_not_scalar cfg types heap fuel v s hv.1.1 hv.1.2.1,
        chain_tuple _ _ _ _ _ _ _ hv]
    · rw [ghab_not_scalar cfg types heap fuel v s hv.1.1 hv.1.2.1,
        chain_pair _ _ _ _ _ _ _ _ hv, pair_as_tuple_for_each]
  refine ⟨step, ?_, ?_, ?_⟩
  · intro s weights s2 hw
    have := accumulate_range_f_range_weights cfg _ elements _ weights s2 hw
    rw [step s]
    unfold accumulate_range_f at this
    rw [this]
    rfl
  · intro hnil
    subst hnil
    have key : ∀ s, get_heap_allocated_bytes cfg types heap (fuel + 1) v s =
        .ok (0, { s with current_depth := size_dec cfg (size_inc cfg s.current_depth) }) := by
      intro s
      rw [step s]
      rfl
    intro follow
    constructor
    · simp only [weight_in_bytes, key]; rfl
    · simp only [unknown_typeindexes, key]; rfl
  · intro t ht _
    exact (entry_points_of_chain_ok cfg types heap fuel t 0 ht.1 ht.2.1
      (fun s => chain_small_object cfg types heap _ t s ht)).2

theorem tuple_at_is_tuple (type_index addr sizeof : Nat) (elements : List Obj)
    (h : 8 ≤ sizeof) :
    is_tuple lp64 (tuple_at type_index addr sizeof elements) elements :=
  ⟨⟨rfl, rfl, rfl, rfl, rfl, rfl, h⟩, rfl, rfl, rfl, rfl, rfl, rfl⟩

theorem ints_are_scalars (data size : Nat) :
    ∀ e ∈ (List.range size).map (fun i => int_at (data + 4 * i)), is_scalar e := by
  intro e he
  simp only [List.mem_map, List.mem_range] at he
  obtain ⟨i, _, rfl⟩ := he
  exact Or.inl rfl

theorem doubles_are_scalars (data size : Nat) :
    ∀ e ∈ (List.range size).map (fun i => double_at (data + 8 * i)), is_scalar e := by
  intro e he
  simp only [List.mem_map, List.mem_range] at he
  obtain ⟨i, _, rfl⟩ := he
  exact Or.inl rfl

/-- The three elements of the tuple of the `std::tuple` test weigh 0, 4096 and
8192 and leave the state as it is. -/
theorem tuple_test_value_weights (types : List Nat) (fuel : Nat) (s : data_t)
    (hd : s.current_depth < lp64.SIZE_MOD) :
    range_weights (get_heap_allocated_bytes lp64 types [] (fuel + 2))
      (tuple_test_value.tuple.getD []) s [0, 1024 * 4, 1024 * 8] s :=
  ⟨s, ghab_scalar lp64 types [] (fuel + 1) (int_at 64) s (Or.inl rfl),
   s, ghab_continuous_memory_of_scalars lp64 types [] fuel _ _ 8192 1024
      (vector_of_is_continuous_memory 29 72 8192 1024 4 _) (ints_are_scalars 8192 1024) s hd,
   s, ghab_continuous_memory_of_scalars lp64 types [] fuel _ _ 16384 1024
      (vector_of_is_continuous_memory 30 96 16384 1024 8 _) (doubles_are_scalars 16384 1024)
      s hd,
   rfl⟩

/-- C16, witnessed on the `std::tuple` test: the tuple of an `int`, a
`std::vector<int>` and a `std::vector<double>`, both vectors resized to 1024,
weighs `1024 * sizeof(int) + 1024 * sizeof(double)`. -/
theorem C16_pair_and_tuple_witness :
    weight_in_bytes lp64 [] [] 3 tuple_test_value = .ok (1024 * 4 + 1024 * 8) := by
  have h := (C16_pair_and_tuple lp64 [] [] 2 tuple_test_value _
    (Or.inl (tuple_at_is_tuple 28 64 56 _ (by decide)))).2.1
    (initial_data efollow_raw_pointers.False none) [0, 1024 * 4, 1024 * 8] _
    (tuple_test_value_weights [] 0 _ (size_inc_lt lp64 _))
  simp only [weight_in_bytes, h]
  rfl

/-! ## The decomposition hook -/

/-- C17, as stated, fails when `as_tuple()` returns a tuple smaller than a
pointer: for a class whose hook returns `std::make_tuple(h)`, a tuple of one
byte that holds a copy of the hooked member `h`, the engine returns 0, although
the one exposed member weighs the 42 its hook reports. -/
theorem C17_decomposition_hook_counterexample :
    as_tuple_by_value.info.weight_in_bytes = none ∧
    as_tuple_by_value.as_tuple = some (tuple_at 35 16 1 [small_hooked_at 16]) ∧
    weight_in_bytes lp64 [] [] 3 (small_hooked_at 16) = .ok 42 ∧
    weight_in_bytes lp64 [] [] 3 as_tuple_by_value = .ok 0 := by
  refine ⟨rfl, rfl, ?_, ?_⟩ <;> decide

/-- C17, amended.  For a value that is neither scalar nor a view, has no
`weight_in_bytes()` hook and whose `as_tuple()` returns `t`: the engine returns
exactly what the traversal of `t` returns, fault or weight, one level deeper,
and adds nothing to the unknown types or the visited addresses itself; when `t`
is a `std::tuple` at least as large as a pointer with the elements `members`,
that is the sum (as `size_t`) of the recursive weights of the members, traversed
in index order. -/
theorem C17_decomposition_hook (cfg : Config) (types : List Nat) (heap : Heap)
    (fuel : Nat) (v t : Obj) (h1 : ¬ is_scalar v) (h2 : ¬ is_view v)
    (h3 : v.info.weight_in_bytes = none) (h4 : v.as_tuple = some t) :
    (∀ s, get_heap_allocated_bytes cfg types heap (fuel + 1) v s =
      scope_exit_t cfg (get_heap_allocated_bytes cfg types heap fuel t
        { s with current_depth := size_inc cfg s.current_depth })) ∧
    (∀ s w s2,
      get_heap_allocated_bytes cfg types heap fuel t
        { s with current_depth := size_inc cfg s.current_depth } = .ok (w, s2) →
      get_heap_allocated_bytes cfg types heap (fuel + 1) v s =
        .ok (w, { s2 with current_depth := size_dec cfg s2.current_depth })) ∧
    (∀ s w s', get_heap_allocated_bytes cfg types heap (fuel + 1) v s = .ok (w, s') →
      ∃ s2, get_heap_allocated_bytes cfg types heap fuel t
          { s with current_depth := size_inc cfg s.current_depth } = .ok (w, s2) ∧
        s'.unknown_types = s2.unknown_types ∧
        s'.handled_addresses = s2.handled_addresses) ∧
    (∀ members, is_tuple cfg t members → ∀ s weights s2,
      range_weights (get_heap_allocated_bytes cfg types heap fuel) members
        { s with current_depth := size_inc cfg (size_inc cfg s.current_depth) } weights s2 →
      get_heap_allocated_bytes cfg types heap (fuel + 2) v s =
        .ok (weights.sum % cfg.SIZE_MOD,
             { s2 with current_depth := size_dec cfg (size_dec cfg s2.current_depth) })) := by
  obtain ⟨ha, he⟩ := not_scalar_false v h1
  obtain ⟨hsv, hwp⟩ := not_view_false v h2
  have step : ∀ (f : Nat) s, get_heap_allocated_bytes cfg types heap (f + 1) v s =
      scope_exit_t cfg (get_heap_allocated_bytes cfg types heap f t
        { s with current_depth := size_inc cfg s.current_depth }) := by
    intro f s
    rw [ghab_not_scalar cfg types heap f v s ha he,
      chain_as_tuple cfg types heap _ v t _ hsv hwp h3 h4]
  refine ⟨step fuel, ?_, ?_, ?_⟩
  · intro s w s2 hw
    rw [step fuel s, hw]
    rfl
  · intro s w s' hw
    rw [step fuel s] at hw
    cases ht : get_heap_allocated_bytes cfg types heap fuel t
        { s with current_depth := size_inc cfg s.current_depth } with
    | error e => rw [ht] at hw; cases hw
    | ok r =>
      obtain ⟨w2, s2⟩ := r
      rw [ht, scope_exit_t_ok] at hw
      cases hw
      exact ⟨s2, rfl, rfl, rfl⟩
  · intro members ht s weights s2 hw
    have := accumulate_range_f_range_weights cfg _ members _ weights s2 hw
    unfold accumulate_range_f at this
    rw [step (fuel + 1) s, ghab_not_scalar cfg types heap fuel t _ ht.1.1 ht.1.2.1,
      chain_tuple _ _ _ _ _ _ _ ht, this]
    rfl

/-- The four members the hook of `as_tuple_test_value` exposes weigh 0, 1024, 0
and 1024 and leave the state as it is. -/
theorem as_tuple_test_value_weights (types : List Nat) (fuel : Nat) (s : data_t)
    (hd : s.current_depth < lp64.SIZE_MOD) :
    range_weights (get_heap_allocated_bytes lp64 types [] (fuel + 2))
      [int_at 64, bytevec 72 8192 1024 1024, double_at 96, bytevec 104 12288 1024 1024]
      s [0, 1024, 0, 1024] s :=
  ⟨s, ghab_scalar lp64 types [] (fuel + 1) (int_at 64) s (Or.inl rfl),
   s, ghab_continuous_memory_of_scalars lp64 types [] fuel _ _ 8192 1024
      (bytevec_is_continuous_memory 72 8192 1024 1024) (chars_are_scalars 8192 1024) s hd,
   s, ghab_scalar lp64 types [] (fuel + 1) (double_at 96) s (Or.inl rfl),
   s, ghab_continuous_memory_of_scalars lp64 types [] fuel _ _ 12288 1024
      (bytevec_is_continuous_memory 104 12288 1024 1024) (chars_are_scalars 12288 1024) s hd,
   rfl⟩

/-- C17 amended, witnessed on the class with `as_tuple()` of "custom access":
with both byte vectors resized to 1024 the class weighs `1024 * 2`, and no type
is reported. -/
theorem C17_decomposition_hook_witness :
    weight_in_bytes lp64 [] [] 4 as_tuple_test_value = .ok (1024 * 2) ∧
    unknown_typeindexes lp64 [] [] 4 as_tuple_test_value = .ok [] := by
  have h := fun s => (C17_decomposition_hook lp64 [] [] 2 as_tuple_test_value _
    (by decide) (by decide) rfl rfl).2.2.2 _ (tuple_at_is_tuple 33 16 32 _ (by decide)) s
    [0, 1024, 0, 1024] _ (as_tuple_test_value_weights [] 0 _ (size_inc_lt lp64 _))
  constructor
  · simp only [weight_in_bytes, h]
    rfl
  · simp only [unknown_typeindexes, h]
    rfl

/-! ## Generic iterables -/

/-- The first loop of the generic container branch computes the charge of the
specification. -/
theorem container_allocation_bytes_eq (cfg : Config) (v : Obj) :
    ∀ (l : List Obj) (acc : Nat),
      container_allocation_bytes cfg v l (acc % cfg.SIZE_MOD) =
        (acc + element_footprints v l) % cfg.SIZE_MOD := by
  intro l
  induction l with
  | nil => intro acc; simp [container_allocation_bytes, element_footprints]
  | cons e es ih =>
    intro acc
    have hfp : element_footprints v (e :: es) =
        (if is_inside_self_f v e.info.address = true then 0 else e.info.sizeof) +
          element_footprints v es := by
      simp [element_footprints]
    rw [hfp]
    by_cases hi : is_inside_self_f v e.info.address = true
    · simp only [container_allocation_bytes, hi, Bool.not_true, if_true, Nat.zero_add]
      exact ih acc
    · have hi' : is_inside_self_f v e.info.address = false := by
        cases hb : is_inside_self_f v e.info.address
        · rfl
        · exact absurd hb hi
      simp only [container_allocation_bytes, hi', Bool.not_false, if_true, size_add,
        Nat.mod_add_mod]
      rw [ih (acc + e.info.sizeof)]
      simp [Nat.add_assoc]

theorem element_footprints_inside (v : Obj) (l : List Obj)
    (h : ∀ e ∈ l, is_inside_self_f v e.info.address = true) :
    element_footprints v l = 0 := by
  induction l with
  | nil => rfl
  | cons e es ih =>
    simp only [element_footprints, List.map_cons, List.sum_cons,
      h e (List.mem_cons_self _ _), if_true, Nat.zero_add]
    exact ih (fun x hx => h x (List.mem_cons_of_mem _ hx))

/-- Elements that each weigh `f element` and leave the state alone have the
weights `l.map f`. -/
theorem range_weights_of_unchanged (cfg : Config) (recurse : Obj → data_t → Result)
    (f : Obj → Nat) (s : data_t) (hs : s.current_depth < cfg.SIZE_MOD) :
    ∀ (l : List Obj),
      (∀ e ∈ l, ∀ io, io.current_depth < cfg.SIZE_MOD → recurse e io = .ok (f e, io)) →
      range_weights recurse l s (l.map f) s := by
  intro l
  induction l with
  | nil => intro _; rfl
  | cons e es ih =>
    intro h
    exact ⟨s, h e (List.mem_cons_self _ _) s hs,
      ih (fun x hx => h x (List.mem_cons_of_mem _ hx))⟩

theorem sum_map_const (l : List Obj) (c : Nat) :
    (l.map (fun _ => c)).sum = l.length * c := by
  induction l with
  | nil => simp
  | cons e es ih => simp [ih, Nat.succ_mul, Nat.add_comm]

/-- C12, as stated, fails for an iterable smaller than a pointer: a
`std::array<H, 2>` of two bytes, whose elements of the hooked type `H` lie
inside it and weigh the 42 their hook reports, weighs 0 and not 84. -/
theorem C12_generic_iterable_counterexample :
    small_array_of_hooked.range = some [small_hooked_at 64, small_hooked_at 65] ∧
    small_array_of_hooked.info.is_vector_bool = false ∧
    small_array_of_hooked.info.capacity = none ∧
    small_array_of_hooked.info.is_map = false ∧
    element_footprints small_array_of_hooked [small_hooked_at 64, small_hooked_at 65] = 0 ∧
    weight_in_bytes lp64 [] [] 2 (small_hooked_at 64) = .ok 42 ∧
    weight_in_bytes lp64 [] [] 2 (small_hooked_at 65) = .ok 42 ∧
    weight_in_bytes lp64 [] [] 2 small_array_of_hooked = .ok 0 := by
  refine ⟨rfl, rfl, rfl, rfl, ?_, ?_, ?_, ?_⟩ <;> decide

/-- C12, amended.  For a value handled by the last container branch (iterable,
at least as large as a pointer, without hook, not `std::vector<bool>`, not
continuous memory, not a map): the first loop computes the charge of the
specification, `sizeof(element)` for every element outside the footprint of the
value, and the engine returns that charge plus the sum of the recursive weights
of the elements, traversed in iteration order (as `size_t`); a container whose
elements are scalars stored inside it weighs 0. -/
theorem C12_generic_iterable (cfg : Config) (types : List Nat) (heap : Heap) (fuel : Nat)
    (v : Obj) (range : List Obj) (hv : is_generic_container cfg v range) :
    container_allocation_bytes cfg v range 0 = element_footprints v range % cfg.SIZE_MOD ∧
    (∀ s weights s2,
      range_weights (get_heap_allocated_bytes cfg types heap fuel) range
        { s with current_depth := size_inc cfg s.current_depth } weights s2 →
      get_heap_allocated_bytes cfg types heap (fuel + 1) v s =
        .ok ((element_footprints v range + weights.sum) % cfg.SIZE_MOD,
             { s2 with current_depth := size_dec cfg s2.current_depth })) ∧
    ((∀ e ∈ range, is_scalar e) →
      (∀ e ∈ range, is_inside_self_f v e.info.address = true) →
      ∀ follow, weight_in_bytes cfg types heap (fuel + 2) v follow = .ok 0) := by
  have hfp : container_allocation_bytes cfg v range 0 =
      element_footprints v range % cfg.SIZE_MOD := by
    have := container_allocation_bytes_eq cfg v range 0
    simpa using this
  refine ⟨hfp, ?_, ?_⟩
  · intro s weights s2 hw
    rw [ghab_not_scalar cfg types heap fuel v s hv.1.1.1 hv.1.1.2.1,
      chain_generic_container _ _ _ _ _ _ _ hv,
      accumulate_range_f_range_weights cfg _ range _ weights s2 hw, hfp]
    simp only [bind, Except.bind, pure, Except.pure, scope_exit_t, size_add, Nat.add_mod_mod,
      Nat.mod_add_mod]
  · intro hs hi follow
    have := generic_container_of_scalars_heap_free cfg types heap fuel v range hv hs hi
      (initial_data follow none) (size_mod_pos cfg)
    simp only [weight_in_bytes, this]
    rfl

theorem set_of_is_generic_container (addr : Nat) (elements : List Obj) :
    is_generic_container lp64 (set_of addr elements) elements :=
  ⟨⟨⟨rfl, rfl, rfl, rfl, rfl, rfl, by show 8 ≤ 48; decide⟩, rfl, rfl, rfl, rfl, rfl, rfl⟩,
    rfl, rfl, Or.inl rfl, rfl⟩

theorem c_array_test_value_is_generic_container :
    is_generic_container lp64 c_array_test_value (c_array_test_value.range.getD []) :=
  ⟨⟨⟨rfl, rfl, rfl, rfl, rfl, rfl, by show 8 ≤ 2400; decide⟩, rfl, rfl, rfl, rfl, rfl, rfl⟩,
    rfl, rfl, Or.inl rfl, rfl⟩

/-- A byte vector whose buffer lies after the vector itself is charged its
capacity. -/
theorem bytevec_buffer_bytes (addr data capacity size : Nat) (h : addr + 24 ≤ data)
    (hc : capacity < lp64.SIZE_MOD) :
    buffer_bytes lp64 (bytevec addr data capacity size) data capacity = capacity := by
  have h0 : data ≠ 0 := by omega
  have hi : is_inside_self_f (bytevec addr data capacity size) data = false := by
    simp only [is_inside_self_f, bytevec, Obj.leaf, Bool.and_eq_false_imp, decide_eq_true_eq,
      decide_eq_false_iff_not]
    intro _
    omega
  have h1 : (bytevec addr data capacity size).info.sizeof_value_type = 1 := rfl
  unfold buffer_bytes
  rw [if_neg (by simp [h0, hi]), size_mul, h1, Nat.one_mul, Nat.mod_eq_of_lt hc]

/-- The elements of the C array of the "c-array" test weigh 128 each. -/
theorem c_array_test_value_weights (types : List Nat) (fuel : Nat) (s : data_t)
    (hd : s.current_depth < lp64.SIZE_MOD) :
    range_weights (get_heap_allocated_bytes lp64 types [] (fuel + 2))
      (c_array_test_value.range.getD []) s
      ((c_array_test_value.range.getD []).map (fun _ => 128)) s := by
  apply range_weights_of_unchanged lp64 _ _ s hd
  intro e he io hio
  have he' : e ∈ (List.range 100).map
      (fun i => bytevec (64 + 24 * i) (8192 + 128 * i) 128 128) := he
  simp only [List.mem_map, List.mem_range] at he'
  obtain ⟨i, hi, rfl⟩ := he'
  rw [ghab_continuous_memory_of_scalars lp64 types [] fuel _ _ (8192 + 128 * i) 128
    (bytevec_is_continuous_memory _ _ 128 128) (chars_are_scalars _ 128) io hio,
    bytevec_buffer_bytes _ _ _ _ (by omega) (by decide)]

theorem c_array_test_value_inside :
    ∀ e ∈ c_array_test_value.range.getD [],
      is_inside_self_f c_array_test_value e.info.address = true := by
  intro e he
  have he' : e ∈ (List.range 100).map
      (fun i => bytevec (64 + 24 * i) (8192 + 128 * i) 128 128) := he
  simp only [List.mem_map, List.mem_range] at he'
  obtain ⟨i, hi, rfl⟩ := he'
  simp only [is_inside_self_f, c_array_test_value, bytevec, Obj.leaf, Bool.and_eq_true,
    decide_eq_true_eq]
  omega

/-- The two elements of the set of the `std::set` test weigh 256 and 128. -/
theorem set_test_value_weights (types : List Nat) (fuel : Nat) (s : data_t)
    (hd : s.current_depth < lp64.SIZE_MOD) :
    range_weights (get_heap_allocated_bytes lp64 types [] (fuel + 2))
      [bytevec 8192 12288 256 256, bytevec 8256 16384 128 128] s [256, 128] s :=
  ⟨s, ghab_continuous_memory_of_scalars lp64 types [] fuel _ _ 12288 256
      (bytevec_is_continuous_memory 8192 12288 256 256) (chars_are_scalars 12288 256) s hd,
   s, ghab_continuous_memory_of_scalars lp64 types [] fuel _ _ 16384 128
      (bytevec_is_continuous_memory 8256 16384 128 128) (chars_are_scalars 16384 128) s hd,
   rfl⟩

theorem array_of_ints_inside :
    ∀ e ∈ (List.range 1000).map (fun i => int_at (64 + 4 * i)),
      is_inside_self_f array_of_ints e.info.address = true := by
  intro e he
  simp only [List.mem_map, List.mem_range] at he
  obtain ⟨i, hi, rfl⟩ := he
  simp only [is_inside_self_f, array_of_ints, array_of, int_at, Obj.leaf, Bool.and_eq_true,
    decide_eq_true_eq, List.length_map, List.length_range]
  omega

/-- C12 amended, witnessed on the tests: a `std::array<int, 1000>` weighs 0, the
C array of 100 byte vectors resized to 128 weighs `128 * 100`, and the set that
holds byte vectors of 256 and 128 bytes weighs
`sizeof(bytevec_t) + 256 + sizeof(bytevec_t) + 128`. -/
theorem C12_generic_iterable_witness :
    weight_in_bytes lp64 [] [] 2 array_of_ints = .ok 0 ∧
    weight_in_bytes lp64 [] [] 3 c_array_test_value = .ok (128 * 100) ∧
    weight_in_bytes lp64 [] [] 3 set_test_value = .ok (24 + 256 + 24 + 128) := by
  refine ⟨(C12_generic_iterable lp64 [] [] 0 array_of_ints _
      (array_of_is_generic_container 47 64 4 _ (by simp))).2.2
      (ints_are_scalars 64 1000) array_of_ints_inside efollow_raw_pointers.False, ?_, ?_⟩
  · have h := (C12_generic_iterable lp64 [] [] 2 c_array_test_value _
      c_array_test_value_is_generic_container).2.1
      (initial_data efollow_raw_pointers.False none) _ _
      (c_array_test_value_weights [] 0 _ (size_inc_lt lp64 _))
    have hl : (c_array_test_value.range.getD []).length = 100 := by
      simp [c_array_test_value]
    simp only [weight_in_bytes, h, element_footprints_inside _ _ c_array_test_value_inside,
      sum_map_const, hl]
    rfl
  · have h := (C12_generic_iterable lp64 [] [] 2 set_test_value _
      (set_of_is_generic_container 64 _)).2.1
      (initial_data efollow_raw_pointers.False none) [256, 128] _
      (set_test_value_weights [] 0 _ (size_inc_lt lp64 _))
    simp only [weight_in_bytes, h]
    rfl

/-! ## Key/value containers -/

theorem charge_unless_inside (cfg : Config) (inside : Bool) (acc size : Nat) :
    (if (!inside) = true then size_add cfg (acc % cfg.SIZE_MOD) size
     else acc % cfg.SIZE_MOD) =
      (acc + (if inside = true then 0 else size)) % cfg.SIZE_MOD := by
  cases inside <;> simp [size_add]

/-- The first loop of the `is_map` branch computes the charge of the
specification, when every entry has `first` and `second`. -/
theorem map_allocation_bytes_eq (cfg : Config) (v : Obj) :
    ∀ (range : List Obj) (entries : List (member_info × member_info)) (acc : Nat),
      range.map Obj.first_second = entries.map some →
      map_allocation_bytes cfg v range (acc % cfg.SIZE_MOD) =
        .ok ((acc + entry_footprints v entries) % cfg.SIZE_MOD) := by
  intro range
  induction range with
  | nil =>
    intro entries acc h
    cases entries with
    | nil => simp [map_allocation_bytes, entry_footprints, pure, Except.pure]
    | cons kv kvs => simp at h
  | cons e es ih =>
    intro entries acc h
    cases entries with
    | nil => simp at h
    | cons kv kvs =>
      simp only [List.map_cons, List.cons.injEq] at h
      obtain ⟨hp, hrest⟩ := h
      obtain ⟨k, val⟩ := kv
      have hfp : entry_footprints v ((k, val) :: kvs) =
          ((if is_inside_self_f v k.address = true then 0 else k.sizeof) +
            (if is_inside_self_f v val.address = true then 0 else val.sizeof)) +
            entry_footprints v kvs := by
        simp [entry_footprints]
      simp only [map_allocation_bytes, hp, charge_unless_inside]
      rw [ih kvs _ hrest, hfp]
      simp [Nat.add_assoc]

theorem entry_footprints_outside (v : Obj) (a b : Nat) :
    ∀ (entries : List (member_info × member_info)),
      (∀ kvp ∈ entries,
        is_inside_self_f v kvp.1.address = false ∧
        is_inside_self_f v kvp.2.address = false ∧
        kvp.1.sizeof = a ∧ kvp.2.sizeof = b) →
      entry_footprints v entries = entries.length * a + entries.length * b := by
  intro entries
  induction entries with
  | nil => intro _; simp [entry_footprints]
  | cons kv kvs ih =>
    intro h
    obtain ⟨h1, h2, h3, h4⟩ := h kv (List.mem_cons_self _ _)
    have := ih (fun x hx => h x (List.mem_cons_of_mem _ hx))
    simp only [entry_footprints] at this ⊢
    simp only [List.map_cons, List.sum_cons, h1, h2, h3, h4, this, List.length_cons]
    simp only [Bool.false_eq_true, if_false]
    ring

/-- A pair of two scalars that reaches the `std::pair` branch owns nothing. -/
theorem pair_of_scalars_heap_free (cfg : Config) (types : List Nat) (heap : Heap)
    (fuel : Nat) (e k val : Obj) (he : is_pair cfg e k val) (hk : is_scalar k)
    (hval : is_scalar val) :
    heap_free cfg (get_heap_allocated_bytes cfg types heap (fuel + 2)) e := by
  intro io hio
  rw [ghab_not_scalar cfg types heap (fuel + 1) e io he.1.1 he.1.2.1,
    chain_pair _ _ _ _ _ _ _ _ he, ghab_scalar cfg types heap fuel k _ hk]
  simp only [bind, Except.bind]
  rw [ghab_scalar cfg types heap fuel val _ hval]
  simp only [pure, Except.pure, scope_exit_t, size_add, bind, Except.bind, Nat.add_zero,
    Nat.zero_mod, size_dec_inc cfg _ hio]

/-- Entries that no branch handles add nothing and, without a collector, leave
the state alone. -/
theorem tuple_for_each_no_strategy (cfg : Config) (types : List Nat) (heap : Heap)
    (fuel : Nat) :
    ∀ (l : List Obj) (acc : Nat) (s : data_t), acc < cfg.SIZE_MOD →
      s.current_depth < cfg.SIZE_MOD → s.unknown_types = none →
      (∀ e ∈ l, matches_no_strategy cfg e) →
      tuple_for_each (add_bytes cfg (get_heap_allocated_bytes cfg types heap (fuel + 1))) l
        (acc, s) = .ok (acc, s) := by
  intro l
  induction l with
  | nil => intro acc s _ _ _ _; rfl
  | cons e es ih =>
    intro acc s hacc hs hu h
    have he : get_heap_allocated_bytes cfg types heap (fuel + 1) e s = .ok (0, s) := by
      rw [ghab_no_strategy cfg types heap fuel e (h e (List.mem_cons_self _ _)) s]
      cases s with
      | mk f ha u d =>
        simp only at hu hs
        subst hu
        simp only [emplace_unknown, size_dec_inc cfg _ hs]
    simp only [tuple_for_each, add_bytes, he, bind, Except.bind, pure, Except.pure]
    have : size_add cfg acc 0 = acc := by
      simp [size_add, Nat.mod_eq_of_lt hacc]
    rw [this]
    exact ih acc s hacc hs hu (fun x hx => h x (List.mem_cons_of_mem _ hx))

/-- C11, as stated, fails for entries smaller than a pointer and for entries
that are not `std::pair`s.  In a `std::map<H, H>` with one entry, where the
hooked type `H` has one byte and its hook reports 42, the entry is a pair of two
bytes that the engine does not look into, so the map weighs the
`sizeof(key) + sizeof(value) = 2` of the entry in its node and not `2 + 42 + 42`.
In a key/value container whose one entry is a struct with the members
`int first` and `bytevec_t second`, the byte vector resized to 16, the entry is
traversed as a plain struct, which without a field enumerator is reported as
unknown and adds nothing, so the container weighs `4 + 24` and not
`4 + 24 + 0 + 16`. -/
theorem C11_associative_container_counterexample :
    (map_of_hooked.range =
      some [pair_at 45 8192 2 (small_hooked_at 8192) (small_hooked_at 8193)] ∧
    (pair_at 45 8192 2 (small_hooked_at 8192) (small_hooked_at 8193)).pair =
      some (small_hooked_at 8192, small_hooked_at 8193) ∧
    weight_in_bytes lp64 [] [] 3 (small_hooked_at 8192) = .ok 42 ∧
    weight_in_bytes lp64 [] [] 3 (small_hooked_at 8193) = .ok 42 ∧
    weight_in_bytes lp64 [] [] 3 map_of_hooked = .ok 2) ∧
    (map_of_struct_entries.range = some [struct_entry_at 8192 12288] ∧
    (struct_entry_at 8192 12288).first_second =
      some ({ address := 8192, sizeof := 4 }, { address := 8200, sizeof := 24 }) ∧
    (struct_entry_at 8192 12288).aggregate =
      some [int_at 8192, bytevec 8200 12288 16 16] ∧
    weight_in_bytes lp64 [] [] 3 (int_at 8192) = .ok 0 ∧
    weight_in_bytes lp64 [] [] 3 (bytevec 8200 12288 16 16) = .ok 16 ∧
    weight_in_bytes lp64 [] [] 3 map_of_struct_entries = .ok (4 + 24) ∧
    unknown_typeindexes lp64 [] [] 3 map_of_struct_entries = .ok [56]) := by
  refine ⟨⟨rfl, rfl, ?_, ?_, ?_⟩, ⟨rfl, rfl, rfl, ?_, ?_, ?_, ?_⟩⟩ <;> decide

/-- C11, amended.  For a value handled by the `is_map` branch whose entries have
the members `first` and `second` listed in `entries` (the branch does not
compile for an entry type without them): the first loop computes the charge of
the specification (for every entry `sizeof(key)` unless the key lies inside the
footprint of the container, plus `sizeof(value)` unless the mapped value does),
and the engine returns that charge plus the sum of the recursive weights of the
entries, traversed in iteration order (as `size_t`).  An entry that is a
`std::pair` at least as large as a pointer weighs the weight of its key plus the
weight of its mapped value; an entry smaller than a pointer weighs 0; an entry
that no branch handles weighs 0 and is reported as unknown.  An empty container
weighs 0; when every entry is a pair of scalars, or is handled by no branch, the
container weighs the charge alone, and when moreover all keys have `a` bytes,
all mapped values `b` bytes and all lie outside the container, the charge is
`n * a + n * b` for `n` entries. -/
theorem C11_associative_container (cfg : Config) (types : List Nat) (heap : Heap)
    (fuel : Nat) (v : Obj) (range : List Obj) (entries : List (member_info × member_info))
    (hv : is_associative cfg v range)
    (hentries : range.map Obj.first_second = entries.map some) :
    map_allocation_bytes cfg v range 0 = .ok (entry_footprints v entries % cfg.SIZE_MOD) ∧
    (∀ s weights s2,
      range_weights (get_heap_allocated_bytes cfg types heap fuel) range
        { s with current_depth := size_inc cfg s.current_depth } weights s2 →
      get_heap_allocated_bytes cfg types heap (fuel + 1) v s =
        .ok ((entry_footprints v entries + weights.sum) % cfg.SIZE_MOD,
             { s2 with current_depth := size_dec cfg s2.current_depth })) ∧
    (∀ e k val, e ∈ range → is_pair cfg e k val →
      e.first_second = some ({ address := k.info.address, sizeof := k.info.sizeof },
                             { address := val.info.address, sizeof := val.info.sizeof }) ∧
      ∀ s wk s1 wv s2,
        get_heap_allocated_bytes cfg types heap fuel k
          { s with current_depth := size_inc cfg s.current_depth } = .ok (wk, s1) →
        get_heap_allocated_bytes cfg types heap fuel val s1 = .ok (wv, s2) →
        get_heap_allocated_bytes cfg types heap (fuel + 1) e s =
          .ok ((wk + wv) % cfg.SIZE_MOD,
               { s2 with current_depth := size_dec cfg s2.current_depth })) ∧
    (∀ e, e ∈ range → is_small_object cfg e → ∀ s, s.current_depth < cfg.SIZE_MOD →
      get_heap_allocated_bytes cfg types heap (fuel + 1) e s = .ok (0, s)) ∧
    (range = [] → ∀ follow, weight_in_bytes cfg types heap (fuel + 1) v follow = .ok 0) ∧
    ((∀ e ∈ range, ∃ k val, is_pair cfg e k val ∧ is_scalar k ∧ is_scalar val) →
      ∀ follow, weight_in_bytes cfg types heap (fuel + 3) v follow =
        .ok (entry_footprints v entries % cfg.SIZE_MOD)) ∧
    (∀ a b,
      (∀ kvp ∈ entries,
        is_inside_self_f v kvp.1.address = false ∧
        is_inside_self_f v kvp.2.address = false ∧
        kvp.1.sizeof = a ∧ kvp.2.sizeof = b) →
      entry_footprints v entries = entries.length * a + entries.length * b) ∧
    (∀ e, e ∈ range → matches_no_strategy cfg e → ∀ s,
      get_heap_allocated_bytes cfg types heap (fuel + 1) e s =
        .ok (0, { emplace_unknown e.info.type_index s with
                  current_depth := size_dec cfg (size_inc cfg s.current_depth) })) ∧
    ((∀ e ∈ range, matches_no_strategy cfg e) →
      ∀ follow, weight_in_bytes cfg types heap (fuel + 2) v follow =
        .ok (entry_footprints v entries % cfg.SIZE_MOD)) := by
  have hfp : map_allocation_bytes cfg v range 0 =
      .ok (entry_footprints v entries % cfg.SIZE_MOD) := by
    have := map_allocation_bytes_eq cfg v range entries 0 hentries
    simpa using this
  have step : ∀ (f : Nat) s, get_heap_allocated_bytes cfg types heap (f + 1) v s =
      scope_exit_t cfg
        (accumulate_range_f cfg (get_heap_allocated_bytes cfg types heap f) range
          { s with current_depth := size_inc cfg s.current_depth } >>= fun r =>
            pure (size_add cfg (entry_footprints v entries % cfg.SIZE_MOD) r.1, r.2)) := by
    intro f s
    rw [ghab_not_scalar cfg types heap f v s hv.1.1.1 hv.1.1.2.1,
      chain_associative _ _ _ _ _ _ _ hv, hfp]
    rfl
  refine ⟨hfp, ?_, ?_, ?_, ?_, ?_, ?_, ?_, ?_⟩
  · intro s weights s2 hw
    rw [step fuel s, accumulate_range_f_range_weights cfg _ range _ weights s2 hw]
    simp only [bind, Except.bind, pure, Except.pure, scope_exit_t, size_add, Nat.add_mod_mod,
      Nat.mod_add_mod]
  · intro e k val _ he
    refine ⟨by simp only [Obj.first_second, he.2.2.2.2.2], ?_⟩
    intro s wk s1 wv s2 hk hval
    rw [ghab_not_scalar cfg types heap fuel e s he.1.1 he.1.2.1,
      chain_pair _ _ _ _ _ _ _ _ he, hk]
    simp only [bind, Except.bind]
    rw [hval]
    rfl
  · intro e _ he s hs
    exact (entry_points_of_chain_ok cfg types heap fuel e 0 he.1 he.2.1
      (fun s => chain_small_object cfg types heap _ e s he)).1 s hs
  · intro hnil follow
    subst hnil
    have hnil : entries = [] := by
      cases entries with
      | nil => rfl
      | cons kv kvs => simp at hentries
    subst hnil
    simp only [weight_in_bytes, step fuel]
    simp [accumulate_range_f, tuple_for_each, entry_footprints, scope_exit_t, size_add, bind,
      Except.bind, pure, Except.pure]
  · intro hs follow
    have hfree : ∀ e ∈ range,
        heap_free cfg (get_heap_allocated_bytes cfg types heap (fuel + 2)) e := by
      intro e he
      obtain ⟨k, val, hp, hk, hval⟩ := hs e he
      exact pair_of_scalars_heap_free cfg types heap fuel e k val hp hk hval
    simp only [weight_in_bytes, step (fuel + 2), accumulate_range_f]
    rw [tuple_for_each_heap_free cfg _ range 0 _ (size_mod_pos cfg) (size_inc_lt cfg _) hfree]
    simp [scope_exit_t, size_add, bind, Except.bind, pure, Except.pure]
  · intro a b h
    exact entry_footprints_outside v a b entries h
  · intro e _ he s
    exact ghab_no_strategy cfg types heap fuel e he s
  · intro hs follow
    simp only [weight_in_bytes, step (fuel + 1), accumulate_range_f]
    rw [tuple_for_each_no_strategy cfg types heap fuel range 0 _ (size_mod_pos cfg)
      (size_inc_lt cfg _) rfl hs]
    simp [scope_exit_t, size_add, bind, Except.bind, pure, Except.pure]

theorem map_of_is_associative (type_index addr : Nat) (entries : List Obj) :
    is_associative lp64 (map_of type_index addr entries) entries :=
  ⟨⟨⟨rfl, rfl, rfl, rfl, rfl, rfl, by show 8 ≤ 48; decide⟩, rfl, rfl, rfl, rfl, rfl, rfl⟩,
    rfl, rfl, Or.inl rfl, rfl⟩

theorem int_double_entry_is_pair (i : Nat) :
    is_pair lp64 (int_double_entry i) (int_at (8192 + 64 * i))
      (double_at (8192 + 64 * i + 8)) :=
  ⟨⟨rfl, rfl, rfl, rfl, rfl, rfl, by show 8 ≤ 16; decide⟩, rfl, rfl, rfl, rfl, rfl⟩

theorem struct_entry_at_matches_no_strategy (addr data : Nat) :
    matches_no_strategy lp64 (struct_entry_at addr data) :=
  ⟨⟨⟨⟨rfl, rfl, rfl, rfl, rfl, rfl, by show 8 ≤ 32; decide⟩, rfl, rfl, rfl, rfl, rfl, rfl⟩,
    rfl, rfl, Or.inr ⟨rfl, rfl⟩⟩, Or.inr ⟨rfl, rfl⟩⟩

/-- C11 amended, witnessed on the `std::map` test and on a container with struct
entries: the empty map weighs 0, the `std::map<int, double>` with 1000 entries
weighs `1000 * sizeof(int) + 1000 * sizeof(double)`, and the container whose one
entry is a struct of an `int` and a byte vector weighs the 4 and 24 bytes of the
two members. -/
theorem C11_associative_container_witness :
    weight_in_bytes lp64 [] [] 1 (map_of 48 64 []) = .ok 0 ∧
    weight_in_bytes lp64 [] [] 3 map_test_value = .ok (1000 * 4 + 1000 * 8) ∧
    weight_in_bytes lp64 [] [] 2 map_of_struct_entries = .ok (4 + 24) := by
  refine ⟨(C11_associative_container lp64 [] [] 0 (map_of 48 64 []) [] []
      (map_of_is_associative 48 64 []) rfl).2.2.2.2.1 rfl efollow_raw_pointers.False, ?_,
    (C11_associative_container lp64 [] [] 0 map_of_struct_entries
      [struct_entry_at 8192 12288]
      [({ address := 8192, sizeof := 4 }, { address := 8200, sizeof := 24 })]
      (map_of_is_associative 57 64 _) rfl).2.2.2.2.2.2.2.2
      (fun e he => by
        rw [List.mem_singleton.mp he]
        exact struct_entry_at_matches_no_strategy 8192 12288)
      efollow_raw_pointers.False⟩
  have hC := C11_associative_container lp64 [] [] 0 map_test_value
    ((List.range 1000).map int_double_entry)
    ((List.range 1000).map
      (fun i => ({ address := 8192 + 64 * i, sizeof := 4 },
                 { address := 8192 + 64 * i + 8, sizeof := 8 })))
    (map_of_is_associative 48 64 _) (by rw [List.map_map, List.map_map]; rfl)
  have h1 := hC.2.2.2.2.2.1 (by
    intro e he
    simp only [List.mem_map, List.mem_range] at he
    obtain ⟨i, _, rfl⟩ := he
    exact ⟨_, _, int_double_entry_is_pair i, Or.inl rfl, Or.inl rfl⟩)
    efollow_raw_pointers.False
  have h2 := hC.2.2.2.2.2.2.1 4 8 (by
    intro kvp hk
    simp only [List.mem_map, List.mem_range] at hk
    obtain ⟨i, _, rfl⟩ := hk
    refine ⟨?_, ?_, rfl, rfl⟩ <;>
      simp only [is_inside_self_f, map_test_value, map_of, Obj.leaf,
        Bool.and_eq_false_imp, decide_eq_true_eq, decide_eq_false_iff_not] <;>
      intro _ <;> omega)
  rw [h1, h2]
  simp only [List.length_map, List.length_range]
  rfl

/-! ## Member enumeration -/

/-- The archive invocations, one after the other, are one loop over all their
arguments. -/
theorem run_archive_flatten {σ : Type} (F : Obj → σ → Except Fault σ) :
    ∀ (calls : List (List Obj)) (st : σ),
      run_archive F calls st = tuple_for_each F calls.flatten st := by
  intro calls
  induction calls with
  | nil => intro st; rfl
  | cons members rest ih =>
    intro st
    simp only [run_archive, cereal_archive_inspector, List.flatten_cons,
      tuple_for_each_append]
    cases h : tuple_for_each F members st with
    | error e => rfl
    | ok st1 => exact ih st1

theorem chain_member_enumerable (cfg : Config) (types : List Nat) (heap : Heap)
    (recurse : Obj → data_t → Result) (v : Obj) (calls : List (List Obj)) (s : data_t)
    (h : is_member_enumerable cfg v calls) :
    get_heap_allocated_bytes_chain cfg types heap recurse v s =
      run_archive (add_bytes cfg recurse) calls (0, s) := by
  obtain ⟨⟨⟨_, _, h3, h4, h5, h6, h7⟩, h8, h9, h10, h11, h12, h13⟩, h14, h15, h16, h17⟩ := h
  simp only [get_heap_allocated_bytes_chain, h3, h4, h5, h6, Nat.not_lt.mpr h7, h8, h9, h10,
    h11, h12, h13, h14, h15, h16]
  rcases h17 with h17 | ⟨h17, h18⟩
  · simp [h17]
  · simp [h17, h18]

/-- C21, as stated, fails in a build without the switch `WIB_CEREAL_ENABLED`,
which is the default: the cereal branch is not compiled, so the struct of the
test, whose `serialize` hands three byte vectors of 1024, 512 and 256 bytes to
the archive, weighs 0 and is reported as unknown. -/
theorem C21_member_enumeration_counterexample :
    lp64_plain.WIB_CEREAL_ENABLED = false ∧
    cereal_serialize_test_value.serialize =
      some [[bytevec 64 8192 1024 1024, bytevec 88 12288 512 512],
            [bytevec 112 16384 256 256]] ∧
    weight_in_bytes lp64_plain [] [] 1 cereal_serialize_test_value = .ok 0 ∧
    unknown_typeindexes lp64_plain [] [] 1 cereal_serialize_test_value = .ok [49] := by
  refine ⟨rfl, rfl, ?_, ?_⟩ <;> decide

/-- C21, amended.  In a build with the switch `WIB_CEREAL_ENABLED`, for a value
that reaches the cereal branch and whose `serialize` (or `save`, when the type
has no `serialize`) makes the archive invocations `calls`: the engine runs over
all arguments of all invocations, in order, each from the state the previous
one left, and returns the sum (as `size_t`) of their recursive weights. -/
theorem C21_member_enumeration (cfg : Config) (types : List Nat) (heap : Heap)
    (fuel : Nat) (v : Obj) (calls : List (List Obj))
    (hv : is_member_enumerable cfg v calls) :
    (∀ s, get_heap_allocated_bytes cfg types heap (fuel + 1) v s =
      scope_exit_t cfg (tuple_for_each
        (add_bytes cfg (get_heap_allocated_bytes cfg types heap fuel)) calls.flatten
        (0, { s with current_depth := size_inc cfg s.current_depth }))) ∧
    (∀ s weights s2,
      range_weights (get_heap_allocated_bytes cfg types heap fuel) calls.flatten
        { s with current_depth := size_inc cfg s.current_depth } weights s2 →
      get_heap_allocated_bytes cfg types heap (fuel + 1) v s =
        .ok (weights.sum % cfg.SIZE_MOD,
             { s2 with current_depth := size_dec cfg s2.current_depth })) := by
  have step : ∀ s, get_heap_allocated_bytes cfg types heap (fuel + 1) v s =
      scope_exit_t cfg (tuple_for_each
        (add_bytes cfg (get_heap_allocated_bytes cfg types heap fuel)) calls.flatten
        (0, { s with current_depth := size_inc cfg s.current_depth })) := by
    intro s
    rw [ghab_not_scalar cfg types heap fuel v s hv.1.1.1 hv.1.1.2.1,
      chain_member_enumerable _ _ _ _ _ _ _ hv, run_archive_flatten]
  refine ⟨step, ?_⟩
  intro s weights s2 hw
  have := accumulate_range_f_range_weights cfg _ calls.flatten _ weights s2 hw
  unfold accumulate_range_f at this
  rw [step s, this]
  rfl

theorem cereal_test_values_are_member_enumerable :
    is_member_enumerable lp64 cereal_serialize_test_value
      [[bytevec 64 8192 1024 1024, bytevec 88 12288 512 512], [bytevec 112 16384 256 256]] ∧
    is_member_enumerable lp64 cereal_save_test_value
      [[bytevec 64 8192 1024 1024, bytevec 88 12288 512 512], [bytevec 112 16384 256 256]] :=
  ⟨⟨⟨⟨rfl, rfl, rfl, rfl, rfl, rfl, by show 8 ≤ 72; decide⟩, rfl, rfl, rfl, rfl, rfl, rfl⟩,
      rfl, rfl, rfl, Or.inl rfl⟩,
   ⟨⟨⟨rfl, rfl, rfl, rfl, rfl, rfl, by show 8 ≤ 72; decide⟩, rfl, rfl, rfl, rfl, rfl, rfl⟩,
      rfl, rfl, rfl, Or.inr ⟨rfl, rfl⟩⟩⟩

/-- The three byte vectors of the cereal test weigh 1024, 512 and 256 and leave
the state as it is. -/
theorem cereal_test_value_weights (types : List Nat) (fuel : Nat) (s : data_t)
    (hd : s.current_depth < lp64.SIZE_MOD) :
    range_weights (get_heap_allocated_bytes lp64 types [] (fuel + 2))
      [bytevec 64 8192 1024 1024, bytevec 88 12288 512 512, bytevec 112 16384 256 256]
      s [1024, 512, 256] s :=
  ⟨s, ghab_continuous_memory_of_scalars lp64 types [] fuel _ _ 8192 1024
      (bytevec_is_continuous_memory 64 8192 1024 1024) (chars_are_scalars 8192 1024) s hd,
   s, ghab_continuous_memory_of_scalars lp64 types [] fuel _ _ 12288 512
      (bytevec_is_continuous_memory 88 12288 512 512) (chars_are_scalars 12288 512) s hd,
   s, ghab_continuous_memory_of_scalars lp64 types [] fuel _ _ 16384 256
      (bytevec_is_continuous_memory 112 16384 256 256) (chars_are_scalars 16384 256) s hd,
   rfl⟩

/-- C21 amended, witnessed on the "cereal-serialize" test, built with the
switch: the struct with `serialize` and the struct with `save` both weigh
`1024 + 512 + 256`. -/
theorem C21_member_enumeration_witness :
    weight_in_bytes lp64 [] [] 3 cereal_serialize_test_value = .ok (1024 + 512 + 256) ∧
    weight_in_bytes lp64 [] [] 3 cereal_save_test_value = .ok (1024 + 512 + 256) := by
  have h1 := (C21_member_enumeration lp64 [] [] 2 cereal_serialize_test_value _
    cereal_test_values_are_member_enumerable.1).2
    (initial_data efollow_raw_pointers.False none) [1024, 512, 256] _
    (cereal_test_value_weights [] 0 _ (size_inc_lt lp64 _))
  have h2 := (C21_member_enumeration lp64 [] [] 2 cereal_save_test_value _
    cereal_test_values_are_member_enumerable.2).2
    (initial_data efollow_raw_pointers.False none) [1024, 512, 256] _
    (cereal_test_value_weights [] 0 _ (size_inc_lt lp64 _))
  constructor
  · simp only [weight_in_bytes, h1]; rfl
  · simp only [weight_in_bytes, h2]; rfl

/-! ## The chain as a composition of steps -/

/-- The loop of a visitor lambda is the sum of the calls. -/
theorem tuple_for_each_eq_sum (cfg : Config) (heap : Heap) (recurse : Obj → data_t → Result) :
    ∀ (l : List Obj) (acc : Nat) (s : data_t),
      tuple_for_each (add_bytes cfg recurse) l (acc % cfg.SIZE_MOD, s) =
        ((Shape.sum l).run cfg heap recurse s >>= fun r =>
          pure ((acc + r.1) % cfg.SIZE_MOD, r.2)) := by
  intro l
  induction l with
  | nil => intro acc s; simp [tuple_for_each, Shape.sum, Shape.run, pure, Except.pure, bind,
      Except.bind]
  | cons e es ih =>
    intro acc s
    simp only [tuple_for_each, add_bytes, Shape.sum, Shape.run, bind, Except.bind]
    cases h1 : recurse e s with
    | error err => rfl
    | ok r1 =>
      obtain ⟨b, s1⟩ := r1
      simp only [pure, Except.pure, size_add, Nat.mod_add_mod]
      rw [ih (acc + b) s1]
      simp only [bind, Except.bind]
      cases h2 : (Shape.sum es).run cfg heap recurse s1 with
      | error err => rfl
      | ok r2 =>
        simp only [pure, Except.pure, Nat.add_mod_mod, Nat.add_assoc]

theorem tuple_for_each_eq_run (cfg : Config) (heap : Heap) (recurse : Obj → data_t → Result)
    (l : List Obj) (s : data_t) :
    tuple_for_each (add_bytes cfg recurse) l (0, s) =
      (Shape.seq (.ret 0) (Shape.sum l)).run cfg heap recurse s := by
  have := tuple_for_each_eq_sum cfg heap recurse l 0 s
  simp only [Nat.zero_mod] at this
  rw [this]
  simp only [Shape.run, bind, Except.bind, size_add]

/-- The chain is the run of the branch `shape_of` picks. -/
theorem chain_eq_run (cfg : Config) (types : List Nat) (heap : Heap)
    (recurse : Obj → data_t → Result) (v : Obj) (s : data_t) :
    get_heap_allocated_bytes_chain cfg types heap recurse v s =
      (shape_of cfg types v).run cfg heap recurse s := by
  simp only [get_heap_allocated_bytes_chain, shape_of, accumulate_range_f, run_archive_flatten,
    tuple_for_each_eq_run cfg heap recurse, store_unknown_type_eq]
  repeat' split
  all_goals first
    | rfl
    | simp only [Shape.run, pure, Except.pure, bind, Except.bind]
  · next h => simp only [h, if_true]
  · next h => simp only [h, if_false]
  · next h => simp only [h]
  · next h => simp only [h]
  · next hm hi =>
    rw [try_visit_any_match _ _ _ _ hm]
    simp only [any_visitor, add_bytes, hi, if_true, bind, Except.bind, pure, Except.pure]
    cases recurse _ s <;> rfl
  · next hm hi =>
    rw [try_visit_any_match _ _ _ _ hm]
    simp only [any_visitor, add_bytes, hi, bind, Except.bind, pure, Except.pure]
    cases recurse _ s <;> rfl
  · next hm =>
    rw [try_visit_any_no_match _ _ _ _ hm]
    simp only [Bool.not_false, Bool.true_and]
    cases hu : s.unknown_types <;> simp [emplace_unknown, hu]

theorem run_seq (cfg : Config) (heap : Heap) (recurse : Obj → data_t → Result)
    (a b : Shape) :
    Shape.run cfg heap recurse (.seq a b) =
      fun s => Shape.run cfg heap recurse a s >>= fun r1 =>
        Shape.run cfg heap recurse b r1.2 >>= fun r2 =>
          pure (size_add cfg r1.1 r2.1, r2.2) := by
  funext s; rfl

/-- A relation between computations that holds for the steps and is kept by
composition holds for every branch. -/
theorem run_rel {cfg : Config} {heap : Heap}
    {Q : (data_t → Result) → (data_t → Result) → Prop}
    {rec1 rec2 : Obj → data_t → Result}
    (hret : ∀ b, Q (fun s => .ok (b, s)) (fun s => .ok (b, s)))
    (hfail : ∀ e, Q (fun _ => .error e) (fun _ => .error e))
    (hcall : ∀ x, Q (rec1 x) (rec2 x))
    (hptr : ∀ p, Q (accumulate_pointer_f cfg heap rec1 p) (accumulate_pointer_f cfg heap rec2 p))
    (hraw : ∀ p, Q (Shape.run cfg heap rec1 (.raw p)) (Shape.run cfg heap rec2 (.raw p)))
    (hseq : ∀ F F' G G', Q F F' → Q G G' →
      Q (fun s => F s >>= fun r1 => G r1.2 >>= fun r2 => pure (size_add cfg r1.1 r2.1, r2.2))
        (fun s => F' s >>= fun r1 => G' r1.2 >>= fun r2 =>
          pure (size_add cfg r1.1 r2.1, r2.2)))
    (hrecord : ∀ t, Q (fun s => .ok (0, emplace_unknown t s))
      (fun s => .ok (0, emplace_unknown t s))) :
    ∀ sh : Shape, Q (sh.run cfg heap rec1) (sh.run cfg heap rec2) := by
  intro sh
  induction sh with
  | ret b => exact hret b
  | fail e => exact hfail e
  | call x => exact hcall x
  | ptr p => exact hptr p
  | raw p => exact hraw p
  | seq a b iha ihb =>
    rw [run_seq, run_seq]
    exact hseq _ _ _ _ iha ihb
  | record t => exact hrecord t

theorem chain_rel {cfg : Config} {types : List Nat} {heap : Heap}
    {Q : (data_t → Result) → (data_t → Result) → Prop}
    {rec1 rec2 : Obj → data_t → Result}
    (hret : ∀ b, Q (fun s => .ok (b, s)) (fun s => .ok (b, s)))
    (hfail : ∀ e, Q (fun _ => .error e) (fun _ => .error e))
    (hcall : ∀ x, Q (rec1 x) (rec2 x))
    (hptr : ∀ p, Q (accumulate_pointer_f cfg heap rec1 p) (accumulate_pointer_f cfg heap rec2 p))
    (hraw : ∀ p, Q (Shape.run cfg heap rec1 (.raw p)) (Shape.run cfg heap rec2 (.raw p)))
    (hseq : ∀ F F' G G', Q F F' → Q G G' →
      Q (fun s => F s >>= fun r1 => G r1.2 >>= fun r2 => pure (size_add cfg r1.1 r2.1, r2.2))
        (fun s => F' s >>= fun r1 => G' r1.2 >>= fun r2 =>
          pure (size_add cfg r1.1 r2.1, r2.2)))
    (hrecord : ∀ t, Q (fun s => .ok (0, emplace_unknown t s))
      (fun s => .ok (0, emplace_unknown t s)))
    (v : Obj) :
    Q (get_heap_allocated_bytes_chain cfg types heap rec1 v)
      (get_heap_allocated_bytes_chain cfg types heap rec2 v) := by
  have h1 : get_heap_allocated_bytes_chain cfg types heap rec1 v =
      (shape_of cfg types v).run cfg heap rec1 := funext (chain_eq_run cfg types heap rec1 v)
  have h2 : get_heap_allocated_bytes_chain cfg types heap rec2 v =
      (shape_of cfg types v).run cfg heap rec2 := funext (chain_eq_run cfg types heap rec2 v)
  rw [h1, h2]
  exact run_rel hret hfail hcall hptr hraw hseq hrecord _

/-- The engine is the scalar test followed by the chain with the depth counter
adjusted. -/
theorem ghab_succ_eq (cfg : Config) (types : List Nat) (heap : Heap) (fuel : Nat) (v : Obj) :
    get_heap_allocated_bytes cfg types heap (fuel + 1) v =
      if (v.info.is_arithmetic || v.info.is_enum) = true then fun s => .ok (0, s)
      else in_scope cfg (get_heap_allocated_bytes_chain cfg types heap
        (get_heap_allocated_bytes cfg types heap fuel) v) := by
  funext s
  rw [get_heap_allocated_bytes]
  split <;> rfl

/-! ## The collector does not steer the traversal -/

theorem emplace_unknown_follow (t : Nat) (s : data_t) :
    (emplace_unknown t s).follow_raw_pointers = s.follow_raw_pointers := by
  unfold emplace_unknown
  cases s.unknown_types <;> rfl

theorem emplace_unknown_handled (t : Nat) (s : data_t) :
    (emplace_unknown t s).handled_addresses = s.handled_addresses := by
  unfold emplace_unknown
  cases s.unknown_types <;> rfl

theorem emplace_unknown_depth (t : Nat) (s : data_t) :
    (emplace_unknown t s).current_depth = s.current_depth := by
  unfold emplace_unknown
  cases s.unknown_types <;> rfl

theorem same_visit_emplace (t : Nat) (s s' : data_t) (h : same_visit s s') :
    same_visit (emplace_unknown t s) (emplace_unknown t s') := by
  unfold same_visit
  rw [emplace_unknown_follow, emplace_unknown_follow, emplace_unknown_handled,
    emplace_unknown_handled]
  exact h

theorem respects_seq (cfg : Config) (F F' G G' : data_t → Result)
    (hF : Respects F F') (hG : Respects G G') :
    Respects
      (fun s => F s >>= fun r1 => G r1.2 >>= fun r2 => pure (size_add cfg r1.1 r2.1, r2.2))
      (fun s => F' s >>= fun r1 => G' r1.2 >>= fun r2 =>
        pure (size_add cfg r1.1 r2.1, r2.2)) := by
  intro s t hst
  have h1 := hF s t hst
  simp only [bind, Except.bind]
  cases hs : F s with
  | error e =>
    cases ht : F' t with
    | error e' => rw [hs, ht] at h1; exact h1
    | ok r => rw [hs, ht] at h1; exact h1.elim
  | ok r =>
    obtain ⟨b1, s1⟩ := r
    cases ht : F' t with
    | error e' => rw [hs, ht] at h1; exact h1.elim
    | ok r' =>
      obtain ⟨b1', t1⟩ := r'
      rw [hs, ht] at h1
      obtain ⟨hb, hv⟩ := h1
      subst hb
      have h2 := hG s1 t1 hv
      simp only
      cases hs2 : G s1 with
      | error e =>
        cases ht2 : G' t1 with
        | error e' => rw [hs2, ht2] at h2; exact h2
        | ok r => rw [hs2, ht2] at h2; exact h2.elim
      | ok r =>
        obtain ⟨b2, s2⟩ := r
        cases ht2 : G' t1 with
        | error e' => rw [hs2, ht2] at h2; exact h2.elim
        | ok r' =>
          obtain ⟨b2', t2⟩ := r'
          rw [hs2, ht2] at h2
          obtain ⟨hb2, hv2⟩ := h2
          subst hb2
          exact ⟨rfl, hv2⟩

theorem respects_ptr (cfg : Config) (heap : Heap) (rec1 rec2 : Obj → data_t → Result)
    (h : ∀ x, Respects (rec1 x) (rec2 x)) (p : Nat) :
    Respects (accumulate_pointer_f cfg heap rec1 p) (accumulate_pointer_f cfg heap rec2 p) := by
  intro s t hst
  obtain ⟨hf, hh⟩ := hst
  simp only [accumulate_pointer_f, hh]
  split
  · exact ⟨rfl, hf, hh⟩
  · split
    · exact ⟨rfl, hf, hh⟩
    · split
      · exact rfl
      · next pointee _ =>
        have h1 := h pointee { s with handled_addresses := p :: t.handled_addresses }
          { t with handled_addresses := p :: t.handled_addresses } ⟨hf, rfl⟩
        simp only [bind, Except.bind]
        cases hs : rec1 pointee { s with handled_addresses := p :: t.handled_addresses } with
        | error e =>
          cases ht : rec2 pointee { t with handled_addresses := p :: t.handled_addresses } with
          | error e' => rw [hs, ht] at h1; exact h1
          | ok r => rw [hs, ht] at h1; exact h1.elim
        | ok r =>
          obtain ⟨b1, s1⟩ := r
          cases ht : rec2 pointee { t with handled_addresses := p :: t.handled_addresses } with
          | error e' => rw [hs, ht] at h1; exact h1.elim
          | ok r' =>
            obtain ⟨b1', t1⟩ := r'
            rw [hs, ht] at h1
            obtain ⟨hb, hv⟩ := h1
            subst hb
            exact ⟨rfl, hv⟩

theorem respects_in_scope (cfg : Config) (F F' : data_t → Result) (h : Respects F F') :
    Respects (in_scope cfg F) (in_scope cfg F') := by
  intro s t hst
  have h1 := h { s with current_depth := size_inc cfg s.current_depth }
    { t with current_depth := size_inc cfg t.current_depth } hst
  simp only [in_scope, scope_exit_t, bind, Except.bind]
  cases hs : F { s with current_depth := size_inc cfg s.current_depth } with
  | error e =>
    cases ht : F' { t with current_depth := size_inc cfg t.current_depth } with
    | error e' => rw [hs, ht] at h1; exact h1
    | ok r => rw [hs, ht] at h1; exact h1.elim
  | ok r =>
    obtain ⟨b1, s1⟩ := r
    cases ht : F' { t with current_depth := size_inc cfg t.current_depth } with
    | error e' => rw [hs, ht] at h1; exact h1.elim
    | ok r' =>
      obtain ⟨b1', t1⟩ := r'
      rw [hs, ht] at h1
      exact ⟨h1.1, h1.2⟩

/-- The outcome of the engine depends on the state only through the pointer
policy and the visited addresses; the collector and the depth counter do not
matter. -/
theorem ghab_respects (cfg : Config) (types : List Nat) (heap : Heap) :
    ∀ (fuel : Nat) (v : Obj),
      Respects (get_heap_allocated_bytes cfg types heap fuel v)
        (get_heap_allocated_bytes cfg types heap fuel v) := by
  intro fuel
  induction fuel with
  | zero => intro v s t _; rfl
  | succ n ih =>
    intro v
    rw [ghab_succ_eq]
    split
    · intro s t hst; exact ⟨rfl, hst⟩
    · apply respects_in_scope
      refine chain_rel (fun b s t hst => ⟨rfl, hst⟩) (fun e s t _ => rfl) ih
        (respects_ptr cfg heap _ _ ih) ?_ (respects_seq cfg)
        (fun u s t hst => ⟨rfl, same_visit_emplace u s t hst⟩) v
      intro p s t hst
      simp only [Shape.run, hst.1]
      split
      · exact respects_ptr cfg heap _ _ ih p s t hst
      · exact ⟨rfl, hst⟩

/-- C22. The unknown-type collector does not influence the measurement.  For
every value, allowlist, pointer policy and budget: two runs of the engine from
states with the same policy and the same visited addresses, whatever their
collectors, end with the same fault, or with the same byte count and the same
visited addresses; so the run with a collector attached returns a byte count
exactly when the run without one does, the same one, with the same final
visited addresses, and `weight_in_bytes` is the byte count of the run that
`unknown_typeindexes` makes and discards. -/
theorem C22_collector_independence (cfg : Config) (types : List Nat) (heap : Heap)
    (fuel : Nat) (v : Obj) (follow : efollow_raw_pointers) :
    (∀ s t, same_visit s t →
      same_outcome (get_heap_allocated_bytes cfg types heap fuel v s)
        (get_heap_allocated_bytes cfg types heap fuel v t)) ∧
    (∀ collector b s',
      get_heap_allocated_bytes cfg types heap fuel v (initial_data follow collector) =
        .ok (b, s') →
      ∃ s'', get_heap_allocated_bytes cfg types heap fuel v (initial_data follow none) =
          .ok (b, s'') ∧
        s''.handled_addresses = s'.handled_addresses) ∧
    (∀ collector b s'',
      get_heap_allocated_bytes cfg types heap fuel v (initial_data follow none) =
        .ok (b, s'') →
      ∃ s', get_heap_allocated_bytes cfg types heap fuel v (initial_data follow collector) =
          .ok (b, s') ∧
        s'.handled_addresses = s''.handled_addresses) ∧
    weight_in_bytes cfg types heap fuel v follow =
      (get_heap_allocated_bytes cfg types heap fuel v (initial_data follow (some [])) >>=
        fun r => pure r.1) := by
  have key := ghab_respects cfg types heap fuel v
  have hinit : ∀ collector,
      same_visit (initial_data follow none) (initial_data follow collector) :=
    fun _ => ⟨rfl, rfl⟩
  refine ⟨key, ?_, ?_, ?_⟩
  · intro collector b s' h
    have h1 := key _ _ (hinit collector)
    rw [h] at h1
    cases h0 : get_heap_allocated_bytes cfg types heap fuel v (initial_data follow none) with
    | error e => rw [h0] at h1; exact h1.elim
    | ok r =>
      obtain ⟨b0, s0⟩ := r
      rw [h0] at h1
      obtain ⟨hb, hv⟩ := h1
      subst hb
      exact ⟨s0, rfl, hv.2⟩
  · intro collector b s'' h
    have h1 := key _ _ (hinit collector)
    rw [h] at h1
    cases h0 : get_heap_allocated_bytes cfg types heap fuel v (initial_data follow collector)
      with
    | error e => rw [h0] at h1; exact h1.elim
    | ok r =>
      obtain ⟨b0, s0⟩ := r
      rw [h0] at h1
      obtain ⟨hb, hv⟩ := h1
      subst hb
      exact ⟨s0, rfl, hv.2.symm⟩
  · have h1 := key _ _ (hinit (some []))
    simp only [weight_in_bytes, bind, Except.bind]
    cases h0 : get_heap_allocated_bytes cfg types heap fuel v (initial_data follow none) with
    | error e =>
      cases h2 : get_heap_allocated_bytes cfg types heap fuel v
          (initial_data follow (some [])) with
      | error e' => rw [h0, h2] at h1; rw [show e = e' from h1]
      | ok r => rw [h0, h2] at h1; exact h1.elim
    | ok r =>
      obtain ⟨b0, s0⟩ := r
      cases h2 : get_heap_allocated_bytes cfg types heap fuel v
          (initial_data follow (some [])) with
      | error e' => rw [h0, h2] at h1; exact h1.elim
      | ok r' =>
        obtain ⟨b1, s1⟩ := r'
        rw [h0, h2] at h1
        rw [h1.1]

/-- C22, witnessed on a value of a type the engine has no strategy for: the run
with a collector records the type and yet returns the byte count of
`weight_in_bytes`. -/
theorem C22_collector_independence_witness :
    unknown_typeindexes lp64 [] [] 1 (time_point_at 64) = .ok [17] ∧
    weight_in_bytes lp64 [] [] 1 (time_point_at 64) =
      (get_heap_allocated_bytes lp64 [] [] 1 (time_point_at 64)
        (initial_data efollow_raw_pointers.False (some [])) >>= fun r => pure r.1) :=
  ⟨by decide,
   (C22_collector_independence lp64 [] [] 1 (time_point_at 64)
      efollow_raw_pointers.False).2.2.2⟩

/-! ## The depth counter -/

/-- The engine returns with the depth counter it was called with. -/
theorem ghab_depth_balanced (cfg : Config) (types : List Nat) (heap : Heap) :
    ∀ fuel, Keeps (fun s s' => s.current_depth < cfg.SIZE_MOD →
        s'.current_depth = s.current_depth)
      (get_heap_allocated_bytes cfg types heap fuel) := by
  intro fuel
  induction fuel with
  | zero => intro x s b s' hx; cases hx
  | succ n ih =>
    intro x s b s' hx hd
    simp only [get_heap_allocated_bytes] at hx
    split at hx
    · cases hx; rfl
    · simp only [scope_exit_t, bind_eq_ok] at hx
      obtain ⟨⟨b2, s2⟩, h1, h2⟩ := hx
      cases h2
      have := chain_keeps
        (R := fun s s' => s.current_depth < cfg.SIZE_MOD → s'.current_depth = s.current_depth)
        (fun _ _ => rfl) (fun a b c hab hbc ha => by rw [hbc (by rw [hab ha]; exact ha), hab ha])
        (fun _ _ _ _ => rfl) (fun s t _ => emplace_unknown_depth t s) ih _ _ _ _ h1
        (size_inc_lt cfg _)
      show size_dec cfg s2.current_depth = s.current_depth
      rw [this]
      exact size_dec_inc cfg _ hd

/-- Every call the chain makes starts with the depth counter the chain was
entered with. -/
theorem chain_only_at_depth (cfg : Config) (types : List Nat) (heap : Heap) (d : Nat)
    (hd : d < cfg.SIZE_MOD) (recurse : Obj → data_t → Result)
    (hrec : Keeps (fun s s' => s.current_depth < cfg.SIZE_MOD →
      s'.current_depth = s.current_depth) recurse)
    (v : Obj) (s : data_t) (hs : s.current_depth = d) :
    get_heap_allocated_bytes_chain cfg types heap (only_at_depth d recurse) v s =
      get_heap_allocated_bytes_chain cfg types heap recurse v s := by
  have hptr : ∀ p s, s.current_depth = d →
      accumulate_pointer_f cfg heap (only_at_depth d recurse) p s =
        accumulate_pointer_f cfg heap recurse p s ∧
      ∀ b s', accumulate_pointer_f cfg heap recurse p s = .ok (b, s') →
        s'.current_depth = d := by
    intro p s hs
    constructor
    · simp only [accumulate_pointer_f, only_at_depth, hs, if_true]
    · intro b s' h
      have := accumulate_pointer_f_keeps
        (R := fun s s' => s.current_depth < cfg.SIZE_MOD → s'.current_depth = s.current_depth)
        (fun _ _ => rfl) (fun a b c hab hbc ha => by rw [hbc (by rw [hab ha]; exact ha), hab ha])
        (fun _ _ _ _ => rfl) hrec p s b s' h (by rw [hs]; exact hd)
      rw [this, hs]
  have key := @chain_rel cfg types heap
    (fun F F' => ∀ s, s.current_depth = d →
      F s = F' s ∧ ∀ b s', F' s = .ok (b, s') → s'.current_depth = d)
    (only_at_depth d recurse) recurse
    (fun b s hs => ⟨rfl, fun b' s' h => by cases h; exact hs⟩)
    (fun e s _ => ⟨rfl, fun b' s' h => by cases h⟩)
    (fun x s hs => ⟨by simp only [only_at_depth, hs, if_true],
      fun b s' h => by rw [hrec x s b s' h (by rw [hs]; exact hd), hs]⟩)
    hptr
    (fun p s hs => by
      simp only [Shape.run]
      split
      · exact hptr p s hs
      · exact ⟨rfl, fun b' s' h => by cases h; exact hs⟩)
    (fun F F' G G' hF hG s hs => by
      obtain ⟨h1, h2⟩ := hF s hs
      constructor
      · simp only [h1, bind, Except.bind]
        cases hr : F' s with
        | error e => rfl
        | ok r =>
          obtain ⟨b1, s1⟩ := r
          simp only [(hG s1 (h2 b1 s1 hr)).1]
      · intro b s' h
        simp only [bind_eq_ok] at h
        obtain ⟨⟨b1, s1⟩, hr1, ⟨b2, s2⟩, hr2, heq⟩ := h
        cases heq
        exact (hG s1 (h2 b1 s1 hr1)).2 b2 s2 hr2)
    (fun t s hs => ⟨rfl, fun b' s' h => by cases h; rw [emplace_unknown_depth, hs]⟩) v
  exact (key s hs).1

/-- C25. Depth bookkeeping is balanced.  For every value and every state whose
depth counter is a `size_t`: when the engine returns, the counter is what it was
before the call; a scalar returns 0 without touching the state; for a value that
is not scalar the chain runs with the counter incremented (one higher, unless
the counter was the largest `size_t`), and so starts every call the chain makes:
observing the calls changes nothing; and the run of either entry point, which
starts at 0, ends at 0. -/
theorem C25_depth_balance (cfg : Config) (types : List Nat) (heap : Heap) (fuel : Nat)
    (v : Obj) (s : data_t) (hd : s.current_depth < cfg.SIZE_MOD) :
    (∀ b s', get_heap_allocated_bytes cfg types heap fuel v s = .ok (b, s') →
      s'.current_depth = s.current_depth) ∧
    (is_scalar v → get_heap_allocated_bytes cfg types heap (fuel + 1) v s = .ok (0, s)) ∧
    (¬ is_scalar v →
      get_heap_allocated_bytes cfg types heap (fuel + 1) v s =
        scope_exit_t cfg (get_heap_allocated_bytes_chain cfg types heap
          (only_at_depth (size_inc cfg s.current_depth)
            (get_heap_allocated_bytes cfg types heap fuel)) v
          { s with current_depth := size_inc cfg s.current_depth })) ∧
    (s.current_depth + 1 < cfg.SIZE_MOD →
      size_inc cfg s.current_depth = s.current_depth + 1) ∧
    (∀ follow collector b s',
      get_heap_allocated_bytes cfg types heap fuel v (initial_data follow collector) =
        .ok (b, s') → s'.current_depth = 0) := by
  refine ⟨fun b s' h => ghab_depth_balanced cfg types heap fuel v s b s' h hd,
    ghab_scalar cfg types heap fuel v s, ?_, ?_, ?_⟩
  · intro hns
    obtain ⟨ha, he⟩ := not_scalar_false v hns
    rw [ghab_not_scalar cfg types heap fuel v s ha he,
      chain_only_at_depth cfg types heap _ (size_inc_lt cfg _) _
        (ghab_depth_balanced cfg types heap fuel) v _ rfl]
  · intro h
    exact Nat.mod_eq_of_lt h
  · intro follow collector b s' h
    exact ghab_depth_balanced cfg types heap fuel v _ b s' h (size_mod_pos cfg)

/-- C25, witnessed on the cycle of two nodes that own each other, traversed
from a handle to the first: the run of the entry points returns and ends with
the depth counter at 0. -/
theorem C25_depth_balance_witness :
    (∃ b s', get_heap_allocated_bytes lp64 [] cycle_heap 8 (shared_ptr_at 64 4096)
      (initial_data efollow_raw_pointers.False none) = .ok (b, s')) ∧
    ∀ b s', get_heap_allocated_bytes lp64 [] cycle_heap 8 (shared_ptr_at 64 4096)
      (initial_data efollow_raw_pointers.False none) = .ok (b, s') →
      s'.current_depth = 0 :=
  ⟨⟨32, { follow_raw_pointers := efollow_raw_pointers.False,
           handled_addresses := [8192, 4096], unknown_types := none, current_depth := 0 },
     by decide⟩,
   (C25_depth_balance lp64 [] cycle_heap 8 (shared_ptr_at 64 4096)
      (initial_data efollow_raw_pointers.False none) (by decide)).1⟩


/-! ## What a traversal leaves behind is settled -/

/-- A property of computations that holds for the steps and is kept by
composition holds for the chain. -/
theorem chain_pred {cfg : Config} {types : List Nat} {heap : Heap}
    {P : (data_t → Result) → Prop} {recurse : Obj → data_t → Result}
    (hret : ∀ b, P (fun s => .ok (b, s)))
    (hfail : ∀ e, P (fun _ => .error e))
    (hcall : ∀ x, P (recurse x))
    (hptr : ∀ p, P (accumulate_pointer_f cfg heap recurse p))
    (hraw : ∀ p, P (Shape.run cfg heap recurse (.raw p)))
    (hseq : ∀ F G, P F → P G →
      P (fun s => F s >>= fun r1 => G r1.2 >>= fun r2 => pure (size_add cfg r1.1 r2.1, r2.2)))
    (hrecord : ∀ t, P (fun s => .ok (0, emplace_unknown t s)))
    (v : Obj) : P (get_heap_allocated_bytes_chain cfg types heap recurse v) :=
  (@chain_rel cfg types heap
    (fun F F' => F' = F ∧ P F) recurse recurse
    (fun b => ⟨rfl, hret b⟩) (fun e => ⟨rfl, hfail e⟩) (fun x => ⟨rfl, hcall x⟩)
    (fun p => ⟨rfl, hptr p⟩) (fun p => ⟨rfl, hraw p⟩)
    (fun F F' G G' hF hG => by
      obtain ⟨rfl, hF⟩ := hF
      obtain ⟨rfl, hG⟩ := hG
      exact ⟨rfl, hseq _ _ hF hG⟩)
    (fun t => ⟨rfl, hrecord t⟩) v).2

theorem settles_ret (cfg : Config) (types : List Nat) (heap : Heap) (b : Nat) :
    Settles cfg types heap (fun s => .ok (b, s)) := by
  intro s b' s' h
  cases h
  exact ⟨rfl, [], rfl, fun t _ _ => ⟨b, t, [], rfl, ⟨rfl, rfl⟩, List.Forall₂.nil, by simp⟩⟩

theorem settles_fail (cfg : Config) (types : List Nat) (heap : Heap) (e : Fault) :
    Settles cfg types heap (fun _ => .error e) := by
  intro s b' s' h
  cases h

theorem settles_record (cfg : Config) (types : List Nat) (heap : Heap) (u : Nat) :
    Settles cfg types heap (fun s => .ok (0, emplace_unknown u s)) := by
  intro s b' s' h
  cases h
  refine ⟨emplace_unknown_follow u s, [], emplace_unknown_handled u s, fun t _ _ =>
    ⟨0, emplace_unknown u t, [], rfl,
      ⟨emplace_unknown_follow u t, emplace_unknown_handled u t⟩, List.Forall₂.nil, by simp⟩⟩

theorem settles_seq (cfg : Config) (types : List Nat) (heap : Heap) (F G : data_t → Result)
    (hF : Settles cfg types heap F) (hG : Settles cfg types heap G) :
    Settles cfg types heap
      (fun s => F s >>= fun r1 => G r1.2 >>= fun r2 =>
        pure (size_add cfg r1.1 r2.1, r2.2)) := by
  intro s b s' h
  simp only [bind_eq_ok] at h
  obtain ⟨⟨b1, s1⟩, h1, ⟨b2, s2⟩, h2, heq⟩ := h
  cases heq
  obtain ⟨hf1, new1, hn1, hF1⟩ := hF s b1 s1 h1
  obtain ⟨hf2, new2, hn2, hG2⟩ := hG s1 b2 s2 h2
  refine ⟨hf2.trans hf1, new2 ++ new1, by rw [hn2, hn1, List.append_assoc], ?_⟩
  intro t hpol hsub
  have hsub1 : ∀ p ∈ s1.handled_addresses, p ∈ t.handled_addresses := by
    intro p hp
    apply hsub
    show p ∈ s2.handled_addresses
    rw [hn2]
    exact List.mem_append_right _ hp
  obtain ⟨l1, t1, cs1, ht1, ⟨hvf1, hvh1⟩, hc1, hb1⟩ := hF1 t hpol hsub1
  have hpol2 : policy_le t1.follow_raw_pointers s1.follow_raw_pointers := by
    rw [hvf1, hf1]; exact hpol
  have hsub2 : ∀ p ∈ s2.handled_addresses, p ∈ t1.handled_addresses := by
    rw [hvh1]; exact hsub
  obtain ⟨l2, t2, cs2, ht2, ⟨hvf2, hvh2⟩, hc2, hb2⟩ := hG2 t1 hpol2 hsub2
  rw [hvf1, hvh1] at hc2
  refine ⟨size_add cfg l1 l2, t2, cs2 ++ cs1, ?_, ⟨hvf2.trans hvf1, hvh2.trans hvh1⟩,
    List.rel_append hc2 hc1, ?_⟩
  · simp only [ht1, bind, Except.bind, ht2, pure, Except.pure]
  · simp only [size_add, List.sum_append, Nat.mod_mod]
    have e1 : (b1 + b2) % cfg.SIZE_MOD =
        ((b1 % cfg.SIZE_MOD) + (b2 % cfg.SIZE_MOD)) % cfg.SIZE_MOD := Nat.add_mod _ _ _
    rw [e1, hb1, hb2, ← Nat.add_mod, Nat.mod_add_mod]
    congr 1
    omega

theorem accumulate_pointer_f_settled (cfg : Config) (heap : Heap)
    (recurse : Obj → data_t → Result) (p : Nat) (t : data_t)
    (h : p = 0 ∨ p ∈ t.handled_addresses) :
    accumulate_pointer_f cfg heap recurse p t = .ok (0, t) := by
  unfold accumulate_pointer_f
  rcases h with h | h
  · simp [h, pure, Except.pure]
  · by_cases h0 : p = 0
    · simp [h0, pure, Except.pure]
    · simp [h0, h, pure, Except.pure]

theorem accumulate_pointer_f_settles_core (cfg : Config) (types : List Nat) (heap : Heap)
    (fuel : Nat)
    (hcall : ∀ x, Settles cfg types heap (get_heap_allocated_bytes cfg types heap fuel x))
    (p : Nat) (s : data_t) (b : Nat) (s' : data_t)
    (h : accumulate_pointer_f cfg heap (get_heap_allocated_bytes cfg types heap fuel) p s =
      .ok (b, s')) :
    s'.follow_raw_pointers = s.follow_raw_pointers ∧
    ∃ new, s'.handled_addresses = new ++ s.handled_addresses ∧
      ∀ t : data_t, policy_le t.follow_raw_pointers s.follow_raw_pointers →
        (∀ q ∈ s'.handled_addresses, q ∈ t.handled_addresses) →
        (p = 0 ∨ p ∈ t.handled_addresses) ∧
        ∃ cs, List.Forall₂ (Cost cfg types heap t.follow_raw_pointers t.handled_addresses)
            new cs ∧
          b % cfg.SIZE_MOD = cs.sum % cfg.SIZE_MOD := by
  by_cases hp : p = 0
  · rw [accumulate_pointer_f_settled cfg heap _ p s (Or.inl hp)] at h
    cases h
    exact ⟨rfl, [], rfl, fun t _ _ => ⟨Or.inl hp, [], List.Forall₂.nil, rfl⟩⟩
  · by_cases hmem : p ∈ s.handled_addresses
    · rw [accumulate_pointer_f_settled cfg heap _ p s (Or.inr hmem)] at h
      cases h
      exact ⟨rfl, [], rfl, fun t _ hsub => ⟨Or.inr (hsub p hmem), [], List.Forall₂.nil, rfl⟩⟩
    · simp only [accumulate_pointer_f, hp, hmem, if_false] at h
      cases hl : heap.lookup p with
      | none => rw [hl] at h; cases h
      | some pointee =>
        rw [hl] at h
        simp only [bind_eq_ok] at h
        obtain ⟨⟨b0, s0⟩, h0, heq⟩ := h
        cases heq
        obtain ⟨hf, new0, hn, hrest⟩ := hcall pointee _ b0 s0 h0
        refine ⟨hf, new0 ++ [p], by rw [hn]; simp, ?_⟩
        intro t hpol hsub
        have hpt : p ∈ t.handled_addresses := by
          apply hsub
          show p ∈ s0.handled_addresses
          rw [hn]
          simp
        obtain ⟨l0, t0, cs0, ht0, ⟨_, hvh⟩, hc0, hb0⟩ := hrest t hpol hsub
        refine ⟨Or.inr hpt, cs0 ++ [pointee.info.sizeof + l0],
          List.rel_append hc0 (List.Forall₂.cons
            ⟨fuel, pointee, t, l0, t0, hl, rfl, rfl, ht0, hvh, rfl⟩ List.Forall₂.nil), ?_⟩
        simp only [size_add, Nat.mod_mod, List.sum_append, List.sum_cons, List.sum_nil,
          Nat.add_zero]
        rw [Nat.add_mod, hb0, ← Nat.add_mod]
        congr 1
        omega

theorem settles_ptr (cfg : Config) (types : List Nat) (heap : Heap) (fuel : Nat)
    (hcall : ∀ x, Settles cfg types heap (get_heap_allocated_bytes cfg types heap fuel x))
    (p : Nat) :
    Settles cfg types heap
      (accumulate_pointer_f cfg heap (get_heap_allocated_bytes cfg types heap fuel) p) := by
  intro s b s' h
  obtain ⟨hf, new, hn, hrest⟩ :=
    accumulate_pointer_f_settles_core cfg types heap fuel hcall p s b s' h
  refine ⟨hf, new, hn, fun t hpol hsub => ?_⟩
  obtain ⟨hp, cs, hc, hb⟩ := hrest t hpol hsub
  exact ⟨0, t, cs, accumulate_pointer_f_settled cfg heap _ p t hp, ⟨rfl, rfl⟩, hc,
    by rw [hb, Nat.zero_add]⟩

theorem settles_raw (cfg : Config) (types : List Nat) (heap : Heap) (fuel : Nat)
    (hcall : ∀ x, Settles cfg types heap (get_heap_allocated_bytes cfg types heap fuel x))
    (p : Nat) :
    Settles cfg types heap
      (Shape.run cfg heap (get_heap_allocated_bytes cfg types heap fuel) (.raw p)) := by
  intro s b s' h
  simp only [Shape.run] at h
  split at h
  · next hs =>
    obtain ⟨hf, new, hn, hrest⟩ :=
      accumulate_pointer_f_settles_core cfg types heap fuel hcall p s b s' h
    refine ⟨hf, new, hn, fun t hpol hsub => ?_⟩
    obtain ⟨hp, cs, hc, hb⟩ := hrest t hpol hsub
    refine ⟨0, t, cs, ?_, ⟨rfl, rfl⟩, hc, by rw [hb, Nat.zero_add]⟩
    simp only [Shape.run]
    split
    · exact accumulate_pointer_f_settled cfg heap _ p t hp
    · rfl
  · next hs =>
    cases h
    refine ⟨rfl, [], rfl, fun t hpol _ => ⟨0, t, [], ?_, ⟨rfl, rfl⟩, List.Forall₂.nil, rfl⟩⟩
    simp only [Shape.run]
    split
    · next ht => exact absurd (hpol ht) hs
    · rfl

theorem settles_in_scope (cfg : Config) (types : List Nat) (heap : Heap)
    (F : data_t → Result) (hF : Settles cfg types heap F) :
    Settles cfg types heap (in_scope cfg F) := by
  intro s b s' h
  simp only [in_scope, scope_exit_t, bind_eq_ok] at h
  obtain ⟨⟨b1, s1⟩, h1, heq⟩ := h
  cases heq
  obtain ⟨hf, new, hn, hrest⟩ := hF _ b1 s1 h1
  refine ⟨hf, new, hn, fun t hpol hsub => ?_⟩
  obtain ⟨l, t1, cs, ht1, ⟨hvf, hvh⟩, hc, hb⟩ :=
    hrest { t with current_depth := size_inc cfg t.current_depth } hpol hsub
  refine ⟨l, { t1 with current_depth := size_dec cfg t1.current_depth }, cs, ?_,
    ⟨hvf, hvh⟩, hc, hb⟩
  simp only [in_scope, ht1]
  rfl

/-- Every run of the engine leaves its visited addresses settled. -/
theorem ghab_settles (cfg : Config) (types : List Nat) (heap : Heap) :
    ∀ (fuel : Nat) (v : Obj),
      Settles cfg types heap (get_heap_allocated_bytes cfg types heap fuel v) := by
  intro fuel
  induction fuel with
  | zero => intro v s b s' h; cases h
  | succ n ih =>
    intro v
    rw [ghab_succ_eq]
    split
    · exact settles_ret cfg types heap 0
    · apply settles_in_scope
      exact chain_pred (settles_ret cfg types heap) (settles_fail cfg types heap) ih
        (settles_ptr cfg types heap n ih) (settles_raw cfg types heap n ih)
        (settles_seq cfg types heap) (settles_record cfg types heap) v


/-! ## A traversal visits nothing outside a closed set -/

theorem grows_mem {s s' : data_t} (h : grows s s') :
    ∀ p ∈ s.handled_addresses, p ∈ s'.handled_addresses := by
  obtain ⟨_, ⟨n, hn⟩, _, _⟩ := h
  intro p hp
  rw [hn]
  exact List.mem_append_right _ hp

/-- A state that grew and has the visited addresses it started with did not
change them in between. -/
theorem grows_unchanged {g g1 g2 : data_t} (h1 : grows g g1) (h2 : grows g1 g2)
    (h : g2.handled_addresses = g.handled_addresses) :
    g1.handled_addresses = g.handled_addresses := by
  obtain ⟨_, ⟨n1, hn1⟩, _, _⟩ := h1
  obtain ⟨_, ⟨n2, hn2⟩, _, _⟩ := h2
  rw [hn2, hn1] at h
  have hlen := congrArg List.length h
  simp only [List.length_append] at hlen
  have : n1 = [] := List.eq_nil_of_length_eq_zero (by omega)
  rw [hn1, this, List.nil_append]

theorem grows_seq (cfg : Config) (F G : data_t → Result) (hF : Grows F) (hG : Grows G) :
    Grows (fun s => F s >>= fun r1 => G r1.2 >>= fun r2 =>
      pure (size_add cfg r1.1 r2.1, r2.2)) := by
  intro s b s' h
  simp only [bind_eq_ok] at h
  obtain ⟨⟨b1, s1⟩, h1, ⟨b2, s2⟩, h2, heq⟩ := h
  cases heq
  exact grows_trans _ _ _ (hF _ _ _ h1) (hG _ _ _ h2)

theorem grows_ptr (cfg : Config) (heap : Heap) (recurse : Obj → data_t → Result)
    (h : ∀ x, Grows (recurse x)) (p : Nat) :
    Grows (accumulate_pointer_f cfg heap recurse p) :=
  fun s b s' hx => accumulate_pointer_f_keeps grows_refl grows_trans grows_insert
    (fun x s b s' hr => h x s b s' hr) p s b s' hx

theorem grows_raw (cfg : Config) (heap : Heap) (recurse : Obj → data_t → Result)
    (h : ∀ x, Grows (recurse x)) (p : Nat) :
    Grows (Shape.run cfg heap recurse (.raw p)) := by
  intro s b s' hx
  simp only [Shape.run] at hx
  split at hx
  · exact grows_ptr cfg heap recurse h p s b s' hx
  · cases hx; exact grows_refl s

theorem minimal_seq (cfg : Config) (types : List Nat) (heap : Heap)
    (F F' G G' : data_t → Result)
    (hF : Grows F ∧ Grows F' ∧ Minimal cfg types heap F F')
    (hG : Grows G ∧ Grows G' ∧ Minimal cfg types heap G G') :
    Minimal cfg types heap
      (fun s => F s >>= fun r1 => G r1.2 >>= fun r2 => pure (size_add cfg r1.1 r2.1, r2.2))
      (fun s => F' s >>= fun r1 => G' r1.2 >>= fun r2 =>
        pure (size_add cfg r1.1 r2.1, r2.2)) := by
  intro s b s' g l g' hs hg hun hfol hsub hclosed
  simp only [bind_eq_ok] at hs hg
  obtain ⟨⟨b1, s1⟩, hs1, ⟨b2, s2⟩, hs2, heq⟩ := hs
  cases heq
  obtain ⟨⟨l1, g1⟩, hg1, ⟨l2, g2⟩, hg2, heq⟩ := hg
  cases heq
  have gr1 := hF.2.1 _ _ _ hg1
  have gr2 := hG.2.1 _ _ _ hg2
  have hun1 : g1.handled_addresses = g.handled_addresses := grows_unchanged gr1 gr2 hun
  have grs1 := hF.1 _ _ _ hs1
  have hsub1 := hF.2.2 s b1 s1 g l1 g1 hs1 hg1 hun1 hfol hsub hclosed
  intro q hq
  rw [← hun1]
  refine hG.2.2 s1 b2 s2 g1 l2 g2 hs2 hg2 (hun.trans hun1.symm) ?_ ?_ ?_ q hq
  · rw [grs1.1, gr1.1]; exact hfol
  · rw [hun1]; exact hsub1
  · rw [hun1, gr1.1]
    intro x hx hnx
    exact hclosed x hx (fun h => hnx (grows_mem grs1 x h))

theorem minimal_ptr (cfg : Config) (types : List Nat) (heap : Heap) (f1 f2 : Nat)
    (hmin : ∀ f x, Minimal cfg types heap (get_heap_allocated_bytes cfg types heap f1 x)
      (get_heap_allocated_bytes cfg types heap f x))
    (p : Nat) :
    Minimal cfg types heap
      (accumulate_pointer_f cfg heap (get_heap_allocated_bytes cfg types heap f1) p)
      (accumulate_pointer_f cfg heap (get_heap_allocated_bytes cfg types heap f2) p) := by
  intro s b s' g l g' hs hg hun hfol hsub hclosed
  by_cases hp : p = 0
  · rw [accumulate_pointer_f_settled cfg heap _ p s (Or.inl hp)] at hs
    cases hs
    exact hsub
  by_cases hmem : p ∈ s.handled_addresses
  · rw [accumulate_pointer_f_settled cfg heap _ p s (Or.inr hmem)] at hs
    cases hs
    exact hsub
  have hpg : p ∈ g.handled_addresses := by
    by_contra hng
    have gr := grows_ptr cfg heap _ (fun x => ghab_grows cfg types heap f2 x) p g l g' hg
    simp only [accumulate_pointer_f, hp, hng, if_false] at hg
    cases hl : heap.lookup p with
    | none => rw [hl] at hg; cases hg
    | some pointee =>
      rw [hl] at hg
      simp only [bind_eq_ok] at hg
      obtain ⟨⟨l0, g0⟩, hg0, heq⟩ := hg
      cases heq
      have gr0 := ghab_grows cfg types heap f2 pointee _ _ _ hg0
      have : p ∈ g0.handled_addresses := grows_mem gr0 p (List.mem_cons_self _ _)
      rw [hun] at this
      exact hng this
  obtain ⟨c, fuel, pointee, t, lt, t', hl, htf, hth, hrun, ht', _⟩ := hclosed p hpg hmem
  simp only [accumulate_pointer_f, hp, hmem, if_false, hl, bind_eq_ok] at hs
  obtain ⟨⟨b0, s0⟩, hs0, heq⟩ := hs
  cases heq
  have := hmin fuel pointee _ b0 s0 t lt t' hs0 hrun (ht'.trans hth.symm)
    (hfol.trans htf.symm)
    (by
      intro q hq
      rw [hth]
      rcases List.mem_cons.mp hq with rfl | hq
      · exact hpg
      · exact hsub q hq)
    (by
      intro x hx hnx
      rw [hth] at hx
      rw [htf, hth]
      exact hclosed x hx (fun h => hnx (List.mem_cons_of_mem _ h)))
  intro q hq
  rw [← hth]
  exact this q hq

theorem minimal_in_scope (cfg : Config) (types : List Nat) (heap : Heap)
    (F F' : data_t → Result) (h : Minimal cfg types heap F F') :
    Minimal cfg types heap (in_scope cfg F) (in_scope cfg F') := by
  intro s b s' g l g' hs hg hun hfol hsub hclosed
  simp only [in_scope, scope_exit_t, bind_eq_ok] at hs hg
  obtain ⟨⟨b1, s1⟩, hs1, heq⟩ := hs
  cases heq
  obtain ⟨⟨l1, g1⟩, hg1, heq⟩ := hg
  cases heq
  exact h { s with current_depth := size_inc cfg s.current_depth } b1 s1
    { g with current_depth := size_inc cfg g.current_depth } l1 g1 hs1 hg1 hun hfol hsub
    hclosed

theorem minimal_ret (cfg : Config) (types : List Nat) (heap : Heap) (b : Nat) :
    Grows (fun s => Except.ok (b, s)) ∧ Grows (fun s => Except.ok (b, s)) ∧
    Minimal cfg types heap (fun s => .ok (b, s)) (fun s => .ok (b, s)) := by
  refine ⟨?_, ?_, ?_⟩
  · intro s _ _ h; cases h; exact grows_refl s
  · intro s _ _ h; cases h; exact grows_refl s
  · intro s _ _ g _ _ hs _ _ _ hsub _
    cases hs
    exact hsub

theorem minimal_fail (cfg : Config) (types : List Nat) (heap : Heap) (e : Fault) :
    Grows (fun _ => (Except.error e : Result)) ∧ Grows (fun _ => (Except.error e : Result)) ∧
    Minimal cfg types heap (fun _ => .error e) (fun _ => .error e) := by
  refine ⟨?_, ?_, ?_⟩
  · intro s _ _ h; cases h
  · intro s _ _ h; cases h
  · intro s _ _ g _ _ hs
    cases hs

theorem minimal_record (cfg : Config) (types : List Nat) (heap : Heap) (u : Nat) :
    Grows (fun s => Except.ok (0, emplace_unknown u s)) ∧
    Grows (fun s => Except.ok (0, emplace_unknown u s)) ∧
    Minimal cfg types heap (fun s => .ok (0, emplace_unknown u s))
      (fun s => .ok (0, emplace_unknown u s)) := by
  refine ⟨?_, ?_, ?_⟩
  · intro s _ _ h; cases h; exact grows_emplace s u
  · intro s _ _ h; cases h; exact grows_emplace s u
  · intro s _ _ g _ _ hs _ _ _ hsub _
    cases hs
    rw [emplace_unknown_handled]
    exact hsub

theorem minimal_raw (cfg : Config) (types : List Nat) (heap : Heap) (f1 f2 : Nat)
    (hmin : ∀ f x, Minimal cfg types heap (get_heap_allocated_bytes cfg types heap f1 x)
      (get_heap_allocated_bytes cfg types heap f x))
    (p : Nat) :
    Minimal cfg types heap
      (Shape.run cfg heap (get_heap_allocated_bytes cfg types heap f1) (.raw p))
      (Shape.run cfg heap (get_heap_allocated_bytes cfg types heap f2) (.raw p)) := by
  intro s b s' g l g' hs hg hun hfol hsub hclosed
  simp only [Shape.run, hfol] at hs
  simp only [Shape.run] at hg
  split at hg
  · next hgt =>
    rw [if_pos hgt] at hs
    exact minimal_ptr cfg types heap f1 f2 hmin p s b s' g l g' hs hg hun hfol hsub hclosed
  · next hgt =>
    rw [if_neg hgt] at hs
    cases hs
    exact hsub

/-- A run of the engine from `s` stays inside every set that contains `s`, that
the engine leaves as it is, and whose further addresses are settled. -/
theorem ghab_minimal (cfg : Config) (types : List Nat) (heap : Heap) :
    ∀ (f1 f2 : Nat) (v : Obj),
      Minimal cfg types heap (get_heap_allocated_bytes cfg types heap f1 v)
        (get_heap_allocated_bytes cfg types heap f2 v) := by
  intro f1
  induction f1 with
  | zero => intro f2 v s b s' g l g' hs; cases hs
  | succ n ih =>
    intro f2 v
    cases f2 with
    | zero => intro s b s' g l g' _ hg; cases hg
    | succ m =>
      rw [ghab_succ_eq, ghab_succ_eq]
      split
      · intro s b s' g l g' hs hg hun hfol hsub hclosed
        cases hs
        exact hsub
      · apply minimal_in_scope
        have hgn : ∀ x, Grows (get_heap_allocated_bytes cfg types heap n x) :=
          fun x => ghab_grows cfg types heap n x
        have hgm : ∀ x, Grows (get_heap_allocated_bytes cfg types heap m x) :=
          fun x => ghab_grows cfg types heap m x
        have key := @chain_rel cfg types heap
          (fun F F' => Grows F ∧ Grows F' ∧ Minimal cfg types heap F F')
          (get_heap_allocated_bytes cfg types heap n)
          (get_heap_allocated_bytes cfg types heap m)
          (minimal_ret cfg types heap) (minimal_fail cfg types heap)
          (fun x => ⟨hgn x, hgm x, ih m x⟩)
          (fun p => ⟨grows_ptr cfg heap _ hgn p, grows_ptr cfg heap _ hgm p,
            minimal_ptr cfg types heap n m (fun f x => ih f x) p⟩)
          (fun p => ⟨grows_raw cfg heap _ hgn p, grows_raw cfg heap _ hgm p,
            minimal_raw cfg types heap n m (fun f x => ih f x) p⟩)
          (fun F F' G G' hF hG => ⟨grows_seq cfg F G hF.1 hG.1,
            grows_seq cfg F' G' hF.2.1 hG.2.1, minimal_seq cfg types heap F F' G G' hF hG⟩)
          (minimal_record cfg types heap) v
        exact key.2.2


/-! ## The order of two traversals -/

theorem ghab_ok_mono (cfg : Config) (types : List Nat) (heap : Heap) (n m : Nat)
    (hnm : n ≤ m) (x : Obj) (s : data_t) (r : Nat × data_t)
    (h : get_heap_allocated_bytes cfg types heap n x s = .ok r) :
    get_heap_allocated_bytes cfg types heap m x s = .ok r := by
  rw [ghab_mono cfg types heap n m hnm x s (by rw [h]; intro hc; cases hc), h]

/-- An address has one charge. -/
theorem cost_unique (cfg : Config) (types : List Nat) (heap : Heap)
    (follow : efollow_raw_pointers) (handled : List Nat) (x c c' : Nat)
    (h : Cost cfg types heap follow handled x c)
    (h' : Cost cfg types heap follow handled x c') : c = c' := by
  obtain ⟨f1, p1, t1, l1, u1, hl1, hf1, hh1, hr1, _, rfl⟩ := h
  obtain ⟨f2, p2, t2, l2, u2, hl2, hf2, hh2, hr2, _, rfl⟩ := h'
  rw [hl1] at hl2
  cases hl2
  have e1 := ghab_ok_mono cfg types heap f1 (max f1 f2) (Nat.le_max_left _ _) p1 t1 _ hr1
  have e2 := ghab_ok_mono cfg types heap f2 (max f1 f2) (Nat.le_max_right _ _) p1 t2 _ hr2
  have := ghab_respects cfg types heap (max f1 f2) p1 t1 t2
    ⟨hf1.trans hf2.symm, hh1.trans hh2.symm⟩
  rw [e1, e2] at this
  rw [this.1]

theorem forall2_exists_right {R : Nat → Nat → Prop} :
    ∀ {l : List Nat} {cs : List Nat}, List.Forall₂ R l cs → ∀ x ∈ l, ∃ c, R x c := by
  intro l cs h
  induction h with
  | nil => intro x hx; cases hx
  | cons hr _ ih =>
    intro x hx
    rcases List.mem_cons.mp hx with rfl | hx
    · exact ⟨_, hr⟩
    · exact ih x hx

theorem forall2_eq_map {R : Nat → Nat → Prop}
    (hfun : ∀ x c c', R x c → R x c' → c = c') (c : Nat → Nat) :
    ∀ {l : List Nat} {cs : List Nat}, List.Forall₂ R l cs → (∀ x ∈ l, R x (c x)) →
      cs = l.map c := by
  intro l cs h
  induction h with
  | nil => intro _; rfl
  | cons hr _ ih =>
    intro hc
    rw [List.map_cons, ih (fun x hx => hc x (List.mem_cons_of_mem _ hx)),
      hfun _ _ _ hr (hc _ (List.mem_cons_self _ _))]

/-- The charges of two lists with the same addresses add up to the same. -/
theorem forall2_perm_sum {R : Nat → Nat → Prop}
    (hfun : ∀ x c c', R x c → R x c' → c = c') {l l' cs cs' : List Nat}
    (hp : l.Perm l') (h : List.Forall₂ R l cs) (h' : List.Forall₂ R l' cs') :
    cs.sum = cs'.sum := by
  have hex : ∀ x, ∃ c, x ∈ l → R x c := by
    intro x
    by_cases hx : x ∈ l
    · obtain ⟨c, hc⟩ := forall2_exists_right h x hx
      exact ⟨c, fun _ => hc⟩
    · exact ⟨0, fun hx' => absurd hx' hx⟩
  choose c hc using hex
  rw [forall2_eq_map hfun c h (fun x hx => hc x hx),
    forall2_eq_map hfun c h' (fun x hx => hc x (hp.mem_iff.mpr hx))]
  exact (hp.map c).sum_eq

/-- Two traversals in a row stay inside every set that contains the start, that
both leave as it is, and whose further addresses are settled. -/
theorem ghab_two_inside (cfg : Config) (types : List Nat) (heap : Heap) (f : Nat)
    (x y : Obj) (s0 u1 u2 g gx gy : data_t) (bx by' lx ly : Nat)
    (hX : get_heap_allocated_bytes cfg types heap f x s0 = .ok (bx, u1))
    (hY : get_heap_allocated_bytes cfg types heap f y u1 = .ok (by', u2))
    (hXg : get_heap_allocated_bytes cfg types heap f x g = .ok (lx, gx))
    (hgx : gx.handled_addresses = g.handled_addresses)
    (hYg : get_heap_allocated_bytes cfg types heap f y g = .ok (ly, gy))
    (hgy : gy.handled_addresses = g.handled_addresses)
    (hfol : s0.follow_raw_pointers = g.follow_raw_pointers)
    (hsub : ∀ p ∈ s0.handled_addresses, p ∈ g.handled_addresses)
    (hclosed : ∀ a ∈ g.handled_addresses, a ∉ s0.handled_addresses →
      ∃ c, Cost cfg types heap g.follow_raw_pointers g.handled_addresses a c) :
    ∀ p ∈ u2.handled_addresses, p ∈ g.handled_addresses := by
  have gr := ghab_grows cfg types heap f x s0 bx u1 hX
  have h1 := ghab_minimal cfg types heap f f x s0 bx u1 g lx gx hX hXg hgx hfol hsub hclosed
  exact ghab_minimal cfg types heap f f y u1 by' u2 g ly gy hY hYg hgy (gr.1.trans hfol) h1
    (fun a ha hna => hclosed a ha (fun h => hna (grows_mem gr a h)))

/-- Two traversals in a row, seen from a state that contains what they
visited. -/
theorem ghab_two_settled (cfg : Config) (types : List Nat) (heap : Heap) (f : Nat)
    (x y : Obj) (s0 u1 u2 T : data_t) (bx by' : Nat)
    (hX : get_heap_allocated_bytes cfg types heap f x s0 = .ok (bx, u1))
    (hY : get_heap_allocated_bytes cfg types heap f y u1 = .ok (by', u2))
    (hpol : policy_le T.follow_raw_pointers s0.follow_raw_pointers)
    (hsub : ∀ p ∈ u2.handled_addresses, p ∈ T.handled_addresses) :
    ∃ new1 new2 lx ly Tx Ty cs1 cs2,
      u1.handled_addresses = new1 ++ s0.handled_addresses ∧
      u2.handled_addresses = new2 ++ u1.handled_addresses ∧
      get_heap_allocated_bytes cfg types heap f x T = .ok (lx, Tx) ∧
      Tx.handled_addresses = T.handled_addresses ∧
      get_heap_allocated_bytes cfg types heap f y T = .ok (ly, Ty) ∧
      Ty.handled_addresses = T.handled_addresses ∧
      List.Forall₂ (Cost cfg types heap T.follow_raw_pointers T.handled_addresses) new1 cs1 ∧
      List.Forall₂ (Cost cfg types heap T.follow_raw_pointers T.handled_addresses) new2 cs2 ∧
      bx % cfg.SIZE_MOD = (lx + cs1.sum) % cfg.SIZE_MOD ∧
      by' % cfg.SIZE_MOD = (ly + cs2.sum) % cfg.SIZE_MOD := by
  obtain ⟨hf1, new1, hn1, r1⟩ := ghab_settles cfg types heap f x s0 bx u1 hX
  obtain ⟨hf2, new2, hn2, r2⟩ := ghab_settles cfg types heap f y u1 by' u2 hY
  have hsub1 : ∀ p ∈ u1.handled_addresses, p ∈ T.handled_addresses := by
    intro p hp
    apply hsub
    rw [hn2]
    exact List.mem_append_right _ hp
  obtain ⟨lx, Tx, cs1, hx, ⟨_, hxh⟩, hc1, hb1⟩ := r1 T hpol hsub1
  obtain ⟨ly, Ty, cs2, hy, ⟨_, hyh⟩, hc2, hb2⟩ := r2 T (by rw [hf1]; exact hpol) hsub
  exact ⟨new1, new2, lx, ly, Tx, Ty, cs1, cs2, hn1, hn2, hx, hxh, hy, hyh, hc1, hc2, hb1, hb2⟩

/-- The order of two traversals does not matter: started from the same state,
`a` then `b` and `b` then `a` return the same sum of bytes (as `size_t`) and end
with the same visited addresses. -/
theorem ghab_swap (cfg : Config) (types : List Nat) (heap : Heap) (f : Nat)
    (a b : Obj) (s0 s1 s2 t1 t2 : data_t) (x1 y1 y2 x2 : Nat)
    (hnd : s0.handled_addresses.Nodup)
    (h1 : get_heap_allocated_bytes cfg types heap f a s0 = .ok (x1, s1))
    (h2 : get_heap_allocated_bytes cfg types heap f b s1 = .ok (y1, s2))
    (h3 : get_heap_allocated_bytes cfg types heap f b s0 = .ok (y2, t1))
    (h4 : get_heap_allocated_bytes cfg types heap f a t1 = .ok (x2, t2)) :
    (x1 + y1) % cfg.SIZE_MOD = (y2 + x2) % cfg.SIZE_MOD ∧
    ∀ p, p ∈ s2.handled_addresses ↔ p ∈ t2.handled_addresses := by
  have g1 := ghab_grows cfg types heap f a s0 x1 s1 h1
  have g2 := ghab_grows cfg types heap f b s1 y1 s2 h2
  have g3 := ghab_grows cfg types heap f b s0 y2 t1 h3
  have g4 := ghab_grows cfg types heap f a t1 x2 t2 h4
  have gs := grows_trans _ _ _ g1 g2
  have gt := grows_trans _ _ _ g3 g4
  -- both final sets are settled
  obtain ⟨nA, nB', la, lb, Ta, Tb, cA, cB', hnA, hnB', hra, hTa, hrb, hTb, hcA, hcB', hbA,
    hbB'⟩ := ghab_two_settled cfg types heap f a b s0 s1 s2 s2 x1 y1 h1 h2
      (fun h => by rw [← gs.1]; exact h) (fun _ h => h)
  obtain ⟨mB, mA', kb, ka, Ub, Ua, dB, dA', hmB, hmA', hrb2, hUb, hra2, hUa, hdB, hdA', _,
    _⟩ := ghab_two_settled cfg types heap f b a s0 t1 t2 t2 y2 x2 h3 h4
      (fun h => by rw [← gt.1]; exact h) (fun _ h => h)
  have closed_s : ∀ p ∈ s2.handled_addresses, p ∉ s0.handled_addresses →
      ∃ c, Cost cfg types heap s2.follow_raw_pointers s2.handled_addresses p c := by
    intro p hp hn
    rw [hnB', hnA] at hp
    rcases List.mem_append.mp hp with hp | hp
    · exact forall2_exists_right hcB' p hp
    · rcases List.mem_append.mp hp with hp | hp
      · exact forall2_exists_right hcA p hp
      · exact absurd hp hn
  have closed_t : ∀ p ∈ t2.handled_addresses, p ∉ s0.handled_addresses →
      ∃ c, Cost cfg types heap t2.follow_raw_pointers t2.handled_addresses p c := by
    intro p hp hn
    rw [hmA', hmB] at hp
    rcases List.mem_append.mp hp with hp | hp
    · exact forall2_exists_right hdA' p hp
    · rcases List.mem_append.mp hp with hp | hp
      · exact forall2_exists_right hdB p hp
      · exact absurd hp hn
  have in_t : ∀ p ∈ s2.handled_addresses, p ∈ t2.handled_addresses :=
    ghab_two_inside cfg types heap f a b s0 s1 s2 t2 Ua Ub x1 y1 ka kb h1 h2 hra2 hUa hrb2 hUb
      gt.1.symm (grows_mem gt) closed_t
  have in_s : ∀ p ∈ t2.handled_addresses, p ∈ s2.handled_addresses :=
    ghab_two_inside cfg types heap f b a s0 t1 t2 s2 Tb Ta y2 x2 lb la h3 h4 hrb hTb hra hTa
      gs.1.symm (grows_mem gs) closed_s
  refine ⟨?_, fun p => ⟨in_t p, in_s p⟩⟩
  -- the second order seen from the final state of the first
  obtain ⟨eB, eA', lb', la', Vb, Va, cB, cA', heB, heA', hrb3, _, hra3, _, hcB, hcA', hbB,
    hbA'⟩ := ghab_two_settled cfg types heap f b a s0 t1 t2 s2 y2 x2 h3 h4
      (fun h => by rw [← gs.1]; exact h) in_s
  rw [hrb] at hrb3
  rw [hra] at hra3
  cases hrb3
  cases hra3
  have hperm : (nB' ++ nA).Perm (eA' ++ eB) := by
    have hp : s2.handled_addresses.Perm t2.handled_addresses :=
      (List.perm_ext_iff_of_nodup (gs.2.2.1 hnd) (gt.2.2.1 hnd)).mpr
        (fun p => ⟨in_t p, in_s p⟩)
    rw [hnB', hnA, heA', heB, ← List.append_assoc, ← List.append_assoc] at hp
    exact (List.perm_append_right_iff _).mp hp
  have hsum := forall2_perm_sum
    (cost_unique cfg types heap s2.follow_raw_pointers s2.handled_addresses) hperm
    (List.rel_append hcB' hcA) (List.rel_append hcA' hcB)
  simp only [List.sum_append] at hsum
  rw [Nat.add_mod, hbA, hbB', ← Nat.add_mod, Nat.add_mod y2, hbB, hbA', ← Nat.add_mod]
  congr 1
  omega


/-! ## The order of the members of a pair -/

/-- What a run of the engine on a `std::pair` that returns is made of. -/
theorem ghab_pair_ok (cfg : Config) (types : List Nat) (heap : Heap) (f : Nat)
    (v a b : Obj) (s s' : data_t) (w : Nat) (h : is_pair cfg v a b)
    (hr : get_heap_allocated_bytes cfg types heap f v s = .ok (w, s')) :
    ∃ g x1 s1 y1 s2, f = g + 1 ∧
      get_heap_allocated_bytes cfg types heap g a
        { s with current_depth := size_inc cfg s.current_depth } = .ok (x1, s1) ∧
      get_heap_allocated_bytes cfg types heap g b s1 = .ok (y1, s2) ∧
      w = (x1 + y1) % cfg.SIZE_MOD ∧ s'.handled_addresses = s2.handled_addresses := by
  cases f with
  | zero => cases hr
  | succ g =>
    rw [ghab_not_scalar cfg types heap g v s h.1.1 h.1.2.1, chain_pair _ _ _ _ _ _ _ _ h] at hr
    cases h1 : get_heap_allocated_bytes cfg types heap g a
        { s with current_depth := size_inc cfg s.current_depth } with
    | error e => rw [h1] at hr; cases hr
    | ok r1 =>
      obtain ⟨x1, s1⟩ := r1
      rw [h1] at hr
      cases h2 : get_heap_allocated_bytes cfg types heap g b s1 with
      | error e =>
        simp only [bind, Except.bind, h2] at hr
        cases hr
      | ok r2 =>
        obtain ⟨y1, s2⟩ := r2
        simp only [bind, Except.bind, h2, pure, Except.pure, scope_exit_t, size_add] at hr
        cases hr
        exact ⟨g, x1, s1, y1, s2, rfl, h1, h2, rfl, rfl⟩

/-- The two orders of a pair, from a state without a repeated address. -/
theorem ghab_pair_swap (cfg : Config) (types : List Nat) (heap : Heap) (f1 f2 : Nat)
    (pab pba a b : Obj) (hab : is_pair cfg pab a b) (hba : is_pair cfg pba b a)
    (s s1 s2 : data_t) (w1 w2 : Nat) (hnd : s.handled_addresses.Nodup)
    (h1 : get_heap_allocated_bytes cfg types heap f1 pab s = .ok (w1, s1))
    (h2 : get_heap_allocated_bytes cfg types heap f2 pba s = .ok (w2, s2)) :
    w1 = w2 ∧ ∀ p, p ∈ s1.handled_addresses ↔ p ∈ s2.handled_addresses := by
  obtain ⟨g1, x1, u1, y1, u2, _, ha1, hb1, rfl, e1⟩ :=
    ghab_pair_ok cfg types heap f1 pab a b s s1 w1 hab h1
  obtain ⟨g2, y2, t1, x2, t2, _, hb2, ha2, rfl, e2⟩ :=
    ghab_pair_ok cfg types heap f2 pba b a s s2 w2 hba h2
  have m1 := Nat.le_max_left g1 g2
  have m2 := Nat.le_max_right g1 g2
  have := ghab_swap cfg types heap (max g1 g2) a b
    { s with current_depth := size_inc cfg s.current_depth } u1 u2 t1 t2 x1 y1 y2 x2 hnd
    (ghab_ok_mono cfg types heap g1 _ m1 _ _ _ ha1)
    (ghab_ok_mono cfg types heap g1 _ m1 _ _ _ hb1)
    (ghab_ok_mono cfg types heap g2 _ m2 _ _ _ hb2)
    (ghab_ok_mono cfg types heap g2 _ m2 _ _ _ ha2)
  rw [e1, e2]
  exact this

/-- C23. Traversal order does not change the total.  The heap holds one object
per address.  For a `std::pair` of `a` and `b` and a `std::pair` of `b` and `a`:
whenever `weight_in_bytes` returns for both, it returns the same number, with
either raw pointer policy; started from any state that lists no address twice,
the engine returns the same byte count for both and ends with the same set of
visited addresses, so a pointee that both members reach is charged once in
either order; and on a valid graph both weights are returned, from some budget
on. -/
theorem C23_pair_order (cfg : Config) (types : List Nat) (heap : Heap)
    (pab pba a b : Obj) (hab : is_pair cfg pab a b) (hba : is_pair cfg pba b a) :
    (∀ f1 f2 follow w1 w2,
      weight_in_bytes cfg types heap f1 pab follow = .ok w1 →
      weight_in_bytes cfg types heap f2 pba follow = .ok w2 → w1 = w2) ∧
    (∀ f1 f2 s w1 s1 w2 s2, s.handled_addresses.Nodup →
      get_heap_allocated_bytes cfg types heap f1 pab s = .ok (w1, s1) →
      get_heap_allocated_bytes cfg types heap f2 pba s = .ok (w2, s2) →
      w1 = w2 ∧ ∀ p, p ∈ s1.handled_addresses ↔ p ∈ s2.handled_addresses) ∧
    (valid_graph heap pab → valid_graph heap pba → ∀ follow, ∃ n w, ∀ f, n ≤ f →
      weight_in_bytes cfg types heap f pab follow = .ok w ∧
      weight_in_bytes cfg types heap f pba follow = .ok w) := by
  have key := fun f1 f2 s w1 s1 w2 s2 hnd h1 h2 =>
    ghab_pair_swap cfg types heap f1 f2 pab pba a b hab hba s s1 s2 w1 w2 hnd h1 h2
  refine ⟨?_, key, ?_⟩
  · intro f1 f2 follow w1 w2 h1 h2
    simp only [weight_in_bytes] at h1 h2
    cases e1 : get_heap_allocated_bytes cfg types heap f1 pab (initial_data follow none) with
    | error e => rw [e1] at h1; cases h1
    | ok r1 =>
      cases e2 : get_heap_allocated_bytes cfg types heap f2 pba (initial_data follow none) with
      | error e => rw [e2] at h2; cases h2
      | ok r2 =>
        rw [e1] at h1
        rw [e2] at h2
        cases h1
        cases h2
        exact (key f1 f2 _ _ _ _ _ List.nodup_nil e1 e2).1
  · intro v1 v2 follow
    obtain ⟨n1, b1, s1, r1⟩ :=
      get_heap_allocated_bytes_returns cfg types heap pab (initial_data follow none) v1
    obtain ⟨n2, b2, s2, r2⟩ :=
      get_heap_allocated_bytes_returns cfg types heap pba (initial_data follow none) v2
    have hb : b1 = b2 :=
      (key (max n1 n2) (max n1 n2) _ _ _ _ _ List.nodup_nil
        (r1 _ (Nat.le_max_left _ _)) (r2 _ (Nat.le_max_right _ _))).1
    subst hb
    refine ⟨max n1 n2, b1, fun f hf => ?_⟩
    simp only [weight_in_bytes, r1 f (le_trans (Nat.le_max_left _ _) hf),
      r2 f (le_trans (Nat.le_max_right _ _) hf)]
    exact ⟨rfl, rfl⟩


/-! ## The raw pointer policy -/

theorem forall2_of_exists {R : Nat → Nat → Prop} :
    ∀ (l : List Nat), (∀ x ∈ l, ∃ c, R x c) → ∃ cs, List.Forall₂ R l cs := by
  intro l
  induction l with
  | nil => intro _; exact ⟨[], List.Forall₂.nil⟩
  | cons x xs ih =>
    intro h
    obtain ⟨c, hc⟩ := h x (List.mem_cons_self x xs)
    obtain ⟨cs, hcs⟩ := ih (fun y hy => h y (List.mem_cons_of_mem x hy))
    exact ⟨c :: cs, List.Forall₂.cons hc hcs⟩

/-- The run that follows raw pointers against the run that does not, from the
state of an entry point: the second visits a subset of what the first visits,
and the first returns, as `size_t`, what the second returns plus the charges of
the pointees that it alone visits. -/
theorem ghab_follow_extra (cfg : Config) (types : List Nat) (heap : Heap) (f : Nat)
    (v : Obj) (c1 c2 : Option (List Nat)) (wT wF : Nat) (sT sF : data_t)
    (hT : get_heap_allocated_bytes cfg types heap f v
      (initial_data efollow_raw_pointers.True c1) = .ok (wT, sT))
    (hF : get_heap_allocated_bytes cfg types heap f v
      (initial_data efollow_raw_pointers.False c2) = .ok (wF, sF)) :
    (∀ p ∈ sF.handled_addresses, p ∈ sT.handled_addresses) ∧
    ∃ cs, List.Forall₂
        (Cost cfg types heap efollow_raw_pointers.False sT.handled_addresses)
        (sT.handled_addresses.filter (fun p => decide (p ∉ sF.handled_addresses))) cs ∧
      wT % cfg.SIZE_MOD = (wF + cs.sum) % cfg.SIZE_MOD := by
  obtain ⟨_, newT, hnT, rT⟩ := ghab_settles cfg types heap f v _ wT sT hT
  obtain ⟨l, t', csT, hrt, ⟨_, hth⟩, hcT, hbT⟩ :=
    rT { sT with follow_raw_pointers := efollow_raw_pointers.False } (fun _ => rfl)
      (fun p hp => hp)
  have hnT' : sT.handled_addresses = newT := by
    rw [hnT]
    exact List.append_nil newT
  subst hnT'
  have hsub : ∀ p ∈ sF.handled_addresses, p ∈ sT.handled_addresses :=
    ghab_minimal cfg types heap f f v _ wF sF
      { sT with follow_raw_pointers := efollow_raw_pointers.False } l t' hF hrt hth rfl
      (fun p hp => by cases hp) (fun x hx _ => forall2_exists_right hcT x hx)
  obtain ⟨_, newF, hnF, rF⟩ := ghab_settles cfg types heap f v _ wF sF hF
  obtain ⟨l', t'', csF, hrt', _, hcF, hbF⟩ :=
    rF { sT with follow_raw_pointers := efollow_raw_pointers.False }
      (fun h => by cases h) hsub
  rw [hrt] at hrt'
  cases hrt'
  have hnF' : sF.handled_addresses = newF := by
    rw [hnF]
    exact List.append_nil newF
  subst hnF'
  have ndT : sT.handled_addresses.Nodup :=
    (ghab_grows cfg types heap f v _ wT sT hT).2.2.1 List.nodup_nil
  have ndF : sF.handled_addresses.Nodup :=
    (ghab_grows cfg types heap f v _ wF sF hF).2.2.1 List.nodup_nil
  obtain ⟨csE, hcE⟩ := forall2_of_exists
    (sT.handled_addresses.filter (fun p => decide (p ∉ sF.handled_addresses)))
    (fun x hx => forall2_exists_right hcT x (List.mem_filter.mp hx).1)
  refine ⟨hsub, csE, hcE, ?_⟩
  have hperm : sT.handled_addresses.Perm (sF.handled_addresses ++
      sT.handled_addresses.filter (fun p => decide (p ∉ sF.handled_addresses))) := by
    refine (List.perm_ext_iff_of_nodup ndT ?_).mpr ?_
    · refine List.Nodup.append ndF (ndT.filter _) ?_
      intro x hx hx'
      have := (List.mem_filter.mp hx').2
      simp only [decide_eq_true_eq] at this
      exact this hx
    · intro x
      simp only [List.mem_append, List.mem_filter, decide_eq_true_eq]
      constructor
      · intro hx
        by_cases hm : x ∈ sF.handled_addresses
        · exact Or.inl hm
        · exact Or.inr ⟨hx, hm⟩
      · rintro (hx | ⟨hx, _⟩)
        · exact hsub x hx
        · exact hx
  have hsum := forall2_perm_sum
    (cost_unique cfg types heap efollow_raw_pointers.False sT.handled_addresses) hperm
    hcT (List.rel_append hcF hcE)
  rw [List.sum_append] at hsum
  rw [hbT, hsum, ← Nat.mod_add_mod wF, hbF, Nat.mod_add_mod, Nat.add_assoc]

/-- C24, as stated, fails because the sum is a `size_t`: a pair of a value whose
hook reports `SIZE_MAX` and a raw pointer to a byte vector on the heap (24 bytes
and a buffer of 16) weighs `SIZE_MAX` when raw pointers are not followed and,
the sum wrapping around, 39 when they are. -/
theorem C24_follow_raw_pointers_counterexample :
    weight_in_bytes lp64 [] order_test_heap 4 wrapping_test_value
      efollow_raw_pointers.False = .ok (2 ^ 64 - 1) ∧
    weight_in_bytes lp64 [] order_test_heap 4 wrapping_test_value
      efollow_raw_pointers.True = .ok 39 ∧
    ¬ (2 ^ 64 - 1 ≤ 39) := by
  refine ⟨?_, ?_, ?_⟩ <;> decide

/-- C24, amended.  The heap holds one object per address.  For every value and
allowlist, whenever the traversal returns with both raw pointer policies: every
address visited without following raw pointers is visited when following them;
the estimate with `True` is, as `size_t`, the estimate with `False` plus the
charges (`sizeof` of the pointee plus its own weight) of the pointees visited
with `True` only; so when that sum does not wrap around, the estimate with
`True` is greater than or equal to the one with `False`.  On a valid graph both
estimates are returned, from some budget on. -/
theorem C24_follow_raw_pointers (cfg : Config) (types : List Nat) (heap : Heap) (v : Obj) :
    (∀ f1 f2 c1 c2 wT sT wF sF,
      get_heap_allocated_bytes cfg types heap f1 v
        (initial_data efollow_raw_pointers.True c1) = .ok (wT, sT) →
      get_heap_allocated_bytes cfg types heap f2 v
        (initial_data efollow_raw_pointers.False c2) = .ok (wF, sF) →
      (∀ p ∈ sF.handled_addresses, p ∈ sT.handled_addresses) ∧
      ∃ cs, List.Forall₂
          (Cost cfg types heap efollow_raw_pointers.False sT.handled_addresses)
          (sT.handled_addresses.filter (fun p => decide (p ∉ sF.handled_addresses))) cs ∧
        wT % cfg.SIZE_MOD = (wF + cs.sum) % cfg.SIZE_MOD ∧
        (wF + cs.sum < cfg.SIZE_MOD → wF ≤ wT)) ∧
    (∀ f1 f2 wT wF,
      weight_in_bytes cfg types heap f1 v efollow_raw_pointers.True = .ok wT →
      weight_in_bytes cfg types heap f2 v efollow_raw_pointers.False = .ok wF →
      ∃ sT sF cs,
        get_heap_allocated_bytes cfg types heap f1 v
          (initial_data efollow_raw_pointers.True none) = .ok (wT, sT) ∧
        get_heap_allocated_bytes cfg types heap f2 v
          (initial_data efollow_raw_pointers.False none) = .ok (wF, sF) ∧
        List.Forall₂
          (Cost cfg types heap efollow_raw_pointers.False sT.handled_addresses)
          (sT.handled_addresses.filter (fun p => decide (p ∉ sF.handled_addresses))) cs ∧
        (wF + cs.sum < cfg.SIZE_MOD → wF ≤ wT)) ∧
    (valid_graph heap v → ∃ n wT wF, ∀ f, n ≤ f →
      weight_in_bytes cfg types heap f v efollow_raw_pointers.True = .ok wT ∧
      weight_in_bytes cfg types heap f v efollow_raw_pointers.False = .ok wF) := by
  have key : ∀ f1 f2 c1 c2 wT sT wF sF,
      get_heap_allocated_bytes cfg types heap f1 v
        (initial_data efollow_raw_pointers.True c1) = .ok (wT, sT) →
      get_heap_allocated_bytes cfg types heap f2 v
        (initial_data efollow_raw_pointers.False c2) = .ok (wF, sF) →
      (∀ p ∈ sF.handled_addresses, p ∈ sT.handled_addresses) ∧
      ∃ cs, List.Forall₂
          (Cost cfg types heap efollow_raw_pointers.False sT.handled_addresses)
          (sT.handled_addresses.filter (fun p => decide (p ∉ sF.handled_addresses))) cs ∧
        wT % cfg.SIZE_MOD = (wF + cs.sum) % cfg.SIZE_MOD ∧
        (wF + cs.sum < cfg.SIZE_MOD → wF ≤ wT) := by
    intro f1 f2 c1 c2 wT sT wF sF hT hF
    obtain ⟨hsub, cs, hcs, hb⟩ := ghab_follow_extra cfg types heap (max f1 f2) v c1 c2 wT wF
      sT sF (ghab_ok_mono cfg types heap f1 _ (Nat.le_max_left _ _) _ _ _ hT)
      (ghab_ok_mono cfg types heap f2 _ (Nat.le_max_right _ _) _ _ _ hF)
    refine ⟨hsub, cs, hcs, hb, fun hlt => ?_⟩
    rw [Nat.mod_eq_of_lt hlt] at hb
    have := Nat.mod_le wT cfg.SIZE_MOD
    omega
  refine ⟨key, ?_, ?_⟩
  · intro f1 f2 wT wF h1 h2
    simp only [weight_in_bytes] at h1 h2
    cases e1 : get_heap_allocated_bytes cfg types heap f1 v
        (initial_data efollow_raw_pointers.True none) with
    | error e => rw [e1] at h1; cases h1
    | ok r1 =>
      cases e2 : get_heap_allocated_bytes cfg types heap f2 v
          (initial_data efollow_raw_pointers.False none) with
      | error e => rw [e2] at h2; cases h2
      | ok r2 =>
        rw [e1] at h1
        rw [e2] at h2
        cases h1
        cases h2
        obtain ⟨_, cs, hcs, _, hle⟩ := key f1 f2 none none _ _ _ _ e1 e2
        exact ⟨r1.2, r2.2, cs, rfl, rfl, hcs, hle⟩
  · intro hv
    obtain ⟨n1, b1, s1, r1⟩ := get_heap_allocated_bytes_returns cfg types heap v
      (initial_data efollow_raw_pointers.True none) hv
    obtain ⟨n2, b2, s2, r2⟩ := get_heap_allocated_bytes_returns cfg types heap v
      (initial_data efollow_raw_pointers.False none) hv
    refine ⟨max n1 n2, b1, b2, fun f hf => ?_⟩
    simp only [weight_in_bytes, r1 f (le_trans (Nat.le_max_left _ _) hf),
      r2 f (le_trans (Nat.le_max_right _ _) hf)]
    exact ⟨rfl, rfl⟩


/-- C23, witnessed on two handles that reach a common pointee: the first handle
alone weighs 56 (the node, 16 bytes, and the byte vector it owns, 24 bytes and a
buffer of 16), the second alone weighs 40, and the pair weighs 56 in either
order. -/
theorem C23_pair_order_witness :
    is_pair lp64 order_test_pair (shared_ptr_at 64 4096) (shared_ptr_at 80 8192) ∧
    is_pair lp64 order_test_pair_swapped (shared_ptr_at 80 8192) (shared_ptr_at 64 4096) ∧
    weight_in_bytes lp64 [] order_test_heap 8 (shared_ptr_at 64 4096) = .ok 56 ∧
    weight_in_bytes lp64 [] order_test_heap 8 (shared_ptr_at 80 8192) = .ok 40 ∧
    weight_in_bytes lp64 [] order_test_heap 8 order_test_pair = .ok 56 ∧
    weight_in_bytes lp64 [] order_test_heap 8 order_test_pair_swapped = .ok 56 ∧
    (∀ f1 f2 follow w1 w2,
      weight_in_bytes lp64 [] order_test_heap f1 order_test_pair follow = .ok w1 →
      weight_in_bytes lp64 [] order_test_heap f2 order_test_pair_swapped follow = .ok w2 →
      w1 = w2) :=
  ⟨⟨⟨rfl, rfl, rfl, rfl, rfl, rfl, by decide⟩, rfl, rfl, rfl, rfl, rfl⟩,
   ⟨⟨rfl, rfl, rfl, rfl, rfl, rfl, by decide⟩, rfl, rfl, rfl, rfl, rfl⟩,
   by decide, by decide, by decide, by decide,
   (C23_pair_order lp64 [] order_test_heap order_test_pair order_test_pair_swapped
      (shared_ptr_at 64 4096) (shared_ptr_at 80 8192)
      ⟨⟨rfl, rfl, rfl, rfl, rfl, rfl, by decide⟩, rfl, rfl, rfl, rfl, rfl⟩
      ⟨⟨rfl, rfl, rfl, rfl, rfl, rfl, by decide⟩, rfl, rfl, rfl, rfl, rfl⟩).1⟩

/-- C24 amended, witnessed on a pair of an owning handle and a raw pointer to
two byte vectors: the pair weighs 40 when raw pointers are not followed and 80
when they are, the difference being the charge of the pointee of the raw
pointer. -/
theorem C24_follow_raw_pointers_witness :
    weight_in_bytes lp64 [] raw_pointer_pair_heap 4 raw_pointer_pair
      efollow_raw_pointers.True = .ok 80 ∧
    weight_in_bytes lp64 [] raw_pointer_pair_heap 4 raw_pointer_pair
      efollow_raw_pointers.False = .ok 40 ∧
    ∃ sT sF cs,
      get_heap_allocated_bytes lp64 [] raw_pointer_pair_heap 4 raw_pointer_pair
        (initial_data efollow_raw_pointers.True none) = .ok (80, sT) ∧
      get_heap_allocated_bytes lp64 [] raw_pointer_pair_heap 4 raw_pointer_pair
        (initial_data efollow_raw_pointers.False none) = .ok (40, sF) ∧
      List.Forall₂
        (Cost lp64 [] raw_pointer_pair_heap efollow_raw_pointers.False sT.handled_addresses)
        (sT.handled_addresses.filter (fun p => decide (p ∉ sF.handled_addresses))) cs ∧
      (40 + cs.sum < lp64.SIZE_MOD → 40 ≤ 80) :=
  ⟨by decide, by decide,
   (C24_follow_raw_pointers lp64 [] raw_pointer_pair_heap raw_pointer_pair).2.1 4 4 80 40
     (by decide) (by decide)⟩

end wib
